import Mathlib

/-! # notesum-hybrid: the sync engine (`src/firebase2.js`), the scheduler, the line parser and the calendar

A shallow embedding of the sync engine and of the two stores it works on
(`src/utils/noteTextStorage.js`, the Firestore collections), followed by the
properties of the engine.

Conventions of the embedding.

* Timestamps are ISO-8601 strings produced by `toISOString`; the embedding
  keeps their epoch-millisecond value. `none` is an absent or unparseable
  timestamp, whose `Date` has the time value NaN.
* A field that may hold `null`/`undefined` is an `Option`; `none` is that
  absent value. The numeric flags `pendingSync` and `isEncrypted` are
  naturals, an absent flag being `0`.
* `length` of a string is its number of UTF-16 code units, as in JavaScript.
* An `async` function is a computation over the state of the world (`M`). A
  thrown error keeps the writes made before it. What the program does not
  decide (which remote calls are rejected, the values of `Math.random()`, the
  moment the user locks the vault) is read from an `Oracle`; the operations of
  the local IndexedDB tables do not fail.
* Loops that the source does not bound (the download loop, the mutual calls
  of `startNewSyncJob` and `resumeSyncJob`) take a number of steps, `fuel`;
  the outcome `Res.hang` means that the call has not returned within them.
* Console output and the events dispatched to the document are left out,
  with `updateProgressCounter`, which only throttles such events.
-/

namespace NoteSum

/-! ## Data model -/

abbrev PageId := String

/-- A page record, as held in the Dexie table `pages` and as the data of a
Firestore document of the collection `users/{uid}/pages` (the upload writes a
copy of the local record, so both have the same fields). -/
structure Page where
  id : PageId
  name : Option String
  order : Option Int
  createdAt : Option Int
  lastModified : Option Int
  lastSynced : Option Int
  content : Option String
  isEncrypted : Nat
  pendingSync : Nat
  syncStatus : Option String
  deriving DecidableEq, Repr

/-- A document of `users/{uid}/deletedPages`. -/
structure Tombstone where
  pageId : PageId
  deletedAt : Int
  deriving DecidableEq, Repr

/-- Number of UTF-16 code units of a character. -/
def utf16Units (c : Char) : Nat := if c.toNat < 65536 then 1 else 2

/-- JavaScript `String.prototype.length`. -/
def jsLength (s : String) : Nat := (s.data.map utf16Units).sum

/-- Truthiness of a string-valued field: absent and `""` are falsy. -/
def truthyStr : Option String → Bool
  | some s => s != ""
  | none => false

/-- Truthiness of a number-valued field: absent and `0` are falsy. -/
def truthyInt : Option Int → Bool
  | some n => n != 0
  | none => false

/-- The value of `Math.abs(localTime - remoteTime)` for two `Date`s; `none` is
NaN, the result when either date is invalid. -/
def timeDiff (localTime remoteTime : Option Int) : Option Nat :=
  match localTime, remoteTime with
  | some l, some r => some (l - r).natAbs
  | _, _ => none

/-- The comparison `a > b` of two `Date`s; false when either is invalid. -/
def dateGt (a b : Option Int) : Bool :=
  match a, b with
  | some x, some y => decide (y < x)
  | _, _ => false

/-! ## Merge policy (`shouldMergePages`, `mergeAndSavePages`) -/

/-- The test `timeDiff > bound` on a possibly-NaN number. -/
def exceeds (d : Option Nat) (bound : Nat) : Bool :=
  match d with
  | some x => decide (bound < x)
  | none => false

/-- Model of `shouldMergePages(localPage, remotePage)`. -/
def shouldMergePages (localPage remotePage : Page) : Bool :=
  if localPage.pendingSync = 1 then
    if localPage.content ≠ remotePage.content ∨
        localPage.name ≠ remotePage.name ∨
        localPage.order ≠ remotePage.order then
      true
    else
      false
  else if exceeds (timeDiff localPage.lastModified remotePage.lastModified) 60000 then
    true
  else if localPage.content ≠ remotePage.content then
    true
  else if localPage.name ≠ remotePage.name ∨ localPage.order ≠ remotePage.order then
    true
  else
    false

/-- The object `mergedPage` that `mergeAndSavePages` prepares before it saves
(lines 694-734). Reading `.length` of a `null` content raises a `TypeError`,
which is the `Except.error` result. -/
def mergedPage (localPage remotePage : Page) (decryptedRemoteContent : Option String) :
    Except String Page :=
  if dateGt remotePage.lastModified localPage.lastModified then
    let withContent : Except String Page :=
      if localPage.pendingSync = 1 then
        if decryptedRemoteContent ≠ localPage.content then
          match decryptedRemoteContent, localPage.content with
          | some r, some l =>
            .ok { localPage with
                  content := if jsLength r > jsLength l then some r else some l
                  pendingSync := 1 }
          | _, _ => .error "Cannot read properties of null (reading 'length')"
        else
          .ok localPage
      else
        .ok { localPage with content := decryptedRemoteContent }
    withContent.map fun m =>
      { m with name := remotePage.name
               order := remotePage.order
               lastModified := remotePage.lastModified }
  else
    let m1 : Page :=
      if truthyStr remotePage.name ∧ remotePage.name ≠ localPage.name then
        { localPage with name := remotePage.name, pendingSync := 1 }
      else localPage
    let m2 : Page :=
      if truthyInt remotePage.order ∧ remotePage.order ≠ localPage.order then
        { m1 with order := remotePage.order, pendingSync := 1 }
      else m1
    .ok m2

/-! ## State of the engine and of its collaborators -/

/-- The object `syncState.syncProgress`. -/
structure SyncProgress where
  phase : Option String
  currentBatch : Nat
  totalBatches : Option Nat
  deriving DecidableEq, Repr

/-- An entry of the error log written by `logSyncError`. -/
structure ErrorInfo where
  operation : String
  documentId : Option PageId
  error : String
  timestamp : Int
  syncJobId : Option Nat
  deriving DecidableEq, Repr

/-- The module-level object `syncState`. `errorLog` is the insertion-ordered
`Map` of the source, as a list of key/value pairs. -/
structure SyncState where
  inProgress : Bool
  currentJobId : Option Nat
  totalItems : Nat
  processedItems : Nat
  startTime : Option Int
  failedItems : List PageId
  resumeToken : Option PageId
  errorLog : List (String × ErrorInfo)
  aborted : Bool
  syncProgress : SyncProgress
  deriving DecidableEq, Repr

/-- The record stored under `pendingSyncJob` by `saveCheckpoint`. -/
structure Checkpoint where
  jobId : Option Nat
  phase : Option String
  resumeToken : Option PageId
  processedItems : Nat
  totalItems : Nat
  failedItems : List PageId
  timestamp : Int
  deriving DecidableEq, Repr

/-- The record stored under `lastSuccessfulSync`. -/
structure SuccessRecord where
  timestamp : Int
  duration : Int
  itemsProcessed : Nat
  deriving DecidableEq, Repr

/-- The keys of the Dexie table `metadata` that the engine uses
(`appMetadataStorage`). -/
structure Metadata where
  pendingSyncJob : Option Checkpoint
  lastSyncTime : Option Int
  lastSuccessfulSync : Option SuccessRecord
  deletedPageIds : List PageId
  syncErrorLog : List ErrorInfo
  deriving DecidableEq, Repr

/-- The two Firestore collections of the signed-in user. -/
structure Remote where
  pages : List Page
  deletedPages : List Tombstone
  deriving DecidableEq, Repr

/-- What the environment decides during a run.

* `faults`: one entry per attempted Firestore call, `true` when that attempt
  is rejected; once the list is used up every further attempt gets
  `faultRest`.
* `rands`: the successive values of `Math.random()`, in thousandths
  (each taken modulo 1000); afterwards `randRest`.
* `lockAfter`: `some k` when the user locks the vault during the run, after
  `k` further reads of the vault key by `checkVaultLock`; `none` when the
  vault stays as it is. -/
structure Oracle where
  faults : List Bool
  faultRest : Bool
  rands : List Nat
  randRest : Nat
  lockAfter : Option Nat
  deriving DecidableEq, Repr

/-- Everything a sync run reads or writes. `pages` is the Dexie table `pages`;
`now` is the wall clock and `tick` the time that passes at each reading of it;
`nextJobId` stands for the next value of `uuidv4()`; `recoveries` counts the
timers armed by `scheduleRecovery`; `phaseLog` records, oldest first, each
entry into one of the four phase functions. -/
structure World where
  sync : SyncState
  pages : List Page
  store : Metadata
  remote : Remote
  currentUser : Option String
  notified : Bool
  userVaultKey : Bool
  key : Bool
  now : Int
  tick : Nat
  nextJobId : Nat
  recoveries : Nat
  phaseLog : List String
  oracle : Oracle
  deriving DecidableEq, Repr

/-- The cryptographic capability under the key held in memory: the outcome of
the AES-GCM encryption of a text followed by the URL-safe base64 encoding,
and of the decoding and authenticated decryption of a token. `none` is a
failure of the primitive. -/
structure Crypto where
  encrypt : Option String → Option String
  decrypt : String → Option String

/-! ## The effect monad -/

/-- Outcome of a call: a returned value, a thrown error with its message, or
`hang` when the call has not returned within the steps allowed. -/
inductive Res (α : Type) where
  | ok (a : α)
  | throw (message : String)
  | hang
  deriving DecidableEq, Repr

/-- A computation over the world. A throw keeps the writes made before it. -/
def M (α : Type) : Type := World → Res α × World

namespace M

def pure {α : Type} (a : α) : M α := fun w => (Res.ok a, w)

def bind {α β : Type} (m : M α) (f : α → M β) : M β := fun w =>
  match m w with
  | (Res.ok a, w1) => f a w1
  | (Res.throw e, w1) => (Res.throw e, w1)
  | (Res.hang, w1) => (Res.hang, w1)

instance : Monad M where
  pure := M.pure
  bind := M.bind

end M

/-- The statement `throw new Error(message)`. -/
def throwNew {α : Type} (message : String) : M α := fun w => (Res.throw message, w)

/-- A call that has run out of steps. -/
def hang {α : Type} : M α := fun w => (Res.hang, w)

/-- The statement `try { body } catch (error) { handler(error.message) }`. -/
def tryCatch {α : Type} (body : M α) (handler : String → M α) : M α := fun w =>
  match body w with
  | (Res.throw e, w1) => handler e w1
  | r => r

/-- The statement `try { body } finally { fin }` for a `fin` that does not throw. -/
def tryFinally {α : Type} (body : M α) (fin : World → World) : M α := fun w =>
  match body w with
  | (Res.hang, w1) => (Res.hang, w1)
  | (r, w1) => (r, fin w1)

def getWorld : M World := fun w => (Res.ok w, w)

def modifyWorld (f : World → World) : M Unit := fun w => (Res.ok (), f w)

def modifySync (f : SyncState → SyncState) : M Unit :=
  modifyWorld fun w => { w with sync := f w.sync }

def modifyStore (f : Metadata → Metadata) : M Unit :=
  modifyWorld fun w => { w with store := f w.store }

/-- A reading of the clock (`new Date()`, `Date.now()`, `Timestamp.now()`). -/
def readClock : M Int := fun w => (Res.ok w.now, { w with now := w.now + w.tick })

/-- One attempted Firestore call: `true` when the attempt is rejected. -/
def nextFault : M Bool := fun w =>
  match w.oracle.faults with
  | [] => (Res.ok w.oracle.faultRest, w)
  | f :: rest => (Res.ok f, { w with oracle := { w.oracle with faults := rest } })

/-- The call `Math.random()`, in thousandths. -/
def mathRandom : M Nat := fun w =>
  match w.oracle.rands with
  | [] => (Res.ok (w.oracle.randRest % 1000), w)
  | r :: rest => (Res.ok (r % 1000), { w with oracle := { w.oracle with rands := rest } })

/-! ## The local stores (Dexie) -/

/-- Model of `noteTextStorage.pages.get(id)`. -/
def pagesGet (id : PageId) : M (Option Page) := fun w =>
  (Res.ok (w.pages.find? fun p => p.id = id), w)

/-- Model of `noteTextStorage.pages.update(id, changes)`: changes the record with that
key when there is one, and does nothing otherwise. -/
def pagesUpdate (id : PageId) (changes : Page → Page) : M Unit :=
  modifyWorld fun w =>
    { w with pages := w.pages.map fun p => if p.id = id then changes p else p }

/-- Model of `noteTextStorage.pages.delete(id)`. -/
def pagesDelete (id : PageId) : M Unit :=
  modifyWorld fun w => { w with pages := w.pages.filter fun p => p.id ≠ id }

/-- Model of `noteTextStorage.pages.add(record)`: rejected with a `ConstraintError`
when the key is taken. -/
def pagesAdd (record : Page) : M Unit := fun w =>
  if w.pages.any (fun p => p.id = record.id) then
    (Res.throw "ConstraintError: Key already exists in the object store.", w)
  else
    (Res.ok (), { w with pages := w.pages ++ [record] })

/-- Insertion into a list ordered by `le`, after the entries that are not
greater (the order in which an index lists equal keys). -/
def insertBy {α : Type} (le : α → α → Bool) (a : α) : List α → List α
  | [] => [a]
  | b :: rest => if le b a then b :: insertBy le a rest else a :: b :: rest

/-- Sorting by insertion; stable. -/
def sortBy {α : Type} (le : α → α → Bool) (xs : List α) : List α :=
  xs.foldl (fun acc a => insertBy le a acc) []

/-- Order of the primary keys. -/
def idLe (a b : PageId) : Bool := !decide (b < a)

/-- Model of `pages.where("pendingSync").equals(1).toArray()`: the pending records, in
the order of their keys. -/
def pendingPages (pages : List Page) : List Page :=
  sortBy (fun a b => idLe a.id b.id) (pages.filter fun p => p.pendingSync = 1)

/-- Model of `pages.where("id").above(resumeToken).and(page => page.pendingSync === 1).toArray()`. -/
def pendingPagesAbove (resumeToken : PageId) (pages : List Page) : List Page :=
  sortBy (fun a b => idLe a.id b.id)
    (pages.filter fun p => decide (resumeToken < p.id) ∧ p.pendingSync = 1)

/-- Model of `noteTextStorage.savePage(pageId, content, vaultKey)`. The third parameter
is not used by the body: the update writes the content, the current time and
`pendingSync: 1`, whatever is passed there. -/
def savePage (pageId : PageId) (content : Option String) : M Bool := do
  let now ← readClock
  pagesUpdate pageId fun p =>
    { p with content := content, lastModified := some now, pendingSync := 1 }
  return true

/-- Model of `noteTextStorage.updatePage(pageId, updates)`. -/
def updatePage (pageId : PageId) (updates : Page → Page) : M Bool := do
  pagesUpdate pageId fun p => { updates p with pendingSync := 1 }
  return true

/-- Model of `noteTextStorage.createPageFromFirestore(...)` as `processDownloadBatch`
calls it: with one argument, the record to create, which binds to the first
parameter `pageId` and leaves the nine others `undefined`. Dexie reads an
object given to `get` as a search criterion, an object given to `update` as
the bearer of the key, and on this table (inbound key) stores the first
argument of `add` under its own `id`. -/
def createPageFromFirestore (pageId : Page) : M Unit := do
  let w ← getWorld
  let existingPage := w.pages.find? fun p => p = pageId
  let now ← readClock
  match existingPage with
  | some _ =>
    pagesUpdate pageId.id fun p =>
      { p with name := none, order := none, createdAt := some now,
               lastModified := some now, lastSynced := some now, content := none,
               isEncrypted := 0, pendingSync := 0, syncStatus := none }
  | none => pagesAdd pageId

/-- Model of `appMetadataStorage.getDeletedPageIds()`: the stored array as a `Set`. -/
def getDeletedPageIds : M (List PageId) := fun w => (Res.ok w.store.deletedPageIds.dedup, w)

/-- Model of `appMetadataStorage.markPageForDeletion(pageId)`. -/
def markPageForDeletion (pageId : PageId) : M Unit := do
  let deletedIds ← getDeletedPageIds
  modifyStore fun m =>
    { m with deletedPageIds := if pageId ∈ deletedIds then deletedIds else deletedIds ++ [pageId] }

/-- Model of `appMetadataStorage.clearDeletedPageId(pageId)`. -/
def clearDeletedPageId (pageId : PageId) : M Unit := do
  let deletedIds ← getDeletedPageIds
  modifyStore fun m => { m with deletedPageIds := deletedIds.filter fun i => i ≠ pageId }

/-! ## Configuration and bookkeeping of the engine -/

def BATCH_SIZE : Nat := 20
def MAX_RETRIES : Nat := 5
def BASE_RETRY_DELAY : Nat := 200
def SYNC_PAGE_LIMIT : Nat := 50
def ERROR_LOG_LIMIT : Nat := 100

/-- Model of `Map.prototype.set`: replaces the value of a present key in place, and
appends a new key. -/
def mapSet {β : Type} (key : String) (value : β) : List (String × β) → List (String × β)
  | [] => [(key, value)]
  | (k, v) :: rest => if k = key then (k, value) :: rest else (k, v) :: mapSet key value rest

/-- Model of `logSyncError(operation, documentId, error)`. The copy kept in the
metadata table is written when the pending read of that table resolves; the
model writes it at once. -/
def logSyncError (operation : String) (documentId : Option PageId) (error : String) :
    M Unit := do
  let docPart := match documentId with
    | some d => if d = "" then "general" else d
    | none => "general"
  let errorKey := operation ++ ":" ++ docPart
  let now ← readClock
  let w ← getWorld
  let errorInfo : ErrorInfo :=
    { operation := operation, documentId := documentId, error := error,
      timestamp := now, syncJobId := w.sync.currentJobId }
  modifySync fun s =>
    let trimmed := if s.errorLog.length ≥ ERROR_LOG_LIMIT then s.errorLog.drop 1 else s.errorLog
    { s with errorLog := mapSet errorKey errorInfo trimmed }
  modifyStore fun m =>
    let log := m.syncErrorLog ++ [errorInfo]
    { m with syncErrorLog := log.drop (log.length - ERROR_LOG_LIMIT) }

/-- Model of `updateSyncProgress(phase, currentBatch, totalBatches)`; the event it
dispatches to the document is not part of the model. -/
def updateSyncProgress (phase : String) (currentBatch : Nat) (totalBatches : Option Nat) :
    M Unit :=
  modifySync fun s =>
    { s with syncProgress :=
        { phase := some phase, currentBatch := currentBatch, totalBatches := totalBatches } }

/-- Model of `resetSyncState()`; the error log is kept. -/
def resetSyncState : M Unit :=
  modifySync fun s =>
    { s with inProgress := false, currentJobId := none, totalItems := 0, processedItems := 0,
             startTime := none, failedItems := [], resumeToken := none, aborted := false,
             syncProgress := { phase := none, currentBatch := 0, totalBatches := some 0 } }

/-- Model of `saveCheckpoint()`. -/
def saveCheckpoint : M Checkpoint := do
  let w ← getWorld
  let now ← readClock
  let checkpoint : Checkpoint :=
    { jobId := w.sync.currentJobId, phase := w.sync.syncProgress.phase,
      resumeToken := w.sync.resumeToken, processedItems := w.sync.processedItems,
      totalItems := w.sync.totalItems, failedItems := w.sync.failedItems, timestamp := now }
  modifyStore fun m => { m with pendingSyncJob := some checkpoint }
  return checkpoint

/-- Model of `saveResumeCheckpoint(phase, token)`. -/
def saveResumeCheckpoint (phase : String) (token : Option PageId) : M Unit := do
  modifySync fun s =>
    { s with syncProgress := { s.syncProgress with phase := some phase }, resumeToken := token }
  let r ← mathRandom
  if r < 200 then
    let _ ← saveCheckpoint

/-- Model of `handleSyncRetry(phase, resumeToken)`. -/
def handleSyncRetry (phase : String) (resumeToken : Option PageId) : M Bool := do
  saveResumeCheckpoint phase resumeToken
  let w ← getWorld
  return !w.sync.aborted

/-- Model of `lockUserVault()`. -/
def lockUserVault : M Unit :=
  modifyWorld fun w => { w with userVaultKey := false, key := false }

/-- The user's action on the vault that may fall before a reading of the
vault key (see `Oracle.lockAfter`). -/
def vaultEvent : M Unit := fun w =>
  match w.oracle.lockAfter with
  | none => (Res.ok (), w)
  | some 0 =>
    lockUserVault { w with oracle := { w.oracle with lockAfter := none } }
  | some (k + 1) => (Res.ok (), { w with oracle := { w.oracle with lockAfter := some k } })

/-- Model of `checkVaultLock()`. -/
def checkVaultLock : M Bool := do
  vaultEvent
  let w ← getWorld
  if !w.userVaultKey then
    modifySync fun s => { s with aborted := true }
    let _ ← saveCheckpoint
    return true
  return false

/-! ## Firestore -/

/-- An operation staged in a `WriteBatch`. -/
inductive BatchOp where
  | set (data : Page)
  | delete (id : PageId)
  deriving DecidableEq, Repr

/-- The document that `set(ref, data, { merge: true })` leaves: the fields
present in `data` replace those of the stored document; `content` is always
written by the upload, also when it is `null`. -/
def mergeDoc (old data : Page) : Page :=
  { id := old.id
    name := data.name <|> old.name
    order := data.order <|> old.order
    createdAt := data.createdAt <|> old.createdAt
    lastModified := data.lastModified <|> old.lastModified
    lastSynced := data.lastSynced <|> old.lastSynced
    content := data.content
    isEncrypted := data.isEncrypted
    pendingSync := data.pendingSync
    syncStatus := data.syncStatus <|> old.syncStatus }

def applyBatchOp (docs : List Page) : BatchOp → List Page
  | BatchOp.set data =>
    if docs.any (fun d => d.id = data.id) then
      docs.map fun d => if d.id = data.id then mergeDoc d data else d
    else docs ++ [data]
  | BatchOp.delete id => docs.filter fun d => d.id ≠ id

/-- One attempt of `batch.commit()`: atomic, all the staged operations or none. -/
def batchCommit (ops : List BatchOp) : M Unit := do
  let rejected ← nextFault
  if rejected then throwNew "FirebaseError: unavailable"
  modifyWorld fun w =>
    { w with remote := { w.remote with pages := ops.foldl applyBatchOp w.remote.pages } }

/-- Order of the result of a query ordered by `lastModified` (then by
document id). -/
def docLe (a b : Page) : Bool :=
  match a.lastModified, b.lastModified with
  | some x, some y => decide (x < y) || (decide (x = y) && idLe a.id b.id)
  | _, _ => true

/-- One attempt of `getDocs` on the query of the download phase: the documents
with `lastModified` after `lastSyncTime`, ordered, at most `SYNC_PAGE_LIMIT`.
With the cursor filter `where("__id", ">", lastDocId)` the result is empty,
since no document has a field of that name. -/
def getDocsPages (lastSyncTime : Int) (cursor : Bool) : M (List Page) := do
  let rejected ← nextFault
  if rejected then throwNew "FirebaseError: unavailable"
  let w ← getWorld
  if cursor then return []
  let hits := w.remote.pages.filter fun d =>
    match d.lastModified with
    | some t => decide (lastSyncTime < t)
    | none => false
  return (sortBy docLe hits).take SYNC_PAGE_LIMIT

/-- One attempt of `getDoc(ref)` followed by `exists()`. -/
def getDocExists (id : PageId) : M Bool := do
  let rejected ← nextFault
  if rejected then throwNew "FirebaseError: unavailable"
  let w ← getWorld
  return w.remote.pages.any fun d => d.id = id

/-- Model of `setTimeout` awaited for `delay` milliseconds. -/
def sleep (delay : Nat) : M Unit := modifyWorld fun w => { w with now := w.now + delay }

/-- The loop of `executeWithRetry`: `remaining` is `maxRetries - attempt`. -/
def executeWithRetryLoop {α : Type} (operation : M α) : Nat → Nat → M α
  | 0, _ => throwNew "Operation failed after retries"
  | remaining + 1, attempt =>
    tryCatch operation fun error => do
      let attempt := attempt + 1
      if remaining = 0 then throwNew error
      let baseDelay := BASE_RETRY_DELAY
      let r ← mathRandom
      let jitter := r * (3 * baseDelay / 10) / 1000
      let exponentialDelay := 2 ^ attempt * baseDelay
      sleep (exponentialDelay + jitter)
      executeWithRetryLoop operation remaining attempt

/-- Model of `executeWithRetry(operation, maxRetries)`. -/
def executeWithRetry {α : Type} (operation : M α) (maxRetries : Nat) : M α :=
  executeWithRetryLoop operation maxRetries 0

/-- Model of `commitBatchWithRetry(batch)`. -/
def commitBatchWithRetry (ops : List BatchOp) : M Unit :=
  executeWithRetry (batchCommit ops) MAX_RETRIES

/-! ## Encryption gateway (`src/utils/cryptoUtils.js`) -/

/-- Model of `encryptData(key, data)`: the whole body is inside `try`/`catch`, and the
`catch` returns `null`, so the call never throws. -/
def encryptData (crypto : Crypto) (data : Option String) : M (Option String) := fun w =>
  (Res.ok (if w.key then crypto.encrypt data else none), w)

/-- Model of `decryptData(key, encryptedBase64)`: returns `null` on any failure, and
never throws. -/
def decryptData (crypto : Crypto) (encryptedBase64 : String) : M (Option String) := fun w =>
  (Res.ok (if w.key then crypto.decrypt encryptedBase64 else none), w)

/-! ## Download phase -/

def pushFailed (id : PageId) : M Unit :=
  modifySync fun s => { s with failedItems := s.failedItems ++ [id] }

/-- Model of `mergeAndSavePages(localPage, remotePage, decryptedRemoteContent)`. The
options object passed to `savePage` (name, order, pendingSync, lastModified,
syncStatus) lands in a parameter that `savePage` does not read. -/
def mergeAndSavePages (localPage remotePage : Page) (decryptedRemoteContent : Option String) :
    M Unit :=
  tryCatch
    (match mergedPage localPage remotePage decryptedRemoteContent with
     | Except.error e => throwNew e
     | Except.ok merged => do
       let _ ← savePage localPage.id merged.content)
    fun error => do
      logSyncError "merge_operation" (some localPage.id) error
      pushFailed localPage.id
      throwNew ("Failed to merge page " ++ localPage.id ++ ": " ++ error)

/-- The record that `processDownloadBatch` builds for a document that has no
local counterpart. -/
def newLocalPage (firestorePage : Page) (decryptedContent : Option String) : Page :=
  { id := firestorePage.id
    name := firestorePage.name
    order := firestorePage.order
    createdAt := firestorePage.createdAt
    lastModified := firestorePage.lastModified
    lastSynced := firestorePage.lastSynced
    content := decryptedContent
    isEncrypted := firestorePage.isEncrypted
    pendingSync := firestorePage.pendingSync
    syncStatus := if truthyStr firestorePage.syncStatus then firestorePage.syncStatus
                  else some "synced" }

/-- Model of `processDownloadBatch(docBatch)`. -/
def processDownloadBatch (crypto : Crypto) : List Page → M Unit
  | [] => pure ()
  | firestorePage :: rest => do
    let w ← getWorld
    if w.sync.aborted then return ()
    if (← checkVaultLock) then return ()
    tryCatch
      (do
        let w ← getWorld
        if firestorePage.id ∈ w.sync.failedItems then return ()
        let dexiePage ← pagesGet firestorePage.id
        let plain : Option String :=
          if truthyStr firestorePage.content then firestorePage.content else some ""
        let decrypted : Option (Option String) ←
          if firestorePage.isEncrypted ≠ 0 ∧ truthyStr firestorePage.content then
            tryCatch
              (do
                let d ← decryptData crypto (firestorePage.content.getD "")
                return some d)
              fun error => do
                logSyncError "decrypt_error" (some firestorePage.id) error
                pushFailed firestorePage.id
                return none
          else pure (some plain)
        match decrypted with
        | none => return ()
        | some decryptedContent =>
          match dexiePage with
          | none => createPageFromFirestore (newLocalPage firestorePage decryptedContent)
          | some localPage =>
            if shouldMergePages localPage firestorePage then
              mergeAndSavePages localPage firestorePage decryptedContent
          modifySync fun s => { s with processedItems := s.processedItems + 1 })
      fun error => do
        logSyncError "process_download" (some firestorePage.id) error
        pushFailed firestorePage.id
    processDownloadBatch crypto rest

/-- The successive slices `array.slice(i, i + size)` for `i = 0, size, ...`;
`steps` bounds their number. -/
def chunksAux {α : Type} (size : Nat) : Nat → List α → List (List α)
  | 0, _ => []
  | steps + 1, xs => if xs.isEmpty then [] else xs.take size :: chunksAux size steps (xs.drop size)

def chunks {α : Type} (size : Nat) (xs : List α) : List (List α) :=
  chunksAux size xs.length xs

/-- The sub-batch loop of `downloadFromFirestore` over one query result;
returns the last value of `lastDocId`. -/
def downloadSubBatches (crypto : Crypto) : List (List Page) → Option PageId → M (Option PageId)
  | [], lastDocId => pure lastDocId
  | batch :: rest, _ => do
    processDownloadBatch crypto batch
    let lastDocId := batch.getLast?.map fun d => d.id
    saveResumeCheckpoint "downloading" lastDocId
    downloadSubBatches crypto rest lastDocId

/-- The `while` loop of `downloadFromFirestore`; `fuel` bounds the number of
iterations. A throw inside the `try` block can only come from the two remote
reads, which precede every change of `lastDocId` in the iteration, so the
handler sees the value the iteration started with. -/
def downloadLoop (crypto : Crypto) (lastSyncTime : Int) :
    Nat → Option PageId → Nat → M Unit
  | 0, _, _ => hang
  | fuel + 1, lastDocId, totalDownloadedbatches => do
    let w ← getWorld
    if w.sync.aborted then return ()
    if (← checkVaultLock) then return ()
    let next : Option (Option PageId × Nat) ← tryCatch
      (do
        let cursor ← match lastDocId with
          | some id => if id = "" then pure false else getDocExists id
          | none => pure false
        let docs ← executeWithRetry (getDocsPages lastSyncTime cursor) MAX_RETRIES
        if docs.isEmpty then return none
        let totalDownloadedbatches := totalDownloadedbatches + 1
        updateSyncProgress "downloading" totalDownloadedbatches none
        modifySync fun s => { s with totalItems := s.totalItems + docs.length }
        let lastDocId ← downloadSubBatches crypto (chunks BATCH_SIZE docs) lastDocId
        if docs.length < SYNC_PAGE_LIMIT then return none
        return some (lastDocId, totalDownloadedbatches))
      fun error => do
        logSyncError "download_batch" lastDocId error
        let retryResult ← handleSyncRetry "downloading" lastDocId
        if !retryResult then
          throwNew ("Failed to download data from Firestore: " ++ error)
        return some (lastDocId, totalDownloadedbatches)
    match next with
    | none => return ()
    | some (lastDocId, totalDownloadedbatches) =>
      downloadLoop crypto lastSyncTime fuel lastDocId totalDownloadedbatches

def enterPhase (name : String) : M Unit :=
  modifyWorld fun w => { w with phaseLog := w.phaseLog ++ [name] }

/-- Model of `downloadFromFirestore(userId, userPagesRef, resumeToken)`. -/
def downloadFromFirestore (crypto : Crypto) (fuel : Nat) (resumeToken : Option PageId) :
    M Unit := do
  enterPhase "downloading"
  updateSyncProgress "downloading" 0 (some 0)
  let w ← getWorld
  let lastSyncTime := w.store.lastSyncTime.getD 0
  downloadLoop crypto lastSyncTime fuel resumeToken 0

/-! ## Upload phase -/

/-- What the `for` loop of `processUploadBatch` has staged so far. -/
structure Staged where
  ops : List BatchOp
  dexieBatchUpdates : List PageId
  lastSuccessfulId : Option PageId
  deriving DecidableEq, Repr

/-- The `for` loop of `processUploadBatch`; `none` when the vault check made
the function return `null`. -/
def stageUploads (crypto : Crypto) : List Page → Staged → M (Option Staged)
  | [], staged => pure (some staged)
  | page :: rest, staged => do
    if (← checkVaultLock) then return none
    let w ← getWorld
    if page.id ∈ w.sync.failedItems then
      stageUploads crypto rest staged
    else
      let staged ← tryCatch
        (do
          let content ← encryptData crypto page.content
          let lastModified ← match page.lastModified with
            | some t => pure (some t)
            | none => do
              let now ← readClock
              pure (some now)
          let pageToUpload : Page :=
            { page with content := content, isEncrypted := 1, lastModified := lastModified }
          return { ops := staged.ops ++ [BatchOp.set pageToUpload]
                   dexieBatchUpdates := staged.dexieBatchUpdates ++ [page.id]
                   lastSuccessfulId := some page.id })
        fun error => do
          logSyncError "prepare_upload" (some page.id) error
          pushFailed page.id
          return staged
      stageUploads crypto rest staged

/-- The updates of the local table after a committed batch. -/
def markSynced : List PageId → M Unit
  | [] => pure ()
  | id :: rest => do
    let now ← readClock
    pagesUpdate id fun p =>
      { p with pendingSync := 0, syncStatus := some "synced", lastSynced := some now }
    markSynced rest

/-- Model of `processUploadBatch(pageBatch, userPagesRef)`. -/
def processUploadBatch (crypto : Crypto) (pageBatch : List Page) : M (Option PageId) :=
  tryCatch
    (do
      match ← stageUploads crypto pageBatch
          { ops := [], dexieBatchUpdates := [], lastSuccessfulId := none } with
      | none => return none
      | some staged =>
        if staged.dexieBatchUpdates.length > 0 then
          commitBatchWithRetry staged.ops
          markSynced staged.dexieBatchUpdates
          modifySync fun s =>
            { s with processedItems := s.processedItems + staged.dexieBatchUpdates.length }
        return staged.lastSuccessfulId)
    fun error => do
      modifySync fun s => { s with failedItems := s.failedItems ++ pageBatch.map fun p => p.id }
      logSyncError "upload_batch" none error
      let retryResult ← handleSyncRetry "uploading" (pageBatch.head?.map fun p => p.id)
      if !retryResult then throwNew error
      return none

/-- The `for` loop of `uploadFromDexieToFirestore` over the slices of the
pending pages; `batchNo` is `Math.floor(i / BATCH_SIZE) + 1`. -/
def uploadBatches (crypto : Crypto) (totalBatches : Nat) : List (List Page) → Nat → M Unit
  | [], _ => pure ()
  | currentBatch :: rest, batchNo => do
    let w ← getWorld
    if w.sync.aborted then return ()
    if (← checkVaultLock) then return ()
    let lastProcessedId ← processUploadBatch crypto currentBatch
    match lastProcessedId with
    | some id => if id ≠ "" then saveResumeCheckpoint "uploading" (some id)
    | none => pure ()
    updateSyncProgress "uploading" batchNo (some totalBatches)
    uploadBatches crypto totalBatches rest (batchNo + 1)

/-- Model of `uploadFromDexieToFirestore(userId, userPagesRef, resumeToken)`. -/
def uploadFromDexieToFirestore (crypto : Crypto) (resumeToken : Option PageId) : M Unit := do
  enterPhase "uploading"
  updateSyncProgress "uploading" 0 (some 0)
  tryCatch
    (do
      let w ← getWorld
      let pending := match resumeToken with
        | some token => if token = "" then pendingPages w.pages
                        else pendingPagesAbove token w.pages
        | none => pendingPages w.pages
      if pending.length = 0 then return ()
      modifySync fun s => { s with totalItems := s.totalItems + pending.length }
      let totalBatches := (pending.length + BATCH_SIZE - 1) / BATCH_SIZE
      updateSyncProgress "uploading" 0 (some totalBatches)
      uploadBatches crypto totalBatches (chunks BATCH_SIZE pending) 1)
    fun error => do
      logSyncError "upload_pages" resumeToken error
      throwNew ("Failed to upload pages to Firestore: " ++ error)

/-! ## Delete phase and tombstones -/

/-- The `for` loop of `handleDeletions` over the slices of the ids to delete;
returns the set `processedIds`. -/
def deleteBatches (totalBatches : Nat) : List (List PageId) → Nat → List PageId →
    M (Option (List PageId))
  | [], _, processedIds => pure (some processedIds)
  | currentBatch :: rest, batchNo, processedIds => do
    let w ← getWorld
    if w.sync.aborted then return some processedIds
    if (← checkVaultLock) then return none
    let w ← getWorld
    let staged := currentBatch.filter fun id => id ∉ w.sync.failedItems
    let processedIds := (processedIds ++ staged).dedup
    commitBatchWithRetry (staged.map BatchOp.delete)
    modifySync fun s => { s with processedItems := s.processedItems + currentBatch.length }
    updateSyncProgress "deleting" batchNo (some totalBatches)
    deleteBatches totalBatches rest (batchNo + 1) processedIds

def clearDeletedPageIds : List PageId → M Unit
  | [] => pure ()
  | id :: rest => do
    clearDeletedPageId id
    clearDeletedPageIds rest

/-- Model of `handleDeletions(userId, userPagesRef, resumeToken)`. -/
def handleDeletions (resumeToken : Option PageId) : M Unit := do
  enterPhase "deleting"
  updateSyncProgress "deleting" 0 (some 0)
  tryCatch
    (do
      let deletedPageIds ← getDeletedPageIds
      if deletedPageIds.length = 0 then return ()
      modifySync fun s => { s with totalItems := s.totalItems + deletedPageIds.length }
      let totalBatches := (deletedPageIds.length + BATCH_SIZE - 1) / BATCH_SIZE
      updateSyncProgress "deleting" 0 (some totalBatches)
      match ← deleteBatches totalBatches (chunks BATCH_SIZE deletedPageIds) 1 [] with
      | none => return ()
      | some processedIds => clearDeletedPageIds processedIds)
    fun error => do
      logSyncError "handle_deletions" resumeToken error
      throwNew ("Failed to process deletions: " ++ error)

/-- Model of `uploadTombstone(userId, pageId)`: the document of `deletedPages`
named after the page is written (replacing an earlier one); an error is
logged to the console and swallowed. A missing `pageId` makes `doc()` throw. -/
def uploadTombstone (pageId : Option PageId) : M Unit :=
  tryCatch
    (do
      match pageId with
      | none => throwNew "FirebaseError: invalid document reference"
      | some id =>
        if id = "" then throwNew "FirebaseError: invalid document reference"
        let now ← readClock
        let rejected ← nextFault
        if rejected then throwNew "FirebaseError: unavailable"
        modifyWorld fun w =>
          { w with remote := { w.remote with
              deletedPages :=
                (w.remote.deletedPages.filter fun t => t.pageId ≠ id) ++
                  [{ pageId := id, deletedAt := now }] } })
    fun _ => pure ()

def tombstoneLe (a b : Tombstone) : Bool :=
  decide (a.deletedAt < b.deletedAt) || (decide (a.deletedAt = b.deletedAt) && idLe a.pageId b.pageId)

/-- Model of `fetchNewTombstones(userId, lastSyncTime)`: the tombstones with
`deletedAt` after `lastSyncTime`, ordered by `deletedAt`; `[]` on an error. -/
def fetchNewTombstones (lastSyncTime : Int) : M (List Tombstone) :=
  tryCatch
    (do
      let rejected ← nextFault
      if rejected then throwNew "FirebaseError: unavailable"
      let w ← getWorld
      return sortBy tombstoneLe (w.remote.deletedPages.filter fun t => decide (lastSyncTime < t.deletedAt)))
    fun _ => pure []

def deleteTombstoned : List Tombstone → M Unit
  | [] => pure ()
  | tombstone :: rest => do
    tryCatch (pagesDelete tombstone.pageId)
      fun error => logSyncError "process_tombstone_delete" (some tombstone.pageId) error
    deleteTombstoned rest

/-- Model of `processRemoteDeletions(userId)`. -/
def processRemoteDeletions : M Unit := do
  enterPhase "tombstones"
  tryCatch
    (do
      let w ← getWorld
      let lastSyncTime := w.store.lastSyncTime.getD 0
      let newTombstones ← fetchNewTombstones lastSyncTime
      if newTombstones.length > 0 then deleteTombstoned newTombstones)
    fun error => logSyncError "fetch_tombstones" none error

/-! ## Job control -/

/-- The four phases in the order of `startNewSyncJob`. -/
def runAllPhases (crypto : Crypto) (fuel : Nat) (resumeToken : Option PageId) : M Unit := do
  processRemoteDeletions
  uploadFromDexieToFirestore crypto none
  handleDeletions none
  downloadFromFirestore crypto fuel resumeToken

/-- Model of `startNewSyncJob(userId)` and `resumeSyncJob(pendingSync, userId)`,
which call each other: `jobFrom crypto fuel none` is the former and
`jobFrom crypto fuel (some checkpoint)` the latter. `fuel` bounds the depth of
these calls and the iterations of the download loop. -/
def jobFrom (crypto : Crypto) : Nat → Option Checkpoint → M Unit
  | 0, _ => hang
  | fuel + 1, none => do
    let w ← getWorld
    match (if w.sync.aborted then none else w.store.pendingSyncJob) with
    | some pendingSync => jobFrom crypto fuel (some pendingSync)
    | none =>
      tryCatch (runAllPhases crypto fuel none) fun error => do
        logSyncError "sync_job" none error
        throwNew error
  | fuel + 1, some pendingSync => do
    modifySync fun s =>
      { s with resumeToken := pendingSync.resumeToken
               processedItems := pendingSync.processedItems
               totalItems := pendingSync.totalItems
               failedItems := pendingSync.failedItems }
    tryCatch
      (if pendingSync.phase = some "downloading" then
        runAllPhases crypto fuel pendingSync.resumeToken
      else if pendingSync.phase = some "uploading" then do
        uploadFromDexieToFirestore crypto pendingSync.resumeToken
        handleDeletions none
      else if pendingSync.phase = some "deleting" then
        handleDeletions pendingSync.resumeToken
      else
        jobFrom crypto fuel none)
      fun error => do
        logSyncError "resume_sync" none error
        throwNew error

/-- Model of `startNewSyncJob(userId)`. -/
def startNewSyncJob (crypto : Crypto) (fuel : Nat) : M Unit := jobFrom crypto fuel none

/-- Model of `resumeSyncJob(pendingSync, userId)`. -/
def resumeSyncJob (crypto : Crypto) (fuel : Nat) (pendingSync : Checkpoint) : M Unit :=
  jobFrom crypto fuel (some pendingSync)

/-- The object returned by `getCompletionStats()`. -/
structure Stats where
  jobId : Option Nat
  totalProcessed : Nat
  failedItems : Nat
  duration : Int
  timestamp : Int
  deriving DecidableEq, Repr

/-- The object returned by `syncDexieToFirestore`. -/
structure SyncResult where
  success : Bool
  reason : Option String
  error : Option String
  stats : Option Stats
  deriving DecidableEq, Repr

/-- Model of `scheduleRecovery()`. -/
def scheduleRecovery : M Unit :=
  modifyWorld fun w => if !w.sync.aborted then { w with recoveries := w.recoveries + 1 } else w

/-- Model of `getCompletionStats()`; durations are in milliseconds. -/
def getCompletionStats : M Stats := do
  let w ← getWorld
  let now1 ← readClock
  let now2 ← readClock
  return { jobId := w.sync.currentJobId, totalProcessed := w.sync.processedItems,
           failedItems := w.sync.failedItems.length,
           duration := now1 - w.sync.startTime.getD 0, timestamp := now2 }

/-- Model of `syncDexieToFirestore(pageId, metadata, isDeleteOperation)`.
`fuel` bounds the steps of the job (see `jobFrom`). -/
def syncDexieToFirestore (crypto : Crypto) (fuel : Nat) (pageId : Option PageId)
    (isDeleteOperation : Bool) : M SyncResult := do
  let w ← getWorld
  if w.sync.inProgress then
    return { success := false, reason := some "SYNC_IN_PROGRESS", error := none, stats := none }
  if w.currentUser.isNone then
    if !w.notified then modifyWorld fun w => { w with notified := true }
    return { success := false, reason := some "NOT_AUTHENTICATED", error := none, stats := none }
  modifyWorld fun w => { w with notified := false }
  if !w.userVaultKey then
    return { success := false, reason := some "VAULT_LOCKED", error := none, stats := none }
  resetSyncState
  modifyWorld fun w =>
    { w with sync := { w.sync with inProgress := true, currentJobId := some w.nextJobId }
             nextJobId := w.nextJobId + 1 }
  let startTime ← readClock
  modifySync fun s => { s with startTime := some startTime }
  tryFinally
    (tryCatch
      (do
        if isDeleteOperation then uploadTombstone pageId
        let w ← getWorld
        match (if w.sync.aborted then none else w.store.pendingSyncJob) with
        | some pendingSync => resumeSyncJob crypto fuel pendingSync
        | none => startNewSyncJob crypto fuel
        modifyStore fun m => { m with pendingSyncJob := none }
        let now ← readClock
        modifyStore fun m => { m with lastSyncTime := some now }
        let timestamp ← readClock
        let finished ← readClock
        let w ← getWorld
        let record : SuccessRecord :=
          { timestamp := timestamp, duration := finished - startTime,
            itemsProcessed := w.sync.processedItems }
        modifyStore fun m => { m with lastSuccessfulSync := some record }
        if w.sync.processedItems > 0 then
          let _ ← readClock
        let stats ← getCompletionStats
        return { success := true, reason := none, error := none, stats := some stats })
      fun error => do
        let _ ← saveCheckpoint
        scheduleRecovery
        return { success := false, reason := some "SYNC_ERROR", error := some error,
                 stats := none })
    fun w => { w with sync := { w.sync with inProgress := false } }

/-- Model of `abortSync()`. -/
def abortSync : M Bool := do
  let w ← getWorld
  if w.sync.inProgress then
    modifySync fun s => { s with aborted := true }
    let _ ← saveCheckpoint
    return true
  return false

/-! ## Sample data used by the worked examples -/

/-- A sample gateway: a token is the text behind the marker `enc:`, and only
such tokens decrypt. -/
def sampleCrypto : Crypto where
  encrypt := fun data => some ("enc:" ++ data.getD "null")
  decrypt := fun token =>
    match token.data with
    | 'e' :: 'n' :: 'c' :: ':' :: rest => some (String.mk rest)
    | _ => none

def idleSync : SyncState :=
  { inProgress := false, currentJobId := none, totalItems := 0, processedItems := 0,
    startTime := none, failedItems := [], resumeToken := none, errorLog := [],
    aborted := false,
    syncProgress := { phase := none, currentBatch := 0, totalBatches := some 0 } }

def emptyStore : Metadata :=
  { pendingSyncJob := none, lastSyncTime := none, lastSuccessfulSync := none,
    deletedPageIds := [], syncErrorLog := [] }

/-- An oracle under which every remote call succeeds, no checkpoint is
written by chance and the vault is left alone. -/
def calmOracle : Oracle :=
  { faults := [], faultRest := false, rands := [], randRest := 999, lockAfter := none }

/-- A signed-in device with an unlocked vault, at time `now`. -/
def device (pages : List Page) (remote : Remote) (store : Metadata) (now : Int)
    (oracle : Oracle) : World :=
  { sync := idleSync, pages := pages, store := store, remote := remote,
    currentUser := some "uid", notified := false, userVaultKey := true, key := true,
    now := now, tick := 1, nextJobId := 1, recoveries := 0, phaseLog := [], oracle := oracle }

/-- A plain page with the given fields. -/
def mkPage (id : PageId) (content : Option String) (lastModified : Int) (pendingSync : Nat) :
    Page :=
  { id := id, name := some "Note", order := some 1, createdAt := some 0,
    lastModified := some lastModified, lastSynced := none, content := content,
    isEncrypted := 0, pendingSync := pendingSync, syncStatus := none }

/-! ## Predicates on computations and worlds, for the proofs -/

/-- Every run of `m` from a world satisfying `I` ends in a world satisfying
`I`, with an outcome satisfying `post`. -/
def Holds {α : Type} (I : World → Prop) (m : M α) (post : Res α → Prop) : Prop :=
  ∀ w, I w → I (m w).2 ∧ post (m w).1

/-- From `I`, the computation returns a value satisfying `p`, and keeps `I`. -/
def Returns {α : Type} (I : World → Prop) (m : M α) (p : α → Prop) : Prop :=
  Holds I m (fun r => ∃ a, r = Res.ok a ∧ p a)

/-- From `I`, the computation throws, and keeps `I`. -/
def Throws {α : Type} (I : World → Prop) (m : M α) : Prop :=
  Holds I m (fun r => ∃ e, r = Res.throw e)

/-- From `I`, the computation keeps `I` whatever its outcome, and a value it
returns satisfies `p`. -/
def Keeps {α : Type} (I : World → Prop) (m : M α) (p : α → Prop) : Prop :=
  Holds I m (fun r => ∀ a, r = Res.ok a → p a)

/-- The remote store is unreachable, nobody touches the vault, and the job has
not been aborted. -/
def Offline (w : World) : Prop :=
  w.oracle.faults = [] ∧ w.oracle.faultRest = true ∧ w.oracle.lockAfter = none ∧
    w.userVaultKey = true ∧ w.sync.aborted = false

/-- Offline, with nothing to upload and nothing to delete. -/
def OfflineIdle (w : World) : Prop :=
  Offline w ∧ (∀ p ∈ w.pages, p.pendingSync ≠ 1) ∧ w.store.deletedPageIds = []

/-- An oracle under which every remote call is rejected. -/
def offlineOracle : Oracle := { calmOracle with faultRest := true }

/-- A signed-in device with an unlocked vault, no pages and no checkpoint,
which cannot reach the remote store. -/
def offlineDevice : World :=
  device [] { pages := [], deletedPages := [] } emptyStore 5000 offlineOracle

/-- No record with the id `P` in the local table. -/
def NoLocal (P : PageId) (w : World) : Prop :=
  ∀ p ∈ w.pages, p.id ≠ P

/-- A remote document of the page `P`, if there is one, is not later than `T`. -/
def StaleRemote (P : PageId) (T : Int) (docs : List Page) : Prop :=
  ∀ d ∈ docs, d.id = P → ∀ t, d.lastModified = some t → t ≤ T

/-- The page `P` is gone for a job whose `lastSyncTime` is `T`: the local table
has no record of it, and the download query (documents later than `T`) cannot
return one. -/
def Gone (P : PageId) (T : Int) (w : World) : Prop :=
  NoLocal P w ∧ StaleRemote P T w.remote.pages ∧ w.store.lastSyncTime.getD 0 = T

/-- A computation that leaves the local table, the remote collection and
`lastSyncTime` as they are. -/
def Frame {α : Type} (m : M α) : Prop :=
  ∀ w, (m w).2.pages = w.pages ∧ (m w).2.remote.pages = w.remote.pages ∧
    (m w).2.store.lastSyncTime = w.store.lastSyncTime

/-- The staged writes leave the id `P` alone. -/
def StagedOk (P : PageId) (s : Staged) : Prop :=
  ∀ data, BatchOp.set data ∈ s.ops → data.id ≠ P

/-- Whether the next attempted Firestore call is rejected. -/
def faultAhead (o : Oracle) : Bool :=
  match o.faults with
  | [] => o.faultRest
  | f :: _ => f

/-- What the tombstone phase needs in order to remove the page `t.pageId`:
the tombstone is in the remote collection and later than `lastSyncTime`, the
query for it is not rejected, and the remote collection has no document of
the page later than `lastSyncTime`. -/
def TombstoneDue (t : Tombstone) (w : World) : Prop :=
  t ∈ w.remote.deletedPages ∧ w.store.lastSyncTime.getD 0 < t.deletedAt ∧
    faultAhead w.oracle = false ∧
    StaleRemote t.pageId (w.store.lastSyncTime.getD 0) w.remote.pages

/-! ## Worlds of the worked examples -/

/-- A device that holds the page "p1", not pending, last modified at 1000. -/
def deviceWithNote : World :=
  device [mkPage "p1" (some "local text") 1000 0] { pages := [], deletedPages := [] }
    emptyStore 5000 calmOracle

/-- A remote version of "p1", newer than the local one, marked encrypted, whose
content is not a token the gateway can decrypt. -/
def garbledDoc : Page := { mkPage "p1" (some "garbage") 2000 0 with isEncrypted := 1 }

/-- A local page and a strictly newer remote version with another name, order
and content. -/
def olderLocal : Page := mkPage "p1" (some "old") 1000 0

def newerRemote : Page :=
  { mkPage "p1" (some "new") 2000 0 with name := some "Renamed", order := some 2 }

def deviceWithOlder : World :=
  device [olderLocal] { pages := [newerRemote], deletedPages := [] } emptyStore 5000 calmOracle

/-- A gateway whose encryption fails. -/
def failingCrypto : Crypto where
  encrypt := fun _ => none
  decrypt := fun _ => none

/-- A pending page, and a device that holds it. -/
def pendingNote : Page := mkPage "p1" (some "text") 1000 1

def deviceWithPending (oracle : Oracle) : World :=
  device [pendingNote] { pages := [], deletedPages := [] } emptyStore 5000 oracle

/-- The remote collection before the deletion of "p1". -/
def remoteBeforeDelete : Remote :=
  { pages := [{ mkPage "p1" (some "enc:text") 1000 1 with isEncrypted := 1 }]
    deletedPages := [] }

/-- The first device: it has deleted "p1" locally and recorded the id for the
delete phase. -/
def deletingDevice : World :=
  device [] remoteBeforeDelete
    { emptyStore with deletedPageIds := ["p1"], lastSyncTime := some 2000 } 5000 calmOracle

/-- The remote collections after the sync of the first device, which uploads
the tombstone of "p1" (dated 5001) and deletes the document. -/
def remoteAfterDelete : Remote :=
  (syncDexieToFirestore sampleCrypto 5 (some "p1") true deletingDevice).2.remote

/-- The second device: it still holds "p1", and its last sync is dated
`lastSyncTime`. -/
def peerDevice (lastSyncTime : Int) : World :=
  device [mkPage "p1" (some "text") 1000 0] remoteAfterDelete
    { emptyStore with lastSyncTime := some lastSyncTime } 7000 calmOracle

/-- The second device with a checkpoint left by a job interrupted while
uploading. -/
def resumingPeer : World :=
  { peerDevice 4000 with
    store := { (peerDevice 4000).store with
      pendingSyncJob := some
        { jobId := some 7, phase := some "uploading", resumeToken := none, processedItems := 0,
          totalItems := 0, failedItems := [], timestamp := 3000 } } }

/-- The second device when its first remote call, the tombstone query, is
rejected. -/
def flakyPeer : World :=
  { peerDevice 4000 with oracle := { calmOracle with faults := [true] } }

/-- The second device when the remote collection still holds a document of
"p1" modified at 4500, after the last sync of the device. -/
def peerWithNewerDocument : World :=
  { peerDevice 4000 with
    remote := { remoteAfterDelete with
      pages := [{ mkPage "p1" (some "enc:text") 4500 0 with isEncrypted := 1 }] } }

/-! ## The rule of the pending flag -/

/-- Whether a record meets the rule of the pending flag: a record flagged
`pendingSync = 1` has no `lastSynced`, or a `lastModified` later than it. -/
def pendingStamped (p : Page) : Bool :=
  if p.pendingSync = 1 then
    match p.lastSynced with
    | none => true
    | some s =>
      match p.lastModified with
      | some m => decide (s < m)
      | none => false
  else true

/-- Every record of the local table meets the rule of the pending flag. -/
def PendingInvariant (w : World) : Prop :=
  ∀ p ∈ w.pages, pendingStamped p = true

/-- No record was synced later than the clock shows now. -/
def SyncedNotAfter (w : World) : Prop :=
  ∀ p ∈ w.pages, ∀ s, p.lastSynced = some s → s ≤ w.now

/-- Every record was synced before the time the clock shows now. -/
def SyncedBefore (w : World) : Prop :=
  ∀ p ∈ w.pages, ∀ s, p.lastSynced = some s → s < w.now

/-- The rule of the pending flag, on a device whose clock moves forward at
each reading and is ahead of every `lastSynced` of the table. -/
def ClockedInvariant (w : World) : Prop :=
  PendingInvariant w ∧ SyncedBefore w ∧ 0 < w.tick

/-- The updates of a call to `updatePage` leave `lastSynced` alone and bring a
`lastModified` later than it, if there is one. -/
def StampsAfterSync (pageId : PageId) (updates : Page → Page) (w : World) : Prop :=
  ∀ p ∈ w.pages, p.id = pageId → (updates p).lastSynced = p.lastSynced ∧
    pendingStamped { updates p with pendingSync := 1 } = true

instance (w : World) : Decidable (PendingInvariant w) := by
  unfold PendingInvariant; infer_instance

instance (w : World) : Decidable (SyncedNotAfter w) := by
  unfold SyncedNotAfter; infer_instance

instance (w : World) : Decidable (SyncedBefore w) := by
  unfold SyncedBefore; infer_instance

instance (w : World) : Decidable (ClockedInvariant w) := by
  unfold ClockedInvariant; infer_instance

instance (pageId : PageId) (updates : Page → Page) (w : World) :
    Decidable (StampsAfterSync pageId updates w) := by
  unfold StampsAfterSync; infer_instance

/-- The page "p1", modified at 1000 and synced at 5000. -/
def syncedNote : Page := { mkPage "p1" (some "text") 1000 0 with lastSynced := some 5000 }

/-- A device that holds the synced page "p1", at time `now`. -/
def syncedDevice (now : Int) : World :=
  device [syncedNote] { pages := [], deletedPages := [] } emptyStore now calmOracle

/-- The updates of a renaming: `{ name: "Renamed" }`. -/
def renameUpdates (p : Page) : Page := { p with name := some "Renamed" }

/-- The updates of a renaming that carries the time of the change:
`{ name: "Renamed", lastModified: 6000 }`. -/
def stampedRename (p : Page) : Page :=
  { p with name := some "Renamed", lastModified := some 6000 }

/-! ## Devices with a checkpoint or a running job -/

/-- A checkpoint left by a job interrupted in `phase`, with no resume token. -/
def checkpointIn (phase : String) : Checkpoint :=
  { jobId := some 7, phase := some phase, resumeToken := none, processedItems := 0,
    totalItems := 0, failedItems := [], timestamp := 3000 }

/-- A remote document of the page "p2", written by another device at 6000. -/
def remoteNote : Page := { mkPage "p2" (some "enc:remote text") 6000 0 with isEncrypted := 1 }

/-- A device last synced at 5000, with no page, no pending deletion and the
given checkpoint, while the remote collection holds `remoteNote`. -/
def interruptedDevice (checkpoint : Option Checkpoint) : World :=
  device [] { pages := [remoteNote], deletedPages := [] }
    { emptyStore with lastSyncTime := some 5000, pendingSyncJob := checkpoint } 7000 calmOracle

/-- A device on which a sync job is running, with nobody signed in, a locked
vault and the checkpoint of an earlier job. -/
def busyDevice : World :=
  { interruptedDevice (some (checkpointIn "uploading")) with
    sync := { idleSync with inProgress := true, currentJobId := some 3, processedItems := 2 }
    currentUser := none
    userVaultKey := false }

/-- The wait of `executeWithRetry` after the failure number `attempt`: the
jitter is drawn, and the loop sleeps for the exponential delay plus the
jitter. -/
def retryWait (attempt : Nat) : M Unit := do
  let baseDelay := BASE_RETRY_DELAY
  let r ← mathRandom
  let jitter := r * (3 * baseDelay / 10) / 1000
  let exponentialDelay := 2 ^ attempt * baseDelay
  sleep (exponentialDelay + jitter)

/-- The world in which `operation` is invoked for the time number `j + 1` by a
loop of `executeWithRetry` that starts in `w` after `attempt` failures, when
the `j` invocations before it throw. -/
def attemptWorld {α : Type} (operation : M α) : Nat → Nat → World → World
  | _, 0, w => w
  | attempt, j + 1, w =>
    attemptWorld operation (attempt + 1) j (retryWait (attempt + 1) (operation w).2).2

/-- Whether an outcome is a thrown error. -/
def Res.isThrow {α : Type} : Res α → Bool
  | Res.throw _ => true
  | _ => false

/-- An operation that notes each of its invocations in `failedItems` and is
then rejected. -/
def notedFailure : M Unit := do
  pushFailed "attempt"
  throwNew "FirebaseError: unavailable"

/-! ## Byte-level model of `src/utils/cryptoUtils.js`

The gateway `Crypto` above stands for `encryptData` and `decryptData` as the
sync engine sees them. Here the two functions are modelled with their
transport encoding. A byte array is a list of `Byte`; a binary string (the
argument of `btoa`, the result of `atob`) is the list of its code units. The
platform functions `btoa` and `atob` follow RFC 4648 and the forgiving-base64
decoding of the HTML standard; `subtle.encrypt`, `subtle.decrypt`,
`TextEncoder` and `TextDecoder` are parameters. -/

namespace CryptoUtils

/-- An element of a `Uint8Array`. -/
abbrev Byte := Fin 256

/-- The base64 alphabet. -/
def base64Chars : List Char :=
  "ABCDEFGHIJKLMNOPQRSTUVWXYZabcdefghijklmnopqrstuvwxyz0123456789+/".data

/-- The character that stands for the six-bit value `n`. -/
def sextetChar (n : Nat) : Char := base64Chars.getD n '='

/-- The six-bit value of a character of the alphabet. -/
def charSextet (c : Char) : Option Nat :=
  if base64Chars.indexOf c < 64 then some (base64Chars.indexOf c) else none

/-- The six-bit groups of a sequence of octets; the last group is filled with
zero bits. -/
def toSextets : List Nat → List Nat
  | a :: b :: c :: rest =>
    a / 4 :: (a % 4 * 16 + b / 16) :: (b % 16 * 4 + c / 64) :: c % 64 :: toSextets rest
  | [a, b] => [a / 4, a % 4 * 16 + b / 16, b % 16 * 4]
  | [a] => [a / 4, a % 4 * 16]
  | [] => []

/-- The octets of a sequence of six-bit groups; the bits left over at the end
are discarded. -/
def fromSextets : List Nat → List Nat
  | s0 :: s1 :: s2 :: s3 :: rest =>
    (s0 * 4 + s1 / 16) :: (s1 % 16 * 16 + s2 / 4) :: (s2 % 4 * 64 + s3) :: fromSextets rest
  | [s0, s1, s2] => [s0 * 4 + s1 / 16, s1 % 16 * 16 + s2 / 4]
  | [s0, s1] => [s0 * 4 + s1 / 16]
  | _ => []

/-- Model of the platform function `btoa`: rejects a code unit above 255, and
pads the result with `=` to a multiple of four characters. -/
def btoa (binary : List Nat) : Except String String :=
  if binary.all fun u => decide (u < 256) then
    Except.ok (String.mk ((toSextets binary).map sextetChar ++
      List.replicate ((3 - binary.length % 3) % 3) '='))
  else
    Except.error "InvalidCharacterError"

/-- ASCII whitespace: tab, line feed, form feed, carriage return, space. -/
def isAsciiWhitespace (c : Char) : Bool :=
  c.toNat = 9 || c.toNat = 10 || c.toNat = 12 || c.toNat = 13 || c.toNat = 32

/-- The second step of forgiving-base64 decoding: when the length is a
multiple of four, one or two `=` at the end are removed. -/
def dropPadding (cs : List Char) : List Char :=
  if cs.length % 4 = 0 then
    if cs.getLast? = some '=' then
      if cs.dropLast.getLast? = some '=' then cs.dropLast.dropLast else cs.dropLast
    else cs
  else cs

/-- The six-bit values of a sequence of characters; `none` when one of them is
not in the alphabet. -/
def charsToSextets : List Char → Option (List Nat)
  | [] => some []
  | c :: cs =>
    match charSextet c, charsToSextets cs with
    | some s, some rest => some (s :: rest)
    | _, _ => none

/-- Model of the platform function `atob` (forgiving-base64 decoding); the
result is the list of the code units of the binary string. -/
def atob (data : String) : Except String (List Nat) :=
  let cs := dropPadding (data.data.filter fun c => !isAsciiWhitespace c)
  if cs.length % 4 = 1 then Except.error "InvalidCharacterError"
  else
    match charsToSextets cs with
    | none => Except.error "InvalidCharacterError"
    | some sextets => Except.ok (fromSextets sextets)

/-- The character `b` for `a`, and any other character for itself. -/
def swapChar (a b c : Char) : Char := if c = a then b else c

/-- Model of `String.prototype.replace` with a global pattern of one character. -/
def replaceChar (a b : Char) (cs : List Char) : List Char :=
  cs.map (swapChar a b)

/-- Model of `.replace(/=+$/, "")`. -/
def dropTrailingEquals (cs : List Char) : List Char :=
  (cs.reverse.dropWhile fun c => c = '=').reverse

/-- Model of `arrayBufferToBase64(buffer)`. -/
def arrayBufferToBase64 (buffer : List Byte) : Except String String := do
  let binary := buffer.map fun b => b.val
  let encoded ← btoa binary
  return String.mk
    (dropTrailingEquals (replaceChar '/' '_' (replaceChar '+' '-' encoded.data)))

/-- Model of `base64ToArrayBuffer(base64)`. -/
def base64ToArrayBuffer (base64 : String) : Except String (List Byte) := do
  let base64Standard := String.mk (replaceChar '_' '/' (replaceChar '-' '+' base64.data))
  let padding := jsLength base64Standard % 4
  let paddedBase64 :=
    if padding ≠ 0 then String.mk (base64Standard.data ++ List.replicate (4 - padding) '=')
    else base64Standard
  let binaryString ← atob paddedBase64
  return binaryString.map fun u => Fin.ofNat u

/-- The platform functions that `encryptData` and `decryptData` call:
`crypto.subtle.encrypt` and `crypto.subtle.decrypt` with AES-GCM (key, nonce,
data; `none` when the promise is rejected), `TextEncoder.encode` and
`TextDecoder.decode`. -/
structure WebCrypto (Key : Type) where
  encrypt : Key → List Byte → List Byte → Option (List Byte)
  decrypt : Key → List Byte → List Byte → Option (List Byte)
  encode : String → List Byte
  decode : List Byte → String

/-- Model of `encryptData(key, data)`; `iv` is the value of
`getRandomValues(new Uint8Array(12))`, and `none` the result `null`. -/
def encryptData {Key : Type} (platform : WebCrypto Key) (key : Key) (iv : List Byte)
    (data : String) : Option String :=
  match platform.encrypt key iv (platform.encode data) with
  | none => none
  | some encrypted =>
    let encryptedBytes := iv ++ encrypted
    match arrayBufferToBase64 encryptedBytes with
    | Except.ok token => some token
    | Except.error _ => none

/-- Model of `decryptData(key, encryptedBase64)`; `none` is the result `null`. -/
def decryptData {Key : Type} (platform : WebCrypto Key) (key : Key) (encryptedBase64 : String) :
    Option String :=
  match base64ToArrayBuffer encryptedBase64 with
  | Except.error _ => none
  | Except.ok encryptedBytes =>
    let iv := encryptedBytes.take 12
    let encryptedData := encryptedBytes.drop 12
    match platform.decrypt key iv encryptedData with
    | none => none
    | some decrypted => some (platform.decode decrypted)

/-- A toy platform for the examples: the cipher adds the key and the first
octet of the nonce to each octet, and the text codec maps a character to the
octet of its code. -/
def toyPlatform : WebCrypto Nat where
  encrypt := fun key iv data =>
    some (data.map fun b => Fin.ofNat (b.val + key + (iv.headD 0).val))
  decrypt := fun key iv data =>
    some (data.map fun b => Fin.ofNat (b.val + 512 - key % 256 - (iv.headD 0).val))
  encode := fun text => text.data.map fun c => Fin.ofNat c.toNat
  decode := fun octets => String.mk (octets.map fun b => Char.ofNat b.val)

/-- A nonce of twelve octets. -/
def sampleNonce : List Byte := [250, 251, 252, 253, 254, 255, 0, 1, 2, 3, 4, 5]

end CryptoUtils

/-- A checkpoint whose phase is `null`, as `saveCheckpoint` writes it while no
phase function has reported progress yet. -/
def nullPhaseCheckpoint : Checkpoint :=
  { jobId := some 1, phase := none, resumeToken := none, processedItems := 0,
    totalItems := 0, failedItems := [], timestamp := 7000 }

/-- A device on which a job has just started: `syncState.inProgress` is set
and no phase has reported progress. -/
def startedDevice : World :=
  { interruptedDevice none with
    sync := { idleSync with inProgress := true, currentJobId := some 1 } }

/-! ## The scheduler of `src/smartSync.js`

The state of a `SmartSync` object, with the timers of its two debounced
functions and of its forced sync. A pending timer is the pair of the
arguments of the call it will make. `Date.now()` is the field `now`; a call
of `handleContentChange` runs without the clock moving. -/

namespace SmartSync

/-- The entries of `config` that `handleContentChange` reads. -/
structure Config where
  cloudSyncDelay : Int
  maxSyncDelay : Int
  minChangeThreshold : Nat
  significantChangeThreshold : Nat
  adaptiveTiming : Bool
  collectMetrics : Bool
  deriving DecidableEq, Repr

/-- An entry of `state.changeHistory`. -/
structure ChangeRecord where
  timestamp : Int
  changeSize : Nat
  timeSinceLastChange : Int
  deriving DecidableEq, Repr

/-- The entries of `state.userPatterns` that the scheduler reads. -/
structure UserPatterns where
  avgEditSessionLength : ℚ
  sessionCount : Nat
  deriving DecidableEq, Repr

/-- The object: `config`, `state`, `lastActivityTime` and the three timers. -/
structure Scheduler where
  config : Config
  lastContent : Option String
  lastLocalSave : Option Int
  lastCloudSync : Option Int
  pendingChanges : Bool
  syncScheduled : Bool
  forceSyncScheduled : Bool
  consecutiveChanges : Nat
  changeHistory : List ChangeRecord
  userPatterns : UserPatterns
  lastActivityTime : Int
  now : Int
  localSaveTimer : Option (PageId × String)
  cloudSyncTimer : Option (PageId × String)
  forceSyncTimer : Option (Int × PageId × String)
  deriving DecidableEq, Repr

/-- The result of `_calculateChangeMetrics`. -/
structure ChangeMetrics where
  hasChanged : Bool
  changeSize : Nat
  isSignificant : Bool
  deriving DecidableEq, Repr

/-- The result of `handleContentChange`. -/
structure ChangeResult where
  savedLocally : Bool
  scheduledForSync : Bool
  deriving DecidableEq, Repr

/-- Model of `_calculateChangeMetrics(newContent)`. -/
def _calculateChangeMetrics (s : Scheduler) (newContent : String) : ChangeMetrics :=
  let previousContent := s.lastContent
  if !truthyStr previousContent then
    { hasChanged := true, changeSize := jsLength newContent, isSignificant := true }
  else
    let previous := previousContent.getD ""
    let hasChanged := !decide (previous = newContent)
    let changeSize := ((jsLength newContent : Int) - (jsLength previous : Int)).natAbs
    let isSignificant := decide (changeSize ≥ s.config.significantChangeThreshold)
    { hasChanged := hasChanged, changeSize := changeSize, isSignificant := isSignificant }

/-- The value of `this.state.lastCloudSync ? Date.now() - this.state.lastCloudSync : Infinity`;
`none` is `Infinity`. -/
def timeSinceLastSync (s : Scheduler) : Option Int :=
  if truthyInt s.lastCloudSync then some (s.now - s.lastCloudSync.getD 0) else none

/-- Model of `_shouldTriggerCloudSync(changeMetrics)`. -/
def _shouldTriggerCloudSync (s : Scheduler) (changeMetrics : ChangeMetrics) : Bool :=
  if changeMetrics.isSignificant then true
  else if changeMetrics.changeSize < s.config.minChangeThreshold then false
  else if (match timeSinceLastSync s with
      | none => true
      | some t => decide (t > s.config.cloudSyncDelay * 2)) then true
  else if s.consecutiveChanges > 10 then true
  else if s.config.adaptiveTiming && decide (s.userPatterns.sessionCount > 5) then
    if (s.consecutiveChanges : ℚ) > s.userPatterns.avgEditSessionLength * (4 / 5) then true
    else false
  else false

/-- Model of `_ensureMaxSyncDelay(pageId, content)`. -/
def _ensureMaxSyncDelay (s : Scheduler) (pageId : PageId) (content : String) : Scheduler :=
  if s.forceSyncScheduled then s
  else
    let timeUntilForceSync : Int :=
      match timeSinceLastSync s with
      | none => 0
      | some t => max 0 (s.config.maxSyncDelay - t)
    if s.pendingChanges then
      { s with forceSyncScheduled := true
               forceSyncTimer := some (timeUntilForceSync, pageId, content) }
    else s

/-- Model of `handleContentChange(pageId, content)`. -/
def handleContentChange (s : Scheduler) (pageId : PageId) (content : String) :
    ChangeResult × Scheduler :=
  let s := { s with lastActivityTime := s.now }
  let changeMetrics := _calculateChangeMetrics s content
  let s := { s with pendingChanges := true, consecutiveChanges := s.consecutiveChanges + 1 }
  let s :=
    if changeMetrics.hasChanged then
      let s := { s with localSaveTimer := some (pageId, content) }
      if s.config.collectMetrics then
        let entry : ChangeRecord :=
          { timestamp := s.now, changeSize := changeMetrics.changeSize
            timeSinceLastChange :=
              if truthyInt s.lastLocalSave then s.now - s.lastLocalSave.getD 0 else 0 }
        let history := s.changeHistory ++ [entry]
        { s with changeHistory := if history.length > 100 then history.drop 1 else history }
      else s
    else s
  let shouldCloudSync := _shouldTriggerCloudSync s changeMetrics
  let s :=
    if shouldCloudSync then
      let s := { s with cloudSyncTimer := none }
      if !s.syncScheduled then
        { s with syncScheduled := true, cloudSyncTimer := some (pageId, content) }
      else s
    else s
  let s := _ensureMaxSyncDelay s pageId content
  ({ savedLocally := changeMetrics.hasChanged, scheduledForSync := shouldCloudSync }, s)

/-- The default configuration. -/
def defaultConfig : Config :=
  { cloudSyncDelay := 30000, maxSyncDelay := 300000, minChangeThreshold := 10,
    significantChangeThreshold := 100, adaptiveTiming := true, collectMetrics := true }

/-- A scheduler that saved the snapshot `lastContent` and synced it to the
cloud at 1000; the clock shows 2000. -/
def syncedScheduler (lastContent : Option String) : Scheduler :=
  { config := defaultConfig, lastContent := lastContent, lastLocalSave := some 1000,
    lastCloudSync := some 1000, pendingChanges := false, syncScheduled := false,
    forceSyncScheduled := false, consecutiveChanges := 0, changeHistory := [],
    userPatterns := { avgEditSessionLength := 0, sessionCount := 0 },
    lastActivityTime := 1000, now := 2000, localSaveTimer := none, cloudSyncTimer := none,
    forceSyncTimer := none }

/-- A text of `n` characters. -/
def textOf (n : Nat) : String := String.mk (List.replicate n 'a')

end SmartSync

namespace SmartSync

/-- The change size of claim C26: the absolute difference in length between
the new content and the last snapshot (of length 0 when there is none). -/
def changeSizeOf (s : Scheduler) (content : String) : Nat :=
  ((jsLength content : Int) - (jsLength (s.lastContent.getD "") : Int)).natAbs

/-- The second half of the rule of claim C26: one of the three reasons to
sync a change that is not significant. The count of consecutive changes
includes the change at hand; when no cloud sync has happened yet, the time
since the last one counts as exceeding every delay. -/
def EscalationDue (s : Scheduler) : Prop :=
  (match timeSinceLastSync s with
    | none => True
    | some t => t > s.config.cloudSyncDelay * 2) ∨
  s.consecutiveChanges + 1 > 10 ∨
  (s.config.adaptiveTiming = true ∧ s.userPatterns.sessionCount > 5 ∧
    ((s.consecutiveChanges + 1 : Nat) : ℚ) > s.userPatterns.avgEditSessionLength * (4 / 5))

/-- The rule as claim C26 states it. -/
def ClaimedRule (s : Scheduler) (content : String) : Prop :=
  changeSizeOf s content ≥ s.config.significantChangeThreshold ∨
  (changeSizeOf s content ≥ s.config.minChangeThreshold ∧ EscalationDue s)

end SmartSync

/-! ## Workdays (`addWorkdays`, `timeUnitCalculators.workdays`)

A date is the number of its calendar day, counted from 1970-01-01 (a
Thursday), and the time within the day; `add(1, "day")` and
`subtract(1, "day")` move the day and keep the time, and the comparisons of
`workdays` are by day. The calendar is that of `dayjs.utc` in `addWorkdays`
and of the local zone in `workdays`. The `while` loops take `fuel`. -/

namespace Workdays

/-- A `dayjs` date. -/
structure Day where
  day : Int
  timeOfDay : Nat
  deriving DecidableEq, Repr

/-- Model of `date.day()`: 0 is Sunday and 6 is Saturday. -/
def dayOfWeek (d : Day) : Int := (d.day + 4) % 7

/-- The test `dayOfWeek !== 0 && dayOfWeek !== 6`. -/
def isWorkday (d : Day) : Bool := dayOfWeek d ≠ 0 && dayOfWeek d ≠ 6

/-- Model of `date.add(n, "day")`, and of `date.subtract(-n, "day")`. -/
def addDays (d : Day) (n : Int) : Day := { d with day := d.day + n }

/-- The `while` loop of `addWorkdays`. -/
def addWorkdaysLoop (amount : Int) : Nat → Day → Nat → Option Day
  | 0, date, count => if count < amount.natAbs then none else some date
  | fuel + 1, date, count =>
    if count < amount.natAbs then
      let date := if amount > 0 then addDays date 1 else addDays date (-1)
      let count := if isWorkday date then count + 1 else count
      addWorkdaysLoop amount fuel date count
    else some date

/-- Model of `addWorkdays(start, amount, tz)`; `none` when the loop has not
ended within `fuel` iterations. -/
def addWorkdays (fuel : Nat) (start : Day) (amount : Int) : Option Day :=
  addWorkdaysLoop amount fuel start 0

/-- The `while` loop of `timeUnitCalculators.workdays`. -/
def workdaysLoop (endDate : Day) : Nat → Day → Nat → Option Nat
  | 0, curDate, count => if curDate.day ≤ endDate.day then none else some count
  | fuel + 1, curDate, count =>
    if curDate.day ≤ endDate.day then
      let count := if isWorkday curDate then count + 1 else count
      workdaysLoop endDate fuel (addDays curDate 1) count
    else some count

/-- Model of `timeUnitCalculators.workdays(startDate, endDate)`; `none` when
the loop has not ended within `fuel` iterations. -/
def workdays (fuel : Nat) (startDate endDate : Day) : Option Nat :=
  workdaysLoop endDate fuel startDate 0

/-- The number of workdays among the `k` days that follow `date` in the
direction `step` (1 for the days after, -1 for the days before). -/
def workdaysAmong (date : Day) (step : Int) (k : Nat) : Nat :=
  ((List.range k).filter fun (i : Nat) => isWorkday (addDays date (step * ((i : Int) + 1)))).length

/-- The number of workdays among the `n` days from `date` on, `date` included. -/
def workdaysFrom (date : Day) (n : Nat) : Nat :=
  ((List.range n).filter fun (i : Nat) => isWorkday (addDays date (i : Int))).length

/-- The day 1970-01-02, a Friday, at noon. -/
def friday : Day := { day := 1, timeOfDay := 43200000 }

end Workdays

namespace Workdays

/-- The number of weekend days that the loop of `addWorkdays` has just passed
when it stands on `date`, moving in the direction of `amount`: 0 on a
workday, 1 on the first day of a weekend and 2 on its second day. -/
def weekendStreak (amount : Int) (date : Day) : Nat :=
  if amount > 0 then
    if dayOfWeek date = 6 then 1 else if dayOfWeek date = 0 then 2 else 0
  else
    if dayOfWeek date = 0 then 1 else if dayOfWeek date = 6 then 2 else 0

end Workdays

/-! ## Regular expressions and strings of JavaScript

A backtracking matcher for the patterns of the sources: greedy and lazy
repetition, alternation in order, capturing groups, `^`, `$` and `\b`, with
the flag `i` as a parameter. A string is the list of its characters; a
character outside the Basic Multilingual Plane counts as one character, where
JavaScript sees two code units. A capturing group is never inside a
repetition in the patterns below, so that the captures of an earlier
iteration need not be reset. -/

instance {ε α : Type} [DecidableEq ε] [DecidableEq α] : DecidableEq (Except ε α) := fun a b =>
  match a, b with
  | Except.ok x, Except.ok y =>
    if h : x = y then isTrue (by rw [h]) else isFalse (by intro e; cases e; exact h rfl)
  | Except.error x, Except.error y =>
    if h : x = y then isTrue (by rw [h]) else isFalse (by intro e; cases e; exact h rfl)
  | Except.ok _, Except.error _ => isFalse (by intro e; cases e)
  | Except.error _, Except.ok _ => isFalse (by intro e; cases e)

namespace Js

/-- Model of `\s`, and of the characters that `trim()` removes. -/
def isSpace (c : Char) : Bool :=
  let n := c.toNat
  n = 9 || n = 10 || n = 11 || n = 12 || n = 13 || n = 32 || n = 160 || n = 5760 ||
    (8192 ≤ n && n ≤ 8202) || n = 8232 || n = 8233 || n = 8239 || n = 8287 || n = 12288 ||
    n = 65279

/-- Model of `\d`. -/
def isDigit (c : Char) : Bool := '0' ≤ c && c ≤ '9'

/-- Model of `[a-zA-Z]`. -/
def isLetter (c : Char) : Bool := ('a' ≤ c && c ≤ 'z') || ('A' ≤ c && c ≤ 'Z')

/-- Model of `\w`. -/
def isWord (c : Char) : Bool := isLetter c || isDigit c || c = '_'

/-- Model of `.`: any character but a line terminator. -/
def isDot (c : Char) : Bool :=
  !(c.toNat = 10 || c.toNat = 13 || c.toNat = 8232 || c.toNat = 8233)

/-- A pattern. -/
inductive Re where
  | empty : Re
  | set (p : Char → Bool) : Re
  | seq (a b : Re) : Re
  | alt (a b : Re) : Re
  | star (greedy : Bool) (r : Re) : Re
  | group (index : Nat) (r : Re) : Re
  | bol : Re
  | eol : Re
  | wordBoundary : Re

/-- A position in the input: the character before it, the input from it on,
and the captures made so far, the latest first. -/
structure Position where
  prev : Option Char
  rest : List Char
  caps : List (Nat × List Char)

/-- Whether a character is accepted by a class; with the flag `i`, also when
the class holds the character in the other case. -/
def accepts (ignoreCase : Bool) (p : Char → Bool) (c : Char) : Bool :=
  p c || (ignoreCase && (p c.toLower || p c.toUpper))

/-- A repetition of `step`, which must consume input at each round; `fuel`
is more than the length of the input. -/
def starLoop (greedy : Bool)
    (step : (Position → Option Position) → Position → Option Position)
    (k : Position → Option Position) : Nat → Position → Option Position
  | 0, st => k st
  | fuel + 1, st =>
    let more := step
      (fun st1 => if st1.rest.length < st.rest.length then starLoop greedy step k fuel st1
                  else none) st
    if greedy then more.orElse fun _ => k st
    else (k st).orElse fun _ => more

/-- The matcher: `matchRe i r k st` is the first way, in the order of
backtracking, in which `r` matches at `st` and `k` accepts what follows. -/
def matchRe (ignoreCase : Bool) : Re → (Position → Option Position) → Position → Option Position
  | Re.empty => fun k st => k st
  | Re.set p => fun k st =>
    match st.rest with
    | c :: cs => if accepts ignoreCase p c then k { st with prev := some c, rest := cs } else none
    | [] => none
  | Re.seq a b => fun k st => matchRe ignoreCase a (matchRe ignoreCase b k) st
  | Re.alt a b => fun k st => (matchRe ignoreCase a k st).orElse fun _ => matchRe ignoreCase b k st
  | Re.star greedy r => fun k st =>
    starLoop greedy (matchRe ignoreCase r) k (st.rest.length + 1) st
  | Re.group index r => fun k st =>
    matchRe ignoreCase r
      (fun st1 => k { st1 with
        caps := (index, st.rest.take (st.rest.length - st1.rest.length)) :: st1.caps }) st
  | Re.bol => fun k st => if st.prev.isNone then k st else none
  | Re.eol => fun k st => if st.rest.isEmpty then k st else none
  | Re.wordBoundary => fun k st =>
    if (st.prev.map isWord).getD false != (st.rest.head?.map isWord).getD false then k st
    else none

/-- A match: the input before it, the input from its start on, and the
position after it. -/
structure Match where
  before : List Char
  start : List Char
  stop : Position

/-- The text matched. -/
def Match.text (m : Match) : String :=
  String.mk (m.start.take (m.start.length - m.stop.rest.length))

/-- The text captured by the group `n`; `none` is `undefined`. -/
def Match.group (m : Match) (n : Nat) : Option String :=
  (m.stop.caps.find? fun c => c.1 = n).map fun c => String.mk c.2

/-- The index of the match in the input. -/
def Match.index (m : Match) : Nat := m.before.length

/-- The leftmost match at or after a position; `seen` is the input before the
position, the last character first. -/
def search (ignoreCase : Bool) (r : Re) : List Char → List Char → Option Match
  | seen, [] =>
    (matchRe ignoreCase r some { prev := seen.head?, rest := [], caps := [] }).map fun st =>
      { before := seen.reverse, start := [], stop := st }
  | seen, c :: cs =>
    match matchRe ignoreCase r some { prev := seen.head?, rest := c :: cs, caps := [] } with
    | some st => some { before := seen.reverse, start := c :: cs, stop := st }
    | none => search ignoreCase r (c :: seen) cs

/-- Model of `input.match(r)` and `r.exec(input)` for a pattern without the
flag `g`. -/
def exec (ignoreCase : Bool) (r : Re) (input : String) : Option Match :=
  search ignoreCase r [] input.data

/-- Model of `r.test(input)`. -/
def test (ignoreCase : Bool) (r : Re) (input : String) : Bool :=
  (exec ignoreCase r input).isSome

/-- The loop of a replacement with the flag `g`: `seen` is the input already
passed, the last character first; after an empty match the search resumes one
character further. The result is the output from the position on. -/
def replaceLoop (ignoreCase : Bool) (r : Re) (f : Match → List Char) :
    Nat → List Char → List Char → List Char
  | 0, _, rest => rest
  | fuel + 1, seen, rest =>
    match search ignoreCase r seen rest with
    | none => rest
    | some m =>
      let skipped := rest.take (rest.length - m.start.length)
      let matched := m.start.take (m.start.length - m.stop.rest.length)
      if m.stop.rest.length < m.start.length then
        skipped ++ f m ++
          replaceLoop ignoreCase r f fuel (matched.reverse ++ skipped.reverse ++ seen) m.stop.rest
      else
        match m.start with
        | [] => skipped ++ f m
        | c :: cs =>
          skipped ++ f m ++ c :: replaceLoop ignoreCase r f fuel (c :: skipped.reverse ++ seen) cs

/-- Model of `input.replace(r, f)` for a pattern with the flag `g` and a
function `f` of the match. -/
def replaceAll (ignoreCase : Bool) (r : Re) (f : Match → String) (input : String) : String :=
  String.mk (replaceLoop ignoreCase r (fun m => (f m).data) (input.length + 1) [] input.data)

/-- Model of `input.replace(r, f)` for a pattern without the flag `g`: the
first match only. -/
def replaceFirst (ignoreCase : Bool) (r : Re) (f : Match → String) (input : String) : String :=
  match exec ignoreCase r input with
  | none => input
  | some m => String.mk (m.before ++ (f m).data ++ m.stop.rest)

/-- The loop of `input.match(r)` with the flag `g`. -/
def matchLoop (ignoreCase : Bool) (r : Re) : Nat → List Char → List Char → List String
  | 0, _, _ => []
  | fuel + 1, seen, rest =>
    match search ignoreCase r seen rest with
    | none => []
    | some m =>
      let skipped := rest.take (rest.length - m.start.length)
      let matched := m.start.take (m.start.length - m.stop.rest.length)
      if m.stop.rest.length < m.start.length then
        m.text :: matchLoop ignoreCase r fuel (matched.reverse ++ skipped.reverse ++ seen) m.stop.rest
      else
        match m.start with
        | [] => [m.text]
        | c :: cs => m.text :: matchLoop ignoreCase r fuel (c :: skipped.reverse ++ seen) cs

/-- Model of `input.match(r)` for a pattern with the flag `g`: the texts
matched, `[]` standing for `null`. -/
def matchAll (ignoreCase : Bool) (r : Re) (input : String) : List String :=
  matchLoop ignoreCase r (input.length + 1) [] input.data

/-- Model of the expansion of a replacement text: `$$` is `$`, `$&` the text
matched, a dollar and a backtick the input before the match, a dollar and an
apostrophe the input after it. The patterns that use a replacement text have
no capturing group, so that `$1` to `$99` stand for themselves. -/
def expandReplacement (m : Match) : List Char → List Char
  | '$' :: c :: cs =>
    if c = '$' then '$' :: expandReplacement m cs
    else if c = '&' then m.text.data ++ expandReplacement m cs
    else if c.toNat = 96 then m.before ++ expandReplacement m cs
    else if c.toNat = 39 then m.stop.rest ++ expandReplacement m cs
    else '$' :: expandReplacement m (c :: cs)
  | c :: cs => c :: expandReplacement m cs
  | [] => []

/-- Model of `input.replace(r, text)` for a pattern with the flag `g` and a
replacement text. -/
def replaceAllText (ignoreCase : Bool) (r : Re) (text : String) (input : String) : String :=
  replaceAll ignoreCase r (fun m => String.mk (expandReplacement m text.data)) input

/-- The pattern of one given character. -/
def chr (c : Char) : Re := Re.set fun x => x = c

/-- The pattern of a literal text. -/
def lit (s : String) : Re := s.data.foldr (fun c r => Re.seq (chr c) r) Re.empty

/-- The pattern `r+`. -/
def plus (r : Re) : Re := Re.seq r (Re.star true r)

/-- The pattern `r?`. -/
def opt (r : Re) : Re := Re.alt r Re.empty

/-- The pattern of a sequence of parts. -/
def cat (rs : List Re) : Re := rs.foldr Re.seq Re.empty

/-- The pattern of a choice between alternatives, in order. -/
def oneOf : List Re → Re
  | [] => Re.set fun _ => false
  | [r] => r
  | r :: rs => Re.alt r (oneOf rs)

/-- Model of `input.trim()`. -/
def trim (s : String) : String :=
  String.mk ((s.data.dropWhile isSpace).reverse.dropWhile isSpace).reverse

/-- Model of `input.includes(part)`. -/
def includes (input part : String) : Bool :=
  input.data.tails.any fun t => part.data.isPrefixOf t

/-- Model of `input.startsWith(part)`. -/
def startsWith (input part : String) : Bool := part.data.isPrefixOf input.data

/-- Model of `input.toLowerCase()` on the letters A to Z. -/
def toLowerCase (s : String) : String := String.mk (s.data.map Char.toLower)

/-! Numbers are the doubles of IEEE 754, held by their exact rational value:
each operation of `Number` rounds the exact result to the nearest double,
ties to the even mantissa, and a numeral is read as the double nearest to
it. The sign of zero is not modelled (no operation of the code modelled here
tells the two zeros apart, a division by zero excepted, where the zero counts
as positive). The conversions by metric prefix (`siPrefix`, `formatSI`) keep
the exact product of the value and the power of ten, and round it to a double
where it is printed. -/

/-- A number of JavaScript: a finite double, by its value, an infinity, or
`NaN`. -/
inductive Number where
  | finite (q : ℚ)
  | infinity (negative : Bool)
  | nan
  deriving DecidableEq, Repr

/-- Two to the power `e`. -/
def twoPow (e : Int) : ℚ :=
  if e ≥ 0 then ((2 ^ e.toNat : Nat) : ℚ) else 1 / ((2 ^ (-e).toNat : Nat) : ℚ)

/-- Ten to the power `e`. -/
def tenPow (e : Int) : ℚ :=
  if e ≥ 0 then ((10 ^ e.toNat : Nat) : ℚ) else 1 / ((10 ^ (-e).toNat : Nat) : ℚ)

/-- The number of binary digits of a natural number; `fuel` is more than
that number. -/
def bitLength : Nat → Nat → Nat
  | 0, _ => 0
  | fuel + 1, n => if n = 0 then 0 else bitLength fuel (n / 2) + 1

/-- The exponent `e` of a positive rational: `2^e ≤ a < 2^(e+1)`. -/
def binaryExponent (a : ℚ) : Int :=
  let e0 : Int := (bitLength (a.num.natAbs + 1) a.num.natAbs : Int) - (bitLength (a.den + 1) a.den : Int)
  if twoPow e0 ≤ a then e0 else e0 - 1

/-- The nearest integer to a rational that is not negative, the even one of
two that are as near. -/
def roundHalfEven (q : ℚ) : Nat :=
  let f := q.floor.toNat
  if q - f < 1 / 2 then f
  else if 1 / 2 < q - f then f + 1
  else if f % 2 = 0 then f else f + 1

/-- The double nearest to a rational, ties to even: 53 binary digits from the
exponent of the number on, the exponent being at least -1022 (below that
the doubles are equally spaced), and an infinity from `2^1024 - 2^970` on. -/
def roundDouble (x : ℚ) : Number :=
  if x = 0 then Number.finite 0
  else
    let e := max (binaryExponent |x|) (-1022)
    let quantum := twoPow (e - 52)
    let r : ℚ := (roundHalfEven (|x| / quantum) : ℚ) * quantum
    if twoPow 1024 ≤ r then Number.infinity (decide (x < 0))
    else Number.finite (if x < 0 then -r else r)

/-- Model of `-x`. -/
def Number.neg : Number → Number
  | Number.finite q => Number.finite (-q)
  | Number.infinity negative => Number.infinity (!negative)
  | Number.nan => Number.nan

/-- Model of `x + y`. -/
def Number.add : Number → Number → Number
  | Number.finite a, Number.finite b => roundDouble (a + b)
  | Number.finite _, Number.infinity s => Number.infinity s
  | Number.infinity s, Number.finite _ => Number.infinity s
  | Number.infinity s, Number.infinity t => if s = t then Number.infinity s else Number.nan
  | _, _ => Number.nan

/-- Model of `x - y`. -/
def Number.sub (x y : Number) : Number := Number.add x (Number.neg y)

/-- Model of `x * y`. -/
def Number.mul : Number → Number → Number
  | Number.finite a, Number.finite b => roundDouble (a * b)
  | Number.finite a, Number.infinity s => if a = 0 then Number.nan else Number.infinity (s != decide (a < 0))
  | Number.infinity s, Number.finite b => if b = 0 then Number.nan else Number.infinity (s != decide (b < 0))
  | Number.infinity s, Number.infinity t => Number.infinity (s != t)
  | _, _ => Number.nan

/-- Model of `x / y`. -/
def Number.div : Number → Number → Number
  | Number.finite a, Number.finite b =>
    if b = 0 then (if a = 0 then Number.nan else Number.infinity (decide (a < 0)))
    else roundDouble (a / b)
  | Number.finite _, Number.infinity _ => Number.finite 0
  | Number.infinity s, Number.finite b => Number.infinity (s != decide (b < 0))
  | _, _ => Number.nan

/-- The number written by a sequence of decimal digits. -/
def digitsValue (ds : List Char) : Nat :=
  ds.foldl (fun n c => 10 * n + (c.toNat - 48)) 0

/-- The value of the longest prefix of a text that is a decimal numeral
without a sign (digits, fraction, exponent); `none` when there is no such
prefix. -/
def decimalPrefix (s : List Char) : Option ℚ :=
  let intDigits := s.takeWhile isDigit
  let s := s.dropWhile isDigit
  let (fracDigits, s) :=
    match s with
    | '.' :: t => (t.takeWhile isDigit, t.dropWhile isDigit)
    | _ => ([], s)
  if intDigits.isEmpty && fracDigits.isEmpty then none
  else
    let mantissa : ℚ :=
      (digitsValue intDigits : ℚ) + (digitsValue fracDigits : ℚ) / (10 ^ fracDigits.length : ℚ)
    let exponent : Int :=
      match s with
      | e :: t =>
        if e = 'e' || e = 'E' then
          match t with
          | '-' :: u => -(digitsValue (u.takeWhile isDigit) : Int)
          | '+' :: u => (digitsValue (u.takeWhile isDigit) : Int)
          | u => (digitsValue (u.takeWhile isDigit) : Int)
        else 0
      | [] => 0
    some (mantissa * tenPow exponent)

/-- Model of `parseFloat(text)`: the double nearest to the longest prefix of
the trimmed text that is a decimal numeral, `Infinity` for a prefix
`Infinity`, and `NaN` when there is neither. -/
def parseFloat (text : String) : Number :=
  let s := text.data.dropWhile isSpace
  let negative := s.head? = some '-'
  let s := match s with
    | '-' :: t => t
    | '+' :: t => t
    | _ => s
  if "Infinity".data.isPrefixOf s then Number.infinity negative
  else
    match decimalPrefix s with
    | some q => roundDouble (if negative then -q else q)
    | none => Number.nan

/-- The nearest integer to a rational that is not negative, the larger one of
two that are as near. -/
def roundHalfUp (q : ℚ) : Nat := (q + 1 / 2).floor.toNat

/-- The decimal digits of a natural number, padded with zeros on the left to
`width` digits. -/
def padDigits (width n : Nat) : List Char :=
  let ds := (Nat.repr n).data
  List.replicate (width - ds.length) '0' ++ ds

/-- The decimal notation of a rational with `digits` digits after the point,
the last one rounded to the nearest, upwards in magnitude from the middle. -/
def fixedDigits (digits : Nat) (x : ℚ) : String :=
  let n := roundHalfUp (|x| * (10 ^ digits : ℚ))
  let ds := padDigits (digits + 1) n
  let whole := ds.take (ds.length - digits)
  let frac := ds.drop (ds.length - digits)
  let body := if digits = 0 then whole else whole ++ '.' :: frac
  String.mk (if x < 0 then '-' :: body else body)

/-- The position of the first significant digit of a positive rational: the
`n` with `10^(n-1) ≤ x < 10^n`, sought among the values from `-fuel` up. -/
def magnitude (x : ℚ) : Nat → Int
  | 0 => 0
  | fuel + 1 =>
    if x ≥ 1 then ((Nat.repr x.floor.toNat).length : Int)
    else if x * 10 ≥ 1 then 0
    else magnitude (x * 10) fuel - 1

/-- The digits of `s`, a number of `k` digits or `10^k`, without the zeros at
the end, and the position of the first digit, `n` for a number of `k`
digits. -/
def digitsOf (s k : Nat) (n : Int) : List Char × Int :=
  if s = 10 ^ k then (['1'], n + 1)
  else (((padDigits k s).reverse.dropWhile fun c => c = '0').reverse, n)

/-- The search for the shortest digits of a positive double `d` whose first
digit is at the position `n`: the least number `k` of digits for which one of
the two decimals of `k` digits next to `d` is read back as `d`, and of the
two the nearer one, the even one when they are as near. -/
def shortestLoop (d : ℚ) (n : Int) : Nat → Nat → List Char × Int
  | 0, k => digitsOf (roundHalfEven (d * tenPow (k - n))) k n
  | fuel + 1, k =>
    let t := d * tenPow (k - n)
    let lo := t.floor.toNat
    let okLo := decide (roundDouble (lo * tenPow (n - k)) = Number.finite d)
    let okHi := decide (roundDouble ((lo + 1 : Nat) * tenPow (n - k)) = Number.finite d)
    if okLo && okHi then
      if t - lo < (lo + 1 : Nat) - t then digitsOf lo k n
      else if (lo + 1 : Nat) - t < t - lo then digitsOf (lo + 1) k n
      else if lo % 2 = 0 then digitsOf lo k n else digitsOf (lo + 1) k n
    else if okLo then digitsOf lo k n
    else if okHi then digitsOf (lo + 1) k n
    else shortestLoop d n fuel (k + 1)

/-- The significant digits that the conversion of a positive double to a
string prints, the fewest that are read back as the same double, and the
position `n` of the first one (`10^(n-1) ≤ value < 10^n` for the value
printed); 17 digits always suffice. -/
def significantDigits (d : ℚ) : List Char × Int :=
  shortestLoop d (magnitude d 400) 17 1

/-- The digits `d1.d2...dk` followed by the exponent `e`, as in `1.5e+3`. -/
def exponentNotation (ds : List Char) (e : Int) : List Char :=
  (if ds.length ≤ 1 then ds else ds.take 1 ++ '.' :: ds.drop 1) ++
    'e' :: (if e < 0 then '-' else '+') :: (Nat.repr e.natAbs).data

/-- The conversion of a finite double to a string: plain notation when the
first digit is between the positions -6 and 21, exponent notation
otherwise. -/
def doubleToString (d : ℚ) : String :=
  if d = 0 then "0"
  else
    let (ds, n) := significantDigits |d|
    let k : Int := ds.length
    let body : List Char :=
      if k ≤ n && n ≤ 21 then ds ++ List.replicate (n - k).toNat '0'
      else if 0 < n && n ≤ 21 then ds.take n.toNat ++ '.' :: ds.drop n.toNat
      else if -6 < n && n ≤ 0 then '0' :: '.' :: List.replicate (-n).toNat '0' ++ ds
      else exponentNotation ds (n - 1)
    String.mk (if d < 0 then '-' :: body else body)

/-- Model of the conversion of a number to a string (`String(x)`, template
literals, `x.toString()`). -/
def Number.toText : Number → String
  | Number.finite d => doubleToString d
  | Number.infinity negative => if negative then "-Infinity" else "Infinity"
  | Number.nan => "NaN"

/-- Model of `x.toFixed(digits)`: the decimal notation of the double, and its
conversion to a string from `10^21` on. -/
def Number.toFixed (digits : Nat) : Number → String
  | Number.finite d => if (10 ^ 21 : ℚ) ≤ |d| then doubleToString d else fixedDigits digits d
  | x => x.toText

/-- The conversion to a string of the double nearest to a rational. -/
def numberToString (x : ℚ) : String := (roundDouble x).toText

/-- Model of `x.toFixed(digits)` for the double nearest to a rational. -/
def toFixed (digits : Nat) (x : ℚ) : String := (roundDouble x).toFixed digits

/-- Model of `x.toExponential()` for the double nearest to a rational. -/
def toExponential (x : ℚ) : String :=
  match roundDouble x with
  | Number.finite d =>
    if d = 0 then "0e+0"
    else
      let (ds, n) := significantDigits |d|
      String.mk (if d < 0 then '-' :: exponentNotation ds (n - 1)
                 else exponentNotation ds (n - 1))
  | other => other.toText

end Js

/-! ## The line parser (`src/utils/compromiseDateParser6.js`)

The libraries that the parser calls are parameters: `mathjs` (`MathLib`)
and, for the stages of the language parser that rest on `compromise` and
`dayjs`, `Nlp`. -/

namespace Parser

open Js

/-- A JavaScript value of the kinds that the parser stores and returns. -/
inductive Value where
  | number (x : ℚ)
  | text (s : String)
  | undefined
  | notANumber
  | infinity (negative : Bool)
  deriving DecidableEq, Repr

/-- Model of the conversion of a value to a string. -/
def Value.toText : Value → String
  | Value.number x => numberToString x
  | Value.text s => s
  | Value.undefined => "undefined"
  | Value.notANumber => "NaN"
  | Value.infinity negative => if negative then "-Infinity" else "Infinity"

/-- A number as a value. -/
def Value.ofNumber : Number → Value
  | Number.finite q => Value.number q
  | Number.infinity negative => Value.infinity negative
  | Number.nan => Value.notANumber

/-- The class `[0-9+\-*/().\s]`. -/
def isMathChar (c : Char) : Bool :=
  isDigit c || c = '+' || c = '-' || c = '*' || c = '/' || c = '(' || c = ')' || c = '.' ||
    isSpace c

/-- The pattern `PATTERNS.PURE_MATH`: `/^[0-9+\-*/().\s]+$/`. -/
def PURE_MATH : Re := cat [Re.bol, plus (Re.set isMathChar), Re.eol]

/-- The pattern `PATTERNS.VARIABLE_ASSIGNMENT`: `/^(\w+)\s*[:=]\s*(.+)$/`. -/
def VARIABLE_ASSIGNMENT : Re :=
  cat [Re.bol, Re.group 1 (plus (Re.set isWord)), Re.star true (Re.set isSpace),
    Re.set (fun c => c = ':' || c = '='), Re.star true (Re.set isSpace),
    Re.group 2 (plus (Re.set isDot)), Re.eol]

/-- The pattern `PATTERNS.PERCENTAGE`: `/(\d+)%/g`. -/
def PERCENTAGE : Re := cat [Re.group 1 (plus (Re.set isDigit)), chr '%']

/-- The pattern `PATTERNS.PERCENTAGE_OF`: `/% of /g`. -/
def PERCENTAGE_OF : Re := lit "% of "

/-- The pattern `-?\d+\.?\d*`. -/
def signedNumeral : Re :=
  cat [opt (chr '-'), plus (Re.set isDigit), opt (chr '.'), Re.star true (Re.set isDigit)]

/-- The pattern `\d+(?:\.\d+)?`. -/
def numeral : Re := cat [plus (Re.set isDigit), opt (cat [chr '.', plus (Re.set isDigit)])]

/-- The pattern `(?:to|in|into)`. -/
def toInInto : Re := oneOf [lit "to", lit "in", lit "into"]

/-- The class of the unit names of `UNIT_CONVERSION`: letters, the degree
sign, the slash and the superscripts two and three. -/
def isUnitChar (c : Char) : Bool :=
  isLetter c || c.toNat = 176 || c = '/' || c.toNat = 178 || c.toNat = 179

/-- The pattern of a unit name, `[a-zA-Z°/²³]+(?:\s*[a-zA-Z°/²³]+)*`. -/
def unitName : Re :=
  cat [plus (Re.set isUnitChar),
    Re.star true (cat [Re.star true (Re.set isSpace), plus (Re.set isUnitChar)])]

/-- The pattern `PATTERNS.UNIT_CONVERSION`, with the flag `i`. -/
def UNIT_CONVERSION : Re :=
  cat [opt (cat [lit "convert", plus (Re.set isSpace)]), Re.group 1 signedNumeral,
    Re.star true (Re.set isSpace), Re.group 2 unitName, plus (Re.set isSpace), toInInto,
    plus (Re.set isSpace), Re.group 3 unitName]

/-- The pattern `PATTERNS.SI_NOTATION`: `/(-?\d+\.?\d*)[eE][-+]?\d+/`. -/
def SI_NOTATION : Re :=
  cat [Re.group 1 signedNumeral, Re.set (fun c => c = 'e' || c = 'E'),
    opt (Re.set fun c => c = '-' || c = '+'), plus (Re.set isDigit)]

/-- The class `[FCK]`. -/
def isScale (c : Char) : Bool := c = 'F' || c = 'C' || c = 'K'

/-- The pattern `PATTERNS.TEMPERATURE`:
`/(-?\d+\.?\d*)\s*?([FCK])\s+(?:to|in|into)\s+?([FCK])/i`. -/
def TEMPERATURE : Re :=
  cat [Re.group 1 signedNumeral, Re.star false (Re.set isSpace), Re.group 2 (Re.set isScale),
    plus (Re.set isSpace), toInInto,
    Re.seq (Re.set isSpace) (Re.star false (Re.set isSpace)), Re.group 3 (Re.set isScale)]

/-- The pattern `PATTERNS.PROPORTION`, with the flag `i`. -/
def PROPORTION : Re :=
  cat [lit "if", plus (Re.set isSpace), Re.group 1 numeral, Re.star true (Re.set isSpace),
    Re.group 2 (plus (Re.set isLetter)), plus (Re.set isSpace), lit "requires",
    plus (Re.set isSpace), Re.group 3 numeral, Re.star true (Re.set isSpace),
    Re.group 4 (plus (Re.set isLetter)), plus (Re.set isSpace), lit "than",
    plus (Re.set isSpace), Re.group 5 numeral, Re.star true (Re.set isSpace),
    Re.group 6 (plus (Re.set isLetter)), plus (Re.set isSpace), lit "requires",
    Re.star true (Re.set isSpace), lit "??"]

/-- A `ParserError`. -/
structure ParserError where
  message : String
  type : String
  deriving DecidableEq, Repr

/-- The pattern of the router for `math`: `/^[\d\s+\-*/().]+$/`. -/
def routerMath : Re := cat [Re.bol, plus (Re.set isMathChar), Re.eol]

/-- The pattern of the router for `unit`, with the flag `i`:
`/(?:convert\s+)?\d+\.?\d*\s*[a-zA-Z°]+\s+(?:to|in|into)\s+[a-zA-Z°]+/i`. -/
def routerUnit : Re :=
  cat [opt (cat [lit "convert", plus (Re.set isSpace)]), plus (Re.set isDigit), opt (chr '.'),
    Re.star true (Re.set isDigit), Re.star true (Re.set isSpace),
    plus (Re.set fun c => isLetter c || c.toNat = 176), plus (Re.set isSpace), toInInto,
    plus (Re.set isSpace), plus (Re.set fun c => isLetter c || c.toNat = 176)]

/-- The pattern of the router for `language`, with the flag `i`. -/
def routerLanguage : Re :=
  Re.alt
    (cat [Re.wordBoundary,
      Re.group 1 (oneOf [lit "next", lit "last", lit "ago", lit "from", lit "later", lit "in"]),
      Re.wordBoundary])
    (cat [Re.wordBoundary,
      Re.group 2 (oneOf [lit "monday", lit "tuesday", lit "wednesday", lit "thursday",
        lit "friday", lit "saturday", lit "sunday"]),
      Re.wordBoundary])

/-- The map `ParserRouter.patterns`, in the order of its entries; the flag of
each pattern comes with it. -/
def routerPatterns : List (String × Bool × Re) :=
  [("math", false, routerMath), ("unit", true, routerUnit), ("language", true, routerLanguage)]

/-- Model of `ParserRouter.decideParser(inputText)`; `none` is a missing
argument (`null` or `undefined`). -/
def decideParser (inputText : Option String) : Except ParserError String :=
  match inputText with
  | none => Except.error { message := "Empty input", type := "VALIDATION_ERROR" }
  | some text =>
    if trim text = "" then Except.error { message := "Empty input", type := "VALIDATION_ERROR" }
    else
      match routerPatterns.find? fun entry => test entry.2.1 entry.2.2 text with
      | some entry => Except.ok entry.1
      | none => Except.ok "language"

end Parser

namespace Parser

open Js

/-! ### The worker (`src/workers/parser_worker.js`) -/

/-- The pattern `[a-zA-Z_][a-zA-Z0-9_]*` of the worker. -/
def identifier : Re :=
  cat [Re.set (fun c => isLetter c || c = '_'), Re.star true (Re.set isWord)]

/-- The pattern of the worker for a definition:
`/^\s*([a-zA-Z_][a-zA-Z0-9_]*)\s*:\s*(.+)$/`. -/
def workerDefinition : Re :=
  cat [Re.bol, Re.star true (Re.set isSpace), Re.group 1 identifier,
    Re.star true (Re.set isSpace), chr ':', Re.star true (Re.set isSpace),
    Re.group 2 (plus (Re.set isDot)), Re.eol]

/-- The pattern of the worker for a use: `/\b([a-zA-Z_][a-zA-Z0-9_]*)\b/g`. -/
def workerUse : Re := cat [Re.wordBoundary, Re.group 1 identifier, Re.wordBoundary]

/-- The field `variables` of the response of the worker. -/
structure LineVariables where
  defines : List String
  uses : List String
  deriving DecidableEq, Repr

/-- The part of the message listener of the worker that fills `variables`
from `lineText`. -/
def lineVariables (lineText : String) : LineVariables :=
  let defines : List String :=
    match exec false workerDefinition lineText with
    | some defMatch => [(defMatch.group 1).getD "undefined"]
    | none => []
  let usedVars := matchAll false workerUse lineText
  { defines := defines, uses := usedVars.filter fun v => !defines.contains v }

/-! ### Unit conversions -/

/-- The result of a conversion: `{ value, unit, formatted }`, and
`{ value, scientific, formatted }` from `formatSI`; a field that the result
does not have is `none`. -/
structure Conversion where
  value : Value
  unit : Option String
  formatted : Option String
  scientific : Option String
  deriving DecidableEq, Repr

/-- The literal `273.15`: the double nearest to it. -/
def kelvinOffset : Number := roundDouble (27315 / 100)

/-- Model of `unitConversionFunctions.celsiusToFahrenheit` and of the five
other temperature helpers, by the letters of the two scales, each operation
in the order in which JavaScript evaluates it; `none` when the table
`conversions` has no such entry. -/
def temperatureFormula (fromUnit toUnit : String) : Option (Number → Number) :=
  if fromUnit = "F" ∧ toUnit = "C" then
    some fun f => Number.div (Number.mul (Number.sub f (Number.finite 32)) (Number.finite 5)) (Number.finite 9)
  else if fromUnit = "F" ∧ toUnit = "K" then
    some fun f =>
      Number.add (Number.div (Number.mul (Number.sub f (Number.finite 32)) (Number.finite 5)) (Number.finite 9))
        kelvinOffset
  else if fromUnit = "C" ∧ toUnit = "F" then
    some fun c => Number.add (Number.div (Number.mul c (Number.finite 9)) (Number.finite 5)) (Number.finite 32)
  else if fromUnit = "C" ∧ toUnit = "K" then some fun c => Number.add c kelvinOffset
  else if fromUnit = "K" ∧ toUnit = "F" then
    some fun k =>
      Number.add (Number.div (Number.mul (Number.sub k kelvinOffset) (Number.finite 9)) (Number.finite 5))
        (Number.finite 32)
  else if fromUnit = "K" ∧ toUnit = "C" then some fun k => Number.sub k kelvinOffset
  else none

/-- Model of `convertTemperature(value, fromUnit, toUnit)`; `none` is the
result `null` of the `catch`. -/
def convertTemperature (value : Number) (fromUnit toUnit : String) : Option Conversion :=
  if fromUnit = toUnit then
    some { value := Value.ofNumber value, unit := none, formatted := none, scientific := none }
  else
    match temperatureFormula fromUnit toUnit with
    | none => none
    | some convert =>
      let result := convert value
      some { value := Value.ofNumber result, unit := some toUnit,
             formatted := some (result.toFixed 2 ++ "°" ++ toUnit), scientific := none }

/-- The table `prefixes` of `siPrefix`. -/
def prefixExponent (symbol : String) : Option Int :=
  [("y", (-24 : Int)), ("z", -21), ("a", -18), ("f", -15), ("p", -12), ("n", -9), ("μ", -6),
    ("m", -3), ("c", -2), ("d", -1), ("", 0), ("da", 1), ("h", 2), ("k", 3), ("M", 6),
    ("G", 9), ("T", 12), ("P", 15), ("E", 18), ("Z", 21), ("Y", 24)].lookup symbol

/-- Model of `Math.pow(10, scale)` for an integer `scale`. -/
def pow10 (scale : Int) : ℚ :=
  if scale ≥ 0 then (10 : ℚ) ^ scale.toNat else 1 / (10 : ℚ) ^ (-scale).toNat

/-- Model of `unitConversionFunctions.siPrefix(value, fromPrefix, toPrefix)`;
`none` is `NaN`, the result for a prefix that is not in the table. -/
def siPrefix (value : ℚ) (fromPrefix toPrefix : String) : Option ℚ :=
  match prefixExponent toPrefix, prefixExponent fromPrefix with
  | some toExp, some fromExp =>
    let scale := toExp - fromExp
    some (value * pow10 scale)
  | _, _ => none

/-- The characters of the class `[yzafpnμmcdhkMGTPEZY]`. -/
def isPrefixChar (c : Char) : Bool := "yzafpnμmcdhkMGTPEZY".data.contains c

/-- The pattern `prefixRegex`: `/^([yzafpnμmcdhkMGTPEZY])?([a-zA-Z]+)$/`. -/
def prefixRegex : Re :=
  cat [Re.bol, opt (Re.group 1 (Re.set isPrefixChar)), Re.group 2 (plus (Re.set isLetter)),
    Re.eol]

/-- Model of `convertSIPrefix(value, fromUnit, toUnit)`; `none` is `null`. -/
def convertSIPrefix (value : ℚ) (fromUnit toUnit : String) : Option Conversion :=
  match exec false prefixRegex fromUnit, exec false prefixRegex toUnit with
  | some fromMatch, some toMatch =>
    if fromMatch.group 2 = toMatch.group 2 then
      let fromPrefix := (fromMatch.group 1).getD ""
      let toPrefix := (toMatch.group 1).getD ""
      match siPrefix value fromPrefix toPrefix with
      | some result =>
        some { value := Value.number result, unit := some toUnit,
               formatted := some (toFixed 4 result ++ " " ++ toUnit), scientific := none }
      | none =>
        some { value := Value.notANumber, unit := some toUnit,
               formatted := some ("NaN " ++ toUnit), scientific := none }
    else none
  | _, _ => none

/-- The table `unitAliases` of `convertUnit`. -/
def unitAliases : List (String × String) :=
  [("meters", "m"), ("meter", "m"), ("kilometer", "km"), ("kilometers", "km"),
    ("centimeter", "cm"), ("centimeters", "cm"), ("millimeter", "mm"), ("millimeters", "mm"),
    ("mile", "mi"), ("miles", "mi"), ("foot", "ft"), ("feet", "ft"), ("inch", "in"),
    ("inches", "in"), ("pound", "lbs"), ("pounds", "lbs"), ("kilogram", "kg"),
    ("kilograms", "kg"), ("gram", "g"), ("grams", "g"), ("second", "s"), ("seconds", "s"),
    ("minute", "min"), ("minutes", "min"), ("hour", "h"), ("hours", "h"), ("liter", "L"),
    ("liters", "L"), ("milliliter", "mL"), ("milliliters", "mL"), ("gallon", "gal"),
    ("gallons", "gal")]

/-- Model of `convertUnit(value, fromUnit, toUnit)`. The conversion of mathjs,
`math.unit(value, from).toNumber(to)`, is the parameter `mathUnit`, with
`none` when it throws. An infinite value stays what it is through
`convertSIPrefix`, whose factor is positive. -/
def convertUnit (mathUnit : Number → String → String → Option Number) (value : Number)
    (fromUnit toUnit : String) : Option Conversion :=
  let normalizedFromUnit := (unitAliases.lookup (toLowerCase fromUnit)).getD fromUnit
  let normalizedToUnit := (unitAliases.lookup (toLowerCase toUnit)).getD toUnit
  match mathUnit value normalizedFromUnit normalizedToUnit with
  | some result =>
    some { value := Value.ofNumber result, unit := some normalizedToUnit,
           formatted := some (result.toFixed 4 ++ " " ++ normalizedToUnit), scientific := none }
  | none =>
    match value with
    | Number.finite v => convertSIPrefix v fromUnit toUnit
    | other =>
      match exec false prefixRegex fromUnit, exec false prefixRegex toUnit with
      | some fromMatch, some toMatch =>
        if fromMatch.group 2 = toMatch.group 2 then
          some { value := Value.ofNumber other, unit := some toUnit,
                 formatted := some (other.toFixed 4 ++ " " ++ toUnit), scientific := none }
        else none
      | _, _ => none

/-- The table `siPrefixes` of `formatSI`, in the order of `Object.keys`: the
keys that are array indices first, in ascending order, then the others as
written. -/
def siPrefixes : List (Int × String) :=
  [(0, ""), (1, "da"), (2, "h"), (3, "k"), (6, "M"), (9, "G"), (12, "T"), (15, "P"), (18, "E"),
    (21, "Z"), (24, "Y"), (-1, "d"), (-2, "c"), (-3, "m"), (-6, "μ"), (-9, "n"), (-12, "p"),
    (-15, "f"), (-18, "a"), (-21, "z"), (-24, "y")]

/-- Model of `formatSI(input)`. -/
def formatSI (input : String) : Option Conversion :=
  match parseFloat input with
  | Number.finite value =>
    let scientific := toExponential value
    let exp : Int := if value = 0 then 0 else (significantDigits |value|).2 - 1
    let closestExp := (siPrefixes.map fun e => e.1).foldl
      (fun prev curr => if (curr - exp).natAbs < (prev - exp).natAbs then curr else prev) 0
    let adjustedValue := value * pow10 (-closestExp)
    some { value := Value.number value, unit := none,
           formatted := some (toFixed 2 adjustedValue ++ " " ++
             (siPrefixes.lookup closestExp).getD "undefined"),
           scientific := some scientific }
  | other =>
    some { value := Value.ofNumber other, unit := none, formatted := some (other.toText ++ " "),
           scientific := some other.toText }

/-- Model of `UnitConversionParser.parse(input)`; `none` is `null`. The
numerals that the patterns capture are read by `parseFloat`. -/
def unitParse (mathUnit : Number → String → String → Option Number) (input : String) :
    Option Conversion :=
  match exec true TEMPERATURE input with
  | some tempMatch =>
    convertTemperature (parseFloat ((tempMatch.group 1).getD "undefined"))
      ((tempMatch.group 2).getD "undefined") ((tempMatch.group 3).getD "undefined")
  | none =>
    match exec true UNIT_CONVERSION input with
    | some unitMatch =>
      convertUnit mathUnit (parseFloat ((unitMatch.group 1).getD "undefined"))
        (trim ((unitMatch.group 2).getD "undefined")) (trim ((unitMatch.group 3).getD "undefined"))
    | none =>
      match exec false SI_NOTATION input with
      | some _ => formatSI input
      | none => none

/-- A stand-in for the unit conversion of mathjs that knows metres and
kilometres only. -/
def sampleUnit (value : Number) (fromUnit toUnit : String) : Option Number :=
  if fromUnit = toUnit ∧ (fromUnit = "m" ∨ fromUnit = "km") then some value
  else if fromUnit = "km" ∧ toUnit = "m" then some (Number.mul value (Number.finite 1000))
  else if fromUnit = "m" ∧ toUnit = "km" then some (Number.div value (Number.finite 1000))
  else none

/-! ### Proportions -/

/-- The result `{ value }` of a stage of the language parser. -/
structure Parsed where
  value : Value
  type : Option String
  original : Option String
  deriving DecidableEq, Repr

/-- Model of `handleProportions(input)`; `none` is a result `undefined` or
`null`. The three numerals are read by `parseFloat`, and the product and the
quotient are those of the doubles. -/
def handleProportions (input : String) : Option Parsed :=
  if test true PROPORTION input then
    match exec true PROPORTION input with
    | some m =>
      let numX1 := parseFloat ((m.group 1).getD "undefined")
      let numY1 := parseFloat ((m.group 3).getD "undefined")
      let numX2 := parseFloat ((m.group 5).getD "undefined")
      let unit2 := (m.group 4).getD "undefined"
      let unit3 := (m.group 6).getD "undefined"
      let y2 := Number.div (Number.mul numY1 numX2) numX1
      some { value := Value.text
               (numX2.toText ++ " " ++ unit3 ++ " requires " ++ y2.toFixed 2 ++ " " ++ unit2),
             type := none, original := none }
    | none => none
  else none

end Parser

namespace Parser

open Js

/-! ### Variables and the parsers of a line -/

/-- The object `variables`: its own properties in the order of
`Object.keys`. -/
abbrev Env := List (String × Value)

/-- Whether a property name is an array index: a decimal numeral without a
leading zero, below `2^32 - 1`. `Object.keys` lists such names first, in
ascending order. -/
def isArrayIndex (name : String) : Bool :=
  !name.data.isEmpty && name.data.all isDigit &&
    (name.data.length = 1 || name.data.head? != some '0') &&
    digitsValue name.data < 4294967295

/-- Model of `variables[name] = value` (the `set` trap of the proxy stores
the value in the target). A new name that is an array index goes among the
array indices, any other new name to the end; an assignment of a value that
is not an object to `__proto__` creates no property. -/
def setVariable (env : Env) (name : String) (value : Value) : Env :=
  if name = "__proto__" then env
  else if env.any (fun e => e.1 = name) then
    env.map fun e => if e.1 = name then (name, value) else e
  else if isArrayIndex name then
    env.takeWhile (fun e => isArrayIndex e.1 && digitsValue e.1.data < digitsValue name.data) ++
      (name, value) ::
      env.dropWhile (fun e => isArrayIndex e.1 && digitsValue e.1.data < digitsValue name.data)
  else env ++ [(name, value)]

/-- Model of `variableNames.sort((a, b) => b.length - a.length)` on
`Object.keys(variables)`: the longest names first, names of one length in
the order of the keys. -/
def sortedNames (env : Env) : List String :=
  sortBy (fun a b => decide (b.length ≤ a.length)) (env.map fun e => e.1)

/-- The loop of `replaceVariables`: for each name in turn, each match of
`\bname\b` in the text reached so far is replaced by the value of the
variable, converted to a string. The names are made of the characters of
`\w`, which stand for themselves in a pattern. -/
def substituteVariables (env : Env) (input : String) : String :=
  (sortedNames env).foldl
    (fun modifiedInput varName =>
      replaceAllText false (cat [Re.wordBoundary, lit varName, Re.wordBoundary])
        ((env.lookup varName).getD Value.undefined).toText modifiedInput)
    input

/-- Model of `MathParser.replaceVariables(input)`. -/
def MathParser.replaceVariables (env : Env) (input : String) : String :=
  if env.isEmpty then input else substituteVariables env input

/-- The functions of mathjs that the parser calls, `none` standing for an
exception: `math.evaluate(expression)`, `math.evaluate(expression,
predefinedFunctions)` and `math.unit(value, from).toNumber(to)`. -/
structure MathLib where
  evaluate : String → Option Value
  evaluateScoped : String → Option Value
  unit : Number → String → String → Option Number

/-- What the parser asks of `compromise`, `dayjs` and `luxon` for a line, and
the state of the cache of dates. -/
structure Nlp where
  /-- The entry of `DATE_PARSE_CACHE` under the key of the line and of the
  present instant. -/
  cached : String → Option ℚ
  /-- The stages of `LanguageParser.parse` on dates: `handleDateArithmetic`,
  `handleExtractEvent`, `handleGetWeekRange` and `handleDateProcessing`; the
  first result that is not empty, or the exception thrown. -/
  dateStages : String → Except String (Option Parsed)
  /-- The length of `doc.numbers().json()`. -/
  numbers : String → Nat
  /-- The length of `doc.match('#Percent').json()`. -/
  percentages : String → Nat

/-- The result `{ value }`. -/
def Parsed.ofValue (v : Value) : Parsed := { value := v, type := none, original := none }

/-- Model of `LanguageParser.replaceVariables(input)`. The call of
`toString` on an `undefined` result of mathjs throws, and the `catch` returns
the text. -/
def LanguageParser.replaceVariables (lib : MathLib) (env : Env) (input : String) : String :=
  if env.isEmpty then input
  else
    let modifiedInput := substituteVariables env input
    if test false PURE_MATH modifiedInput then
      match lib.evaluate modifiedInput with
      | some Value.undefined => modifiedInput
      | some v => v.toText
      | none => modifiedInput
    else modifiedInput

/-- The table `nlPatterns`, in the order of `Object.entries`. -/
def nlPatterns : List (String × List String) :=
  [("sum", ["sum of", "total of", "add"]),
   ("avg", ["average of", "mean of", "avg of"]),
   ("median", ["median of"]),
   ("stddev", ["standard deviation of", "std dev of"]),
   ("factorial", ["factorial of"]),
   ("percentage", ["percentage of", "percent of"]),
   ("roi", ["return on investment of", "roi of"]),
   ("compound_interest", ["compound interest of", "interest on"]),
   ("break_even", ["break even point of", "break-even of"]),
   ("velocity", ["velocity of", "speed of"]),
   ("burn_rate", ["burn rate of", "burning rate of"]),
   ("pert", ["pert of"]),
   ("cycle_time", ["cycle time of"]),
   ("lead_time", ["lead time of"]),
   ("communication_channels", ["comms channels of", "communication channels of"]),
   ("resource_utilization", ["resource utilization of"]),
   ("resource_overallocation", ["resource allocation of"]),
   ("variance", ["variance of"])]

/-- The pattern `(\d+(\.\d+)?)\s*op\s*(\d+(\.\d+)?)%` of the rewriting of
`X op Y%`, for the operator `op`. -/
def percentOperation (op : Char) : Re :=
  cat [Re.group 1 (cat [plus (Re.set isDigit),
         opt (Re.group 2 (cat [chr '.', plus (Re.set isDigit)]))]),
    Re.star true (Re.set isSpace), chr op, Re.star true (Re.set isSpace),
    Re.group 3 (cat [plus (Re.set isDigit),
         opt (Re.group 4 (cat [chr '.', plus (Re.set isDigit)]))]),
    chr '%']

/-- The text of the captures `base` and `percent` of a match of
`percentOperation`. -/
def basePercent (m : Match) : String × String :=
  ((m.group 1).getD "undefined", (m.group 3).getD "undefined")

/-- The rewritings of `X + Y%`, `X - Y%`, `X * Y%` and `X / Y%`, made when
the text has a percent sign and an operator. -/
def normalizePercentOperations (modifiedInput : String) : String :=
  if includes modifiedInput "%" &&
      (includes modifiedInput "+" || includes modifiedInput "-" ||
        includes modifiedInput "*" || includes modifiedInput "/") then
    let s := replaceAll false (percentOperation '+')
      (fun m => (basePercent m).1 ++ " + (" ++ (basePercent m).1 ++ " * " ++ (basePercent m).2 ++
        " / 100)") modifiedInput
    let s := replaceAll false (percentOperation '-')
      (fun m => (basePercent m).1 ++ " - (" ++ (basePercent m).1 ++ " * " ++ (basePercent m).2 ++
        " / 100)") s
    let s := replaceAll false (percentOperation '*')
      (fun m => (basePercent m).1 ++ " * (" ++ (basePercent m).2 ++ " / 100)") s
    replaceAll false (percentOperation '/')
      (fun m => (basePercent m).1 ++ " / (" ++ (basePercent m).2 ++ " / 100)") s
  else modifiedInput

/-- The replacement of `PATTERNS.PERCENTAGE`: the number captured, divided by
a hundred, as a string. -/
def percentFraction (m : Match) : String :=
  (Number.div (parseFloat (replaceAllText false (Re.set isSpace) "" ((m.group 1).getD "undefined")))
    (Number.finite 100)).toText

/-- The text `expression`: `% of ` becomes `% * `, and each match of
`PATTERNS.PERCENTAGE` its fraction. -/
def percentExpression (modifiedInput : String) : String :=
  replaceAll false PERCENTAGE percentFraction
    (replaceAllText false PERCENTAGE_OF "% * " modifiedInput)

/-- The text `cleanText`: lower case, without full stops and commas, each run
of white space one blank, trimmed. -/
def cleanText (modifiedInput : String) : String :=
  trim
    (replaceAllText false (plus (Re.set isSpace)) " "
      (replaceAllText false (Re.set fun c => c = '.' || c = ',') "" (toLowerCase modifiedInput)))

/-- The call `${func}(${numbers.join(',')})`. -/
def phraseCall (func : String) (numbers : List String) : String :=
  func ++ "(" ++ ",".intercalate numbers ++ ")"

/-- The loop over `Object.entries(nlPatterns)`: the first function one of
whose phrases is in the text is applied to the numbers of the text, when
there are any. -/
def applyPhrase (lib : MathLib) (cleanText : String) :
    List (String × List String) → Option Parsed
  | [] => none
  | (func, patterns) :: rest =>
    let numbers := matchAll false numeral cleanText
    if patterns.any (fun pattern => includes cleanText pattern) && !numbers.isEmpty then
      (lib.evaluateScoped (phraseCall func numbers)).map Parsed.ofValue
    else applyPhrase lib cleanText rest

/-- Model of `handleNumbersAndPercentages(doc, input)`, `doc` being the
document of the line; `none` is `null`. -/
def LanguageParser.handleNumbersAndPercentages (lib : MathLib) (nlp : Nlp) (env : Env)
    (input : String) : Option Parsed :=
  let modifiedInput := LanguageParser.replaceVariables lib env input
  match (if test false PURE_MATH modifiedInput then lib.evaluate modifiedInput else none) with
  | some v => some (Parsed.ofValue v)
  | none =>
    if nlp.numbers input = 0 && nlp.percentages input = 0 then none
    else
      let modifiedInput := normalizePercentOperations modifiedInput
      let expression := percentExpression modifiedInput
      if test false PURE_MATH expression then (lib.evaluate expression).map Parsed.ofValue
      else applyPhrase lib (cleanText modifiedInput) nlPatterns

/-- What `handleInput` and the parsers return: `null` (or `undefined`), a
result with a value, the result of a conversion, the bare number of a hit of
the cache, or the object `{ success: false, error, type }`. -/
inductive Outcome where
  | null
  | parsed (p : Parsed)
  | conversion (c : Conversion)
  | bare (x : ℚ)
  | failure (error : String) (type : Option String)
  deriving DecidableEq, Repr

/-- The property `value` of a result that is not `null`. -/
def Outcome.value : Outcome → Value
  | Outcome.parsed p => p.value
  | Outcome.conversion c => c.value
  | _ => Value.undefined

/-- Whether a result is truthy. -/
def Outcome.truthy : Outcome → Bool
  | Outcome.null => false
  | Outcome.bare x => x != 0
  | _ => true

/-- The result of a stage, `null` when there is none. -/
def Outcome.ofParsed : Option Parsed → Outcome
  | some p => Outcome.parsed p
  | none => Outcome.null

/-- Model of `MathParser.parse(input)`. -/
def MathParser.parse (lib : MathLib) (env : Env) (input : String) : Outcome :=
  let modifiedInput := MathParser.replaceVariables env input
  if test false PURE_MATH modifiedInput then
    Outcome.ofParsed ((lib.evaluate modifiedInput).map Parsed.ofValue)
  else Outcome.null

/-- Model of `LanguageParser.handleVariableAssignment(input)`, with the call
of `handleInput` as a parameter; `none` when that call does not return. -/
def LanguageParser.handleVariableAssignment (handleInput : Env → String → Option (Outcome × Env))
    (env : Env) (input : String) : Option (Outcome × Env) :=
  match exec false VARIABLE_ASSIGNMENT input with
  | some m =>
    let varName := (m.group 1).getD "undefined"
    let expression := (m.group 2).getD "undefined"
    match handleInput env (trim expression) with
    | some (resolvedValue, env1) =>
      if resolvedValue ≠ Outcome.null then
        some (resolvedValue, setVariable env1 (trim varName) resolvedValue.value)
      else some (resolvedValue, env1)
    | none => none
  | none => some (Outcome.null, env)

/-- Model of `LanguageParser.parse(input)`, with the call of `handleInput`
as a parameter. -/
def LanguageParser.parse (handleInput : Env → String → Option (Outcome × Env)) (lib : MathLib)
    (nlp : Nlp) (env : Env) (input : String) : Option (Outcome × Env) :=
  let modifiedInput := LanguageParser.replaceVariables lib env input
  match (if test false PURE_MATH modifiedInput then lib.evaluate modifiedInput else none) with
  | some v => some (Outcome.parsed (Parsed.ofValue v), env)
  | none =>
    match LanguageParser.handleVariableAssignment handleInput env input with
    | none => none
    | some (varResult, env1) =>
      if varResult.truthy then some (varResult, env1)
      else
        match nlp.cached input with
        | some x => some (Outcome.bare x, env1)
        | none =>
          match nlp.dateStages input with
          | Except.error _ => some (Outcome.null, env1)
          | Except.ok (some dateResult) => some (Outcome.parsed dateResult, env1)
          | Except.ok none =>
            match LanguageParser.handleNumbersAndPercentages lib nlp env1 input with
            | some percentResult => some (Outcome.parsed percentResult, env1)
            | none => some (Outcome.ofParsed (handleProportions input), env1)

/-- The object `{ success: false, error }` in the place of a result that is
not truthy. -/
def Outcome.orFailure (r : Outcome) : Outcome :=
  if r.truthy then r else Outcome.failure "Could not parse input" none

/-- Model of `handleInput(inputText)`. The recursion through
`handleVariableAssignment` is bounded by `fuel`; `none` is a call that has
not returned within it. -/
def handleInput (lib : MathLib) (nlp : Nlp) : Nat → Env → String → Option (Outcome × Env)
  | 0, _, _ => none
  | fuel + 1, env, inputText =>
    if startsWith inputText "=" then
      let formula := trim (String.mk (inputText.data.drop 1))
      if formula = "" then some (Outcome.null, env)
      else
        match lib.evaluateScoped (MathParser.replaceVariables env formula) with
        | some v =>
          some (Outcome.parsed { value := v, type := some "formula", original := some inputText },
            env)
        | none => some (Outcome.null, env)
    else
      match decideParser (some inputText) with
      | Except.error e => some (Outcome.failure e.message (some e.type), env)
      | Except.ok parserType =>
        if parserType = "math" then some ((MathParser.parse lib env inputText).orFailure, env)
        else if parserType = "unit" then
          match unitParse lib.unit inputText with
          | some c => some ((Outcome.conversion c).orFailure, env)
          | none => some (Outcome.null.orFailure, env)
        else
          (LanguageParser.parse (handleInput lib nlp fuel) lib nlp env inputText).map fun r =>
            (r.1.orFailure, r.2)

end Parser

namespace Parser

open Js

/-! ### A sample of mathjs

An evaluator of arithmetic on rationals, used where a theorem needs an
instance of `MathLib`: decimal numerals, `+`, `-`, `*`, `/`, parentheses and,
with the scope `predefinedFunctions`, calls of its functions. Whatever else
mathjs accepts is rejected, and so is a division by zero. -/

/-- A token of an expression. -/
inductive Token where
  | number (x : ℚ)
  | symbol (c : Char)
  | name (s : String)
  deriving DecidableEq, Repr

/-- The tokens of an expression; `fuel` is more than its length. -/
def tokenize : Nat → List Char → Option (List Token)
  | 0, _ => none
  | _ + 1, [] => some []
  | fuel + 1, c :: cs =>
    if isSpace c then tokenize fuel cs
    else if isDigit c || c = '.' then
      let whole := (c :: cs).takeWhile isDigit
      let afterWhole := (c :: cs).dropWhile isDigit
      let fraction := match afterWhole with
        | '.' :: t => t.takeWhile isDigit
        | _ => []
      let after := match afterWhole with
        | '.' :: t => t.dropWhile isDigit
        | _ => afterWhole
      if whole.isEmpty && fraction.isEmpty then none
      else
        (tokenize fuel after).map fun ts =>
          Token.number ((digitsValue whole : ℚ) +
            (digitsValue fraction : ℚ) / (10 ^ fraction.length : ℚ)) :: ts
    else if isLetter c || c = '_' then
      (tokenize fuel (cs.dropWhile isWord)).map fun ts =>
        Token.name (String.mk (c :: cs.takeWhile isWord)) :: ts
    else if "+-*/(),".data.contains c then (tokenize fuel cs).map fun ts => Token.symbol c :: ts
    else none

/-- The entries of `predefinedFunctions` that are rational functions of their
arguments; `none` for the others (`median`, `stddev`, `factorial`,
`compound_interest`), for a missing argument and for a division by zero. -/
def predefinedFunctions (name : String) (args : List ℚ) : Option ℚ :=
  let ratio (a b : ℚ) : Option ℚ := if b = 0 then none else some (a / b)
  match name, args with
  | "sum", _ :: _ => some args.sum
  | "avg", _ :: _ => some (args.sum / args.length)
  | "percentage", value :: total :: _ => (ratio value total).map fun r => r * 100
  | "roi", gain :: cost :: _ => (ratio (gain - cost) cost).map fun r => r * 100
  | "break_even", fixedCosts :: price :: variableCosts :: _ =>
    ratio fixedCosts (price - variableCosts)
  | "velocity", distance :: time :: _ => ratio distance time
  | "burn_rate", startBalance :: endBalance :: months :: _ =>
    ratio (startBalance - endBalance) months
  | "pert", optimistic :: mostLikely :: pessimistic :: _ =>
    some ((optimistic + 4 * mostLikely + pessimistic) / 6)
  | "cycle_time", completedTasks :: timeElapsed :: _ => ratio timeElapsed completedTasks
  | "lead_time", taskStartDate :: taskCompletionDate :: _ =>
    some (taskCompletionDate - taskStartDate)
  | "communication_channels", numberOfStakeholders :: _ =>
    some (numberOfStakeholders * (numberOfStakeholders - 1) / 2)
  | "resource_utilization", actualHours :: plannedHours :: _ =>
    (ratio actualHours plannedHours).map fun r => r * 100
  | "resource_overallocation", usage :: capacity :: _ => some (usage - capacity)
  | "variance", actual :: planned :: _ => (ratio (actual - planned) planned).map fun r => r * 100
  | _, _ => none

/-- The arguments of a call after the first one, up to the closing
parenthesis. -/
def argumentsLoop (expression : List Token → Option (ℚ × List Token)) :
    Nat → List ℚ → List Token → Option (List ℚ × List Token)
  | 0, _, _ => none
  | fuel + 1, acc, ts =>
    match ts with
    | Token.symbol c :: rest =>
      if c = ')' then some (acc.reverse, rest)
      else if c = ',' then
        match expression rest with
        | some (v, rest1) => argumentsLoop expression fuel (v :: acc) rest1
        | none => none
      else none
    | _ => none

/-- An operand: a numeral, a sign and its operand, an expression in
parentheses, or a call of a function of the scope. -/
def operand (withScope : Bool) (expression : List Token → Option (ℚ × List Token)) :
    List Token → Option (ℚ × List Token)
  | Token.number x :: rest => some (x, rest)
  | Token.symbol c :: rest =>
    if c = '-' then (operand withScope expression rest).map fun r => (-r.1, r.2)
    else if c = '+' then operand withScope expression rest
    else if c = '(' then
      match expression rest with
      | some (v, Token.symbol d :: rest1) => if d = ')' then some (v, rest1) else none
      | _ => none
    else none
  | Token.name f :: Token.symbol c :: rest =>
    if withScope && c = '(' then
      match expression rest with
      | some (v, rest1) =>
        match argumentsLoop expression (rest1.length + 1) [v] rest1 with
        | some (args, rest2) => (predefinedFunctions f args).map fun r => (r, rest2)
        | none => none
      | none => none
    else none
  | _ => none

/-- The products and quotients that follow an operand, from left to
right. -/
def productLoop (operand : List Token → Option (ℚ × List Token)) :
    Nat → ℚ → List Token → Option (ℚ × List Token)
  | 0, _, _ => none
  | fuel + 1, lhs, ts =>
    match ts with
    | Token.symbol c :: rest =>
      if c = '*' then
        match operand rest with
        | some (rhs, rest1) => productLoop operand fuel (lhs * rhs) rest1
        | none => none
      else if c = '/' then
        match operand rest with
        | some (rhs, rest1) => if rhs = 0 then none else productLoop operand fuel (lhs / rhs) rest1
        | none => none
      else some (lhs, ts)
    | _ => some (lhs, ts)

/-- A product of operands. -/
def product (operand : List Token → Option (ℚ × List Token)) (ts : List Token) :
    Option (ℚ × List Token) :=
  match operand ts with
  | some (lhs, rest) => productLoop operand (rest.length + 1) lhs rest
  | none => none

/-- The sums and differences that follow a product, from left to right. -/
def sumLoop (product : List Token → Option (ℚ × List Token)) :
    Nat → ℚ → List Token → Option (ℚ × List Token)
  | 0, _, _ => none
  | fuel + 1, lhs, ts =>
    match ts with
    | Token.symbol c :: rest =>
      if c = '+' then
        match product rest with
        | some (rhs, rest1) => sumLoop product fuel (lhs + rhs) rest1
        | none => none
      else if c = '-' then
        match product rest with
        | some (rhs, rest1) => sumLoop product fuel (lhs - rhs) rest1
        | none => none
      else some (lhs, ts)
    | _ => some (lhs, ts)

/-- An expression; `fuel` bounds the depth of the parentheses. -/
def expression (withScope : Bool) : Nat → List Token → Option (ℚ × List Token)
  | 0, _ => none
  | fuel + 1, ts =>
    match product (operand withScope (expression withScope fuel)) ts with
    | some (lhs, rest) =>
      sumLoop (product (operand withScope (expression withScope fuel))) (rest.length + 1) lhs rest
    | none => none

/-- The value of an expression: `undefined` for an empty one, `none` for one
that is rejected. -/
def sampleEvaluate (withScope : Bool) (text : String) : Option Value :=
  match tokenize (text.length + 1) text.data with
  | some [] => some Value.undefined
  | some ts =>
    match expression withScope (ts.length + 1) ts with
    | some (v, []) => some (Value.number v)
    | _ => none
  | none => none

/-- The sample of mathjs. -/
def sampleMath : MathLib :=
  { evaluate := sampleEvaluate false, evaluateScoped := sampleEvaluate true, unit := sampleUnit }

/-- A library for natural language that finds a number in every line that
has a digit, and no date. -/
def sampleNlp : Nlp :=
  { cached := fun _ => none, dateStages := fun _ => Except.ok none,
    numbers := fun line => if line.data.any isDigit then 1 else 0,
    percentages := fun _ => 0 }

end Parser

/-! ## Events of the calendar

`LanguageParser.handleExtractEvent` of the parser, the store
`src/store/calendar.js` and `EventTracker.rebuildEvents` of
`src/utils/ghostTextExtension6.js`. A date is held by the text that
`JSON.stringify` gives for it, which is what the store receives. -/

namespace Calendar

open Js

/-- A range of `doc.dates().get()`. -/
structure DateRange where
  start : String
  stop : Option String
  deriving DecidableEq, Repr

/-- What the extraction of an event asks of `compromise` for the document of
a line, and of the dates of JavaScript. -/
structure EventSources where
  /-- The ranges `doc.dates().get()`. -/
  dates : List DateRange
  /-- The test `doc.has(term)`. -/
  has : String → Bool
  /-- The list `doc.people().out('array')`. -/
  people : List String
  /-- The list `doc.match(pattern).out('array')`. -/
  matched : String → List String
  /-- The list `doc.places().out('array')`. -/
  places : List String
  /-- The date `new Date(text)`, as `JSON.stringify` writes it. -/
  isoDate : String → String
  /-- The text `date.toLocaleString("en-GB", ...)` of a date. -/
  formatDay : String → String

/-- The object `event` composed by the parser, after the copy through JSON;
`rawText` is a property that the store reads and the parser does not set. -/
structure Event where
  id : String
  title : String
  start : String
  stop : String
  category : String
  description : String
  status : String
  isRange : Bool
  location : String
  priority : String
  attendees : List String
  lineNumber : Option Nat
  text : String
  rawText : Option String
  deriving DecidableEq, Repr

/-- The result `{ value, type: 'event', original }`. -/
structure EventResult where
  value : String
  type : String
  original : Event
  deriving DecidableEq, Repr

/-- The digits of `toString(36)`. -/
def digit36 (d : Nat) : Char := "0123456789abcdefghijklmnopqrstuvwxyz".data.getD d '0'

/-- The digits of a natural number in base 36, before those of `acc`. -/
def toBase36Loop : Nat → Nat → List Char → List Char
  | 0, _, acc => acc
  | fuel + 1, n, acc =>
    if n < 36 then digit36 n :: acc else toBase36Loop fuel (n / 36) (digit36 (n % 36) :: acc)

/-- Model of `n.toString(36)` for a natural number. -/
def toBase36 (n : Nat) : String := String.mk (toBase36Loop (n + 1) n [])

/-- Model of `text.split(/\s+/)`: `cur` is the piece being read, the last
character first, and `inRun` tells whether the character before was white
space. -/
def splitLoop : Bool → List Char → List Char → List String
  | _, cur, [] => [String.mk cur.reverse]
  | inRun, cur, c :: cs =>
    if isSpace c then
      if inRun then splitLoop true cur cs else String.mk cur.reverse :: splitLoop true [] cs
    else splitLoop false (c :: cur) cs

/-- Model of `text.split(/\s+/)`. -/
def splitSpaces (text : String) : List String := splitLoop false [] text.data

/-- The pattern of the references to dates that are removed from the line:
`/\b(tomorrow|today|next week|next month|next friday|next monday|on friday)\b/gi`. -/
def dateWords : Re :=
  cat [Re.wordBoundary,
    Re.group 1 (oneOf [lit "tomorrow", lit "today", lit "next week", lit "next month",
      lit "next friday", lit "next monday", lit "on friday"]),
    Re.wordBoundary]

/-- The pattern `/^with\s+/i`. -/
def leadingWith : Re := cat [Re.bol, lit "with", plus (Re.set isSpace)]

/-- The pattern `/^[A-Z][a-z]+$/`. -/
def capitalized : Re :=
  cat [Re.bol, Re.set (fun c => 'A' ≤ c && c ≤ 'Z'), plus (Re.set fun c => 'a' ≤ c && c ≤ 'z'),
    Re.eol]

/-- The list `nonPersonWords`. -/
def nonPersonWords : List String :=
  ["monday", "tuesday", "wednesday", "thursday", "friday", "saturday", "sunday", "january",
    "february", "march", "april", "may", "june", "july", "august", "september", "october",
    "november", "december", "home", "office", "school", "work", "hospital", "proposal", "report",
    "meeting", "presentation"]

/-- Model of `semanticParsing.isProbablyPerson(name)`. -/
def isProbablyPerson (name : String) : Bool :=
  test false capitalized name && !nonPersonWords.contains (toLowerCase name)

/-- Model of `semanticParsing.parseInput(text)`: the action and the
remainder. -/
def parseInput (text : String) : String × String :=
  let words := splitSpaces text
  let action := words.headD "Event"
  let remainder :=
    if words.length > 1 then
      replaceFirst true leadingWith (fun _ => "") (" ".intercalate (words.drop 1))
    else ""
  (action, remainder)

/-- Model of `semanticParsing.getTitleAndDescription(text)`; the capital of
the first character is that of the letters a to z. -/
def getTitleAndDescription (cleanText : String) : String × String :=
  let parsed := parseInput cleanText
  let title := String.mk ((parsed.1.data.take 1).map Char.toUpper ++ parsed.1.data.drop 1)
  (title, parsed.2)

/-- The list `locationPatterns`. -/
def locationPatterns : List String := ["at #Place", "in #Place", "at the #Noun", "in the #Noun"]

/-- Model of `semanticParsing.getLocation()`. -/
def getLocation (doc : EventSources) : String :=
  match locationPatterns.find? fun pattern => !(doc.matched pattern).isEmpty with
  | some pattern => (doc.matched pattern).headD ""
  | none => doc.places.headD ""

/-- The list `businessTerms`. -/
def businessTerms : List String :=
  ["meeting", "presentation", "training", "session", "pitch", "review", "call", "submit",
    "create", "proposal"]

/-- The status that the words of the line give. -/
def eventStatus (doc : EventSources) : String :=
  if doc.has "completed" || doc.has "done" || doc.has "finished" || doc.has "complete" ||
      doc.has "OK" || doc.has "[x]" then "completed"
  else if doc.has "cancelled" || doc.has "canceled" || doc.has "postponed" ||
      doc.has "rescheduled" then "cancelled"
  else if doc.has "tentative" || doc.has "maybe" || doc.has "possibly" || doc.has "tbc" ||
      doc.has "to be confirmed" then "tentative"
  else "new"

/-- Model of `LanguageParser.handleExtractEvent(doc, input, lineNumber)`;
`none` is `null`. The instant `now` is `Date.now()`, and `random` is the text
`Math.random().toString(36).substring(2)`. -/
def handleExtractEvent (now : Nat) (random : String) (doc : EventSources) (input : String)
    (lineNumber : Option Nat) : Option EventResult :=
  let uniqueId := toBase36 now ++ random
  match doc.dates with
  | [] => none
  | first :: _ =>
    let status := eventStatus doc
    let cleanText := trim (replaceAll true dateWords (fun _ => "") input)
    let (title, description) := getTitleAndDescription cleanText
    let attendees := (splitSpaces description).filter isProbablyPerson
    let attendees := doc.people.foldl
      (fun acc person => if acc.contains person then acc else acc ++ [person]) attendees
    let location := getLocation doc
    let start := doc.isoDate first.start
    let stop := match first.stop with
      | some text => if text = "" then start else doc.isoDate text
      | none => start
    let isRange := match first.stop with
      | some text => text != "" && text != first.start
      | none => false
    let isBusiness := businessTerms.any fun term =>
      includes (toLowerCase title) term ||
        (description != "" && includes (toLowerCase description) term)
    let event : Event :=
      { id := uniqueId, title := title, start := start, stop := stop,
        category := if isBusiness then "business" else "personal",
        description := description, status := status, isRange := isRange,
        location := location, priority := "medium", attendees := attendees,
        lineNumber := lineNumber, text := input, rawText := none }
    some { value := status ++ " Event: " ++ doc.formatDay start ++
                      (if isRange then " to " ++ doc.formatDay stop else ""),
           type := "event", original := event }

/-- Model of the conversion to a 32-bit integer that `<<` and `&` make. -/
def toInt32 (x : Int) : Int := (x + 2147483648) % 4294967296 - 2147483648

/-- The code units of a character in UTF-16, which `charCodeAt` reads: the
code point, or the two surrogates of a character beyond `U+FFFF`. -/
def utf16Units (c : Char) : List Nat :=
  if c.toNat < 65536 then [c.toNat]
  else [55296 + (c.toNat - 65536) / 1024, 56320 + (c.toNat - 65536) % 1024]

/-- One round of the loop of `generateEventId`:
`hash = ((hash << 5) - hash) + char; hash = hash & hash`. -/
def hashStep (hash : Int) (char : Nat) : Int :=
  toInt32 (toInt32 (hash * 32) - hash + (char : Int))

/-- Model of `generateEventId(event)`. -/
def generateEventId (event : Event) : String :=
  let str := "|".intercalate [event.title, event.start, event.rawText.getD ""]
  let hash := (str.data.flatMap utf16Units).foldl hashStep 0
  "event-" ++ Nat.repr hash.natAbs

/-- The state of the store: the events by month, in the order of the keys of
`groupedByMonth`, and the set `eventIds` in the order of insertion. -/
structure CalendarStore where
  groupedByMonth : List (String × List Event)
  eventIds : List String
  deriving DecidableEq, Repr

/-- The loop of `generateUniqueEventId`; `fuel` is more than the number of
ids in use, within which an id that is free is reached. -/
def uniqueIdLoop (eventIds : List String) (base : String) : Nat → Nat → String → String
  | 0, _, id => id
  | fuel + 1, counter, id =>
    if eventIds.contains id then
      uniqueIdLoop eventIds base fuel (counter + 1) (base ++ "-" ++ Nat.repr counter)
    else id

/-- Model of `generateUniqueEventId(event)`. -/
def generateUniqueEventId (store : CalendarStore) (event : Event) : String :=
  uniqueIdLoop store.eventIds (generateEventId event) (store.eventIds.length + 1) 1
    (generateEventId event)

/-- Model of `addEvent(event)`; `formatMonthKey` is the text of the month of a
date in the locale. -/
def addEvent (formatMonthKey : String → String) (store : CalendarStore) (event : Event) :
    CalendarStore :=
  let event :=
    if event.id = "" then { event with id := generateUniqueEventId store event }
    else if store.eventIds.contains event.id then
      { event with id := generateUniqueEventId store event }
    else event
  let eventIds :=
    if store.eventIds.contains event.id then store.eventIds else store.eventIds ++ [event.id]
  let monthKey := formatMonthKey event.start
  let grouped :=
    if store.groupedByMonth.any (fun g => g.1 = monthKey) then store.groupedByMonth
    else store.groupedByMonth ++ [(monthKey, [])]
  { groupedByMonth := grouped.map fun g =>
      if g.1 = monthKey then
        (g.1, if g.2.any (fun e => e.id = event.id) then g.2 else g.2 ++ [event])
      else g,
    eventIds := eventIds }

/-- Model of `eventsMatch(event1, event2)`. -/
def eventsMatch (event1 event2 : Event) : Bool := event1.id = event2.id

/-- Model of `removeEvent(event)`. -/
def removeEvent (formatMonthKey : String → String) (store : CalendarStore) (event : Event) :
    CalendarStore :=
  if event.start = "" then store
  else
    let monthKey := formatMonthKey event.start
    if !store.groupedByMonth.any (fun g => g.1 = monthKey) then store
    else
      let keep (e : Event) : Bool :=
        if e.id != "" && event.id != "" && e.id = event.id then false
        else if (e.rawText.getD "") != "" && (event.rawText.getD "") != "" &&
            e.rawText = event.rawText then false
        else if eventsMatch e event then false
        else true
      let grouped := store.groupedByMonth.map fun g =>
        if g.1 = monthKey then (g.1, g.2.filter keep) else g
      { groupedByMonth := grouped.filter fun g => !(g.1 = monthKey && g.2.isEmpty),
        eventIds := if event.id != "" then store.eventIds.filter fun i => i != event.id
                    else store.eventIds }

/-- Model of `updateEvent(oldEvent, newEvent)`. -/
def updateEvent (formatMonthKey : String → String) (store : CalendarStore)
    (oldEvent newEvent : Event) : CalendarStore :=
  if oldEvent.id = newEvent.id ∧ oldEvent = newEvent then store
  else addEvent formatMonthKey (removeEvent formatMonthKey store oldEvent) newEvent

/-- Model of `map.set(key, value)` on a `Map`, in the order of insertion. -/
def mapSet (entries : List (String × Event)) (key : String) (value : Event) :
    List (String × Event) :=
  if entries.any (fun e => e.1 = key) then
    entries.map fun e => if e.1 = key then (key, value) else e
  else entries ++ [(key, value)]

/-- The counts `{ added, removed }` that `rebuildEvents` returns. -/
structure RebuildCounts where
  added : Int
  removed : Int
  deriving DecidableEq, Repr

/-- Model of `EventTracker.rebuildEvents(doc)` from its second step on;
`parsedEvents` are the events of the parsed results of the lines, copied
through JSON. -/
def rebuildEvents (formatMonthKey : String → String) (store : CalendarStore)
    (parsedEvents : List Event) : CalendarStore × RebuildCounts :=
  let newEventMap := parsedEvents.foldl (fun m event => mapSet m (generateEventId event) event) []
  let currentEvents := store.groupedByMonth.foldl
    (fun m monthEvents => monthEvents.2.foldl (fun m event => mapSet m event.id event) m) []
  let store := currentEvents.foldl
    (fun store entry =>
      if !newEventMap.any (fun e => e.1 = entry.1) then removeEvent formatMonthKey store entry.2
      else store)
    store
  let store := newEventMap.foldl
    (fun store entry =>
      match currentEvents.lookup entry.1 with
      | none => addEvent formatMonthKey store entry.2
      | some current =>
        if current ≠ entry.2 then updateEvent formatMonthKey store current entry.2 else store)
    store
  (store, { added := newEventMap.length,
            removed := (currentEvents.length : Int) - (newEventMap.length : Int) })

/-- A document for the line `Meeting tomorrow`, read on the ninth of June
2025. -/
def meetingTomorrow : EventSources :=
  { dates := [{ start := "2025-06-10T00:00:00.000Z", stop := some "2025-06-10T23:59:59.999Z" }],
    has := fun _ => false, people := [], matched := fun _ => [], places := [],
    isoDate := fun text => text, formatDay := fun _ => "Tue, 10 Jun 2025" }

/-- A stand-in for `formatMonthKey`: the year and the month of the text of a
date. -/
def sampleMonthKey (isoDateString : String) : String := String.mk (isoDateString.data.take 7)

/-- The event of a result, the event without content when there is no
result. -/
def eventOf (result : Option EventResult) : Event :=
  match result with
  | some r => r.original
  | none =>
    { id := "", title := "", start := "", stop := "", category := "", description := "",
      status := "", isRange := false, location := "", priority := "", attendees := [],
      lineNumber := none, text := "", rawText := none }

/-- The event that a parse of the line `Meeting tomorrow` at the instant `now`
and with the random text `random` hands to the calendar. -/
def parsedMeeting (now : Nat) (random : String) : Event :=
  eventOf (handleExtractEvent now random meetingTomorrow "Meeting tomorrow" (some 1))

end Calendar

/-! ## Reasoning about computations -/

theorem bind_run {α β : Type} (m : M α) (f : α → M β) (w : World) :
    (m >>= f) w = match m w with
      | (Res.ok a, w1) => f a w1
      | (Res.throw e, w1) => (Res.throw e, w1)
      | (Res.hang, w1) => (Res.hang, w1) := rfl

theorem m_pure_bind {α β : Type} (a : α) (f : α → M β) : (pure a >>= f) = f a := rfl

theorem getWorld_bind {β : Type} (f : World → M β) (w : World) :
    (getWorld >>= f) w = f w w := rfl

theorem modifyWorld_bind {β : Type} (g : World → World) (f : Unit → M β) (w : World) :
    (modifyWorld g >>= f) w = f () (g w) := rfl

theorem readClock_bind {β : Type} (f : Int → M β) (w : World) :
    (readClock >>= f) w = f w.now { w with now := w.now + w.tick } := rfl

theorem holds_mono {α : Type} {I : World → Prop} {m : M α} {p q : Res α → Prop}
    (h : Holds I m p) (hpq : ∀ r, p r → q r) : Holds I m q :=
  fun w hw => ⟨(h w hw).1, hpq _ (h w hw).2⟩

theorem holds_pure {α : Type} {I : World → Prop} {a : α} {post : Res α → Prop}
    (h : post (Res.ok a)) : Holds I (pure a : M α) post :=
  fun _ hw => ⟨hw, h⟩

theorem holds_bind {α β : Type} {I : World → Prop} {m : M α} {f : α → M β}
    {p : Res α → Prop} {q : Res β → Prop}
    (hm : Holds I m p)
    (hf : ∀ a, p (Res.ok a) → Holds I (f a) q)
    (ht : ∀ e, p (Res.throw e) → q (Res.throw e))
    (hh : p Res.hang → q Res.hang) : Holds I (m >>= f) q := by
  intro w hw
  have h1 := hm w hw
  rw [bind_run]
  rcases hmw : m w with ⟨r, w1⟩
  rw [hmw] at h1
  cases r with
  | ok a => exact hf a h1.2 w1 h1.1
  | throw e => exact ⟨h1.1, ht e h1.2⟩
  | hang => exact ⟨h1.1, hh h1.2⟩

theorem holds_tryCatch {α : Type} {I : World → Prop} {body : M α} {handler : String → M α}
    {p q : Res α → Prop}
    (hb : Holds I body p)
    (hc : ∀ e, p (Res.throw e) → Holds I (handler e) q)
    (hok : ∀ a, p (Res.ok a) → q (Res.ok a))
    (hh : p Res.hang → q Res.hang) : Holds I (tryCatch body handler) q := by
  intro w hw
  have h1 := hb w hw
  unfold NoteSum.tryCatch
  rcases hmw : body w with ⟨r, w1⟩
  rw [hmw] at h1
  cases r with
  | ok a => exact ⟨h1.1, hok a h1.2⟩
  | throw e => exact hc e h1.2 w1 h1.1
  | hang => exact ⟨h1.1, hh h1.2⟩

theorem returns_pure {α : Type} {I : World → Prop} {a : α} {p : α → Prop} (h : p a) :
    Returns I (pure a : M α) p :=
  holds_pure ⟨a, rfl, h⟩

theorem returns_mono {α : Type} {I : World → Prop} {m : M α} {p q : α → Prop}
    (h : Returns I m p) (hpq : ∀ a, p a → q a) : Returns I m q :=
  holds_mono h fun _ ⟨a, ha, hp⟩ => ⟨a, ha, hpq a hp⟩

theorem returns_bind {α β : Type} {I : World → Prop} {m : M α} {f : α → M β}
    {p : α → Prop} {q : β → Prop}
    (hm : Returns I m p) (hf : ∀ a, p a → Returns I (f a) q) : Returns I (m >>= f) q := by
  refine holds_bind hm ?_ ?_ ?_
  · rintro a ⟨b, hb, hp⟩
    cases hb
    exact hf a hp
  · rintro e ⟨b, hb, _⟩
    cases hb
  · rintro ⟨b, hb, _⟩
    cases hb

theorem throws_bind {α β : Type} {I : World → Prop} {m : M α} {f : α → M β}
    (hm : Throws I m) : Throws I (m >>= f) := by
  refine holds_bind hm ?_ ?_ ?_
  · rintro a ⟨e, he⟩
    cases he
  · rintro e _
    exact ⟨e, rfl⟩
  · rintro ⟨e, he⟩
    cases he

theorem returns_then_throws {α β : Type} {I : World → Prop} {m : M α} {f : α → M β}
    {p : α → Prop}
    (hm : Returns I m p) (hf : ∀ a, p a → Throws I (f a)) : Throws I (m >>= f) := by
  refine holds_bind hm ?_ ?_ ?_
  · rintro a ⟨b, hb, hp⟩
    cases hb
    exact hf a hp
  · rintro e ⟨b, hb, _⟩
    cases hb
  · rintro ⟨b, hb, _⟩
    cases hb

theorem throws_tryCatch {α : Type} {I : World → Prop} {body : M α} {handler : String → M α}
    {q : Res α → Prop} (hb : Throws I body) (hc : ∀ e, Holds I (handler e) q) :
    Holds I (tryCatch body handler) q := by
  refine holds_tryCatch hb (fun e _ => hc e) ?_ ?_
  · rintro a ⟨e, he⟩
    cases he
  · rintro ⟨e, he⟩
    cases he

theorem returns_tryCatch {α : Type} {I : World → Prop} {body : M α} {handler : String → M α}
    {q : α → Prop} (hb : Returns I body q) : Returns I (tryCatch body handler) q := by
  refine holds_tryCatch hb ?_ (fun a h => h) ?_
  · rintro e ⟨a, ha, _⟩
    cases ha
  · rintro ⟨a, ha, _⟩
    cases ha

theorem throws_throwNew {α : Type} {I : World → Prop} (e : String) :
    Throws I (throwNew e : M α) :=
  fun _ hw => ⟨hw, e, rfl⟩

theorem returns_getWorld {I : World → Prop} : Returns I getWorld I :=
  fun w hw => ⟨hw, w, rfl, hw⟩

theorem returns_modifyWorld {I : World → Prop} {f : World → World} (hf : ∀ w, I w → I (f w)) :
    Returns I (modifyWorld f) (fun _ => True) :=
  fun w hw => ⟨hf w hw, (), rfl, trivial⟩

theorem returns_run {α : Type} {I : World → Prop} {m : M α} {p : α → Prop} {w : World}
    (h : Returns I m p) (hw : I w) : ∃ a w1, m w = (Res.ok a, w1) ∧ I w1 ∧ p a := by
  obtain ⟨h1, a, h2, h3⟩ := h w hw
  exact ⟨a, (m w).2, Prod.ext h2 rfl, h1, h3⟩

theorem hang_of_returns_bind {α β : Type} {I : World → Prop} {m : M α} {f : α → M β}
    {p : α → Prop} {w : World} (hm : Returns I m p) (hw : I w)
    (hf : ∀ a w1, p a → I w1 → (f a w1).1 = Res.hang) : ((m >>= f) w).1 = Res.hang := by
  obtain ⟨a, w1, h, hw1, hp⟩ := returns_run hm hw
  rw [bind_run, h]
  exact hf a w1 hp hw1

theorem bind_of_hang {α β : Type} {m : M α} {f : α → M β} {w : World}
    (h : (m w).1 = Res.hang) : ((m >>= f) w).1 = Res.hang := by
  rw [bind_run]
  rcases hm : m w with ⟨r, w1⟩
  rw [hm] at h
  cases r <;> simp_all

theorem tryCatch_of_hang {α : Type} {body : M α} {handler : String → M α} {w : World}
    (h : (body w).1 = Res.hang) : (tryCatch body handler w).1 = Res.hang := by
  unfold tryCatch
  rcases hm : body w with ⟨r, w1⟩
  rw [hm] at h
  cases r <;> simp_all

theorem tryFinally_of_hang {α : Type} {body : M α} {fin : World → World} {w : World}
    (h : (body w).1 = Res.hang) : (tryFinally body fin w).1 = Res.hang := by
  unfold tryFinally
  rcases hm : body w with ⟨r, w1⟩
  rw [hm] at h
  cases r <;> simp_all

/-! ## The download phase while the remote store is unreachable -/

theorem offline_nextFault : Returns Offline nextFault (fun b => b = true) := by
  intro w hw
  obtain ⟨h1, h2, h3, h4, h5⟩ := hw
  simp [nextFault, h1, h2, Offline, h3, h4, h5]

theorem offline_mathRandom : Returns Offline mathRandom (fun _ => True) := by
  intro w hw
  obtain ⟨h1, h2, h3, h4, h5⟩ := hw
  unfold mathRandom
  cases hr : w.oracle.rands <;> simp [Offline, h1, h2, h3, h4, h5]

theorem offline_sleep (d : Nat) : Returns Offline (sleep d) (fun _ => True) := by
  intro w hw
  obtain ⟨h1, h2, h3, h4, h5⟩ := hw
  simp [sleep, modifyWorld, Offline, h1, h2, h3, h4, h5]

theorem offline_logSyncError (op : String) (d : Option PageId) (e : String) :
    Returns Offline (logSyncError op d e) (fun _ => True) := by
  intro w hw
  obtain ⟨h1, h2, h3, h4, h5⟩ := hw
  simp [logSyncError, bind, M.bind, pure, M.pure, readClock, getWorld, modifySync, modifyStore,
    modifyWorld, Offline, h1, h2, h3, h4, h5]

theorem offline_saveCheckpoint : Returns Offline saveCheckpoint (fun _ => True) := by
  intro w hw
  obtain ⟨h1, h2, h3, h4, h5⟩ := hw
  simp [saveCheckpoint, bind, M.bind, pure, M.pure, readClock, getWorld, modifySync, modifyStore,
    modifyWorld, Offline, h1, h2, h3, h4, h5]

theorem offline_checkVaultLock : Returns Offline checkVaultLock (fun b => b = false) := by
  intro w hw
  obtain ⟨h1, h2, h3, h4, h5⟩ := hw
  simp [checkVaultLock, vaultEvent, bind, M.bind, pure, M.pure, readClock, getWorld, modifySync,
    modifyStore, modifyWorld, Offline, h1, h2, h3, h4, h5]

theorem offline_saveResumeCheckpoint (phase : String) (token : Option PageId) :
    Returns Offline (saveResumeCheckpoint phase token) (fun _ => True) := by
  unfold saveResumeCheckpoint
  refine returns_bind (p := fun _ => True) ?_ ?_
  · intro w hw
    obtain ⟨h1, h2, h3, h4, h5⟩ := hw
    simp [modifySync, modifyWorld, Offline, h1, h2, h3, h4, h5]
  · intro _ _
    refine returns_bind offline_mathRandom ?_
    intro r _
    split
    · exact returns_bind offline_saveCheckpoint fun _ _ => returns_pure trivial
    · exact returns_pure trivial

theorem offline_handleSyncRetry (phase : String) (token : Option PageId) :
    Returns Offline (handleSyncRetry phase token) (fun b => b = true) := by
  unfold handleSyncRetry
  refine returns_bind (offline_saveResumeCheckpoint phase token) ?_
  intro _ _ w hw
  obtain ⟨h1, h2, h3, h4, h5⟩ := hw
  simp [bind, M.bind, pure, M.pure, getWorld, Offline, h1, h2, h3, h4, h5]

theorem offline_getDocsPages (t : Int) (c : Bool) : Throws Offline (getDocsPages t c) := by
  unfold getDocsPages
  refine returns_then_throws offline_nextFault ?_
  intro b hb
  subst hb
  simp only [if_true]
  exact throws_bind (throws_throwNew _)

theorem offline_getDocExists (id : PageId) : Throws Offline (getDocExists id) := by
  unfold getDocExists
  refine returns_then_throws offline_nextFault ?_
  intro b hb
  subst hb
  simp only [if_true]
  exact throws_bind (throws_throwNew _)

theorem offline_retryLoop {α : Type} (operation : M α) (hop : Throws Offline operation) :
    ∀ remaining attempt,
      Throws Offline (executeWithRetryLoop operation (remaining + 1) attempt) := by
  intro remaining
  induction remaining with
  | zero =>
    intro attempt
    unfold executeWithRetryLoop
    refine throws_tryCatch hop ?_
    intro e
    simp only [if_true]
    exact throws_bind (throws_throwNew _)
  | succ n ih =>
    intro attempt
    rw [executeWithRetryLoop]
    refine throws_tryCatch hop ?_
    intro e
    simp only [Nat.succ_ne_zero, if_false, m_pure_bind, Nat.add_one_ne_zero]
    refine returns_then_throws offline_mathRandom ?_
    intro r _
    refine returns_then_throws (offline_sleep _) ?_
    intro _ _
    exact ih _

theorem offline_downloadLoop (crypto : Crypto) (t : Int) :
    ∀ fuel l n w, Offline w → (downloadLoop crypto t fuel l n w).1 = Res.hang := by
  intro fuel
  induction fuel with
  | zero => intro l n w _; rfl
  | succ k ih =>
    intro l n w hw
    rw [downloadLoop]
    have hab : w.sync.aborted = false := hw.2.2.2.2
    simp only [getWorld_bind, hab, Bool.false_eq_true, if_false, m_pure_bind]
    refine hang_of_returns_bind offline_checkVaultLock hw ?_
    intro b w1 hb hw1
    subst hb
    simp only [Bool.false_eq_true, if_false, m_pure_bind]
    refine hang_of_returns_bind (p := fun x => x = some (l, n)) ?_ hw1 ?_
    · refine throws_tryCatch ?_ ?_
      · have hq : ∀ c, Throws Offline (executeWithRetry (getDocsPages t c) MAX_RETRIES) :=
          fun c => offline_retryLoop _ (offline_getDocsPages t c) 4 0
        rcases l with _ | id
        · exact throws_bind (hq false)
        · by_cases hid : id = ""
          · simp only [hid, if_true, m_pure_bind]
            exact throws_bind (hq false)
          · simp only [hid, if_false]
            exact throws_bind (offline_getDocExists id)
      · intro e
        refine returns_bind (offline_logSyncError _ _ _) ?_
        intro _ _
        refine returns_bind (offline_handleSyncRetry _ _) ?_
        intro b hb
        subst hb
        exact returns_pure rfl
    · intro a w2 ha hw2
      subst ha
      exact ih l n w2 hw2

theorem sortBy_nil {α : Type} (le : α → α → Bool) : sortBy le [] = [] := rfl

theorem pendingPages_of_none (pages : List Page) (h : ∀ p ∈ pages, p.pendingSync ≠ 1) :
    pendingPages pages = [] := by
  have : pages.filter (fun p => decide (p.pendingSync = 1)) = [] := by
    simp only [List.filter_eq_nil_iff]
    intro p hp
    simpa using h p hp
  simp [pendingPages, this, sortBy]

theorem offlineIdle_processRemoteDeletions :
    Returns OfflineIdle processRemoteDeletions (fun _ => True) := by
  intro w hw
  obtain ⟨⟨h1, h2, h3, h4, h5⟩, h6, h7⟩ := hw
  simp [processRemoteDeletions, fetchNewTombstones, enterPhase, tryCatch, nextFault, throwNew,
    bind, M.bind, pure, M.pure, getWorld, modifyWorld, OfflineIdle, Offline, h1, h2, h3, h4, h5,
    h7]
  exact h6

theorem offlineIdle_upload (crypto : Crypto) :
    Returns OfflineIdle (uploadFromDexieToFirestore crypto none) (fun _ => True) := by
  intro w hw
  obtain ⟨⟨h1, h2, h3, h4, h5⟩, h6, h7⟩ := hw
  simp [uploadFromDexieToFirestore, enterPhase, updateSyncProgress, tryCatch, modifySync,
    bind, M.bind, pure, M.pure, getWorld, modifyWorld, OfflineIdle, Offline, h1, h2, h3, h4, h5,
    h7, pendingPages_of_none _ h6]
  exact h6

theorem offlineIdle_handleDeletions :
    Returns OfflineIdle (handleDeletions none) (fun _ => True) := by
  intro w hw
  obtain ⟨⟨h1, h2, h3, h4, h5⟩, h6, h7⟩ := hw
  simp [handleDeletions, enterPhase, updateSyncProgress, tryCatch, modifySync, getDeletedPageIds,
    bind, M.bind, pure, M.pure, getWorld, modifyWorld, OfflineIdle, Offline, h1, h2, h3, h4, h5,
    h7]
  exact h6

theorem offline_downloadFromFirestore (crypto : Crypto) (fuel : Nat) (token : Option PageId)
    (w : World) (hw : Offline w) : (downloadFromFirestore crypto fuel token w).1 = Res.hang := by
  unfold downloadFromFirestore
  refine hang_of_returns_bind (I := Offline) (p := fun _ => True) ?_ hw ?_
  · intro w hw
    obtain ⟨h1, h2, h3, h4, h5⟩ := hw
    simp [enterPhase, modifyWorld, Offline, h1, h2, h3, h4, h5]
  · intro _ w1 _ hw1
    refine hang_of_returns_bind (I := Offline) (p := fun _ => True) ?_ hw1 ?_
    · intro w hw
      obtain ⟨h1, h2, h3, h4, h5⟩ := hw
      simp [updateSyncProgress, modifySync, modifyWorld, Offline, h1, h2, h3, h4, h5]
    · intro _ w2 _ hw2
      rw [getWorld_bind]
      exact offline_downloadLoop crypto _ fuel token 0 w2 hw2

theorem offlineIdle_runAllPhases (crypto : Crypto) (fuel : Nat) (w : World) (hw : OfflineIdle w) :
    (runAllPhases crypto fuel none w).1 = Res.hang := by
  unfold runAllPhases
  refine hang_of_returns_bind offlineIdle_processRemoteDeletions hw ?_
  intro _ w1 _ hw1
  refine hang_of_returns_bind (offlineIdle_upload crypto) hw1 ?_
  intro _ w2 _ hw2
  refine hang_of_returns_bind offlineIdle_handleDeletions hw2 ?_
  intro _ w3 _ hw3
  exact offline_downloadFromFirestore crypto fuel none w3 hw3.1

theorem offlineIdle_startNewSyncJob (crypto : Crypto) (fuel : Nat) (w : World)
    (hw : OfflineIdle w) (hcp : w.store.pendingSyncJob = none) :
    (startNewSyncJob crypto fuel w).1 = Res.hang := by
  unfold startNewSyncJob
  cases fuel with
  | zero => rfl
  | succ k =>
    rw [jobFrom]
    simp only [getWorld_bind, hcp, ite_self]
    exact tryCatch_of_hang (offlineIdle_runAllPhases crypto k w hw)

/-- While the remote store is unreachable, a sync of a device that has nothing
to upload or delete and no checkpoint does not return, whatever the number of
steps it is given. -/
theorem sync_offline_never_returns (crypto : Crypto) (fuel : Nat) (w : World)
    (hoff : Offline w) (hprog : w.sync.inProgress = false) (huser : w.currentUser.isSome = true)
    (hcp : w.store.pendingSyncJob = none) (hpend : ∀ p ∈ w.pages, p.pendingSync ≠ 1)
    (hdel : w.store.deletedPageIds = []) :
    (syncDexieToFirestore crypto fuel none false w).1 = Res.hang := by
  obtain ⟨h1, h2, h3, h4, h5⟩ := hoff
  have hnone : w.currentUser.isNone = false := by
    cases hu : w.currentUser <;> simp_all
  unfold syncDexieToFirestore
  simp only [getWorld_bind, hprog, hnone, h4, Bool.false_eq_true, if_false, m_pure_bind,
    Bool.not_true, modifyWorld_bind, readClock_bind, resetSyncState, modifySync]
  refine tryFinally_of_hang (tryCatch_of_hang ?_)
  simp only [getWorld_bind, Bool.false_eq_true, if_false, hcp]
  refine bind_of_hang (offlineIdle_startNewSyncJob crypto fuel _ ?_ hcp)
  exact ⟨⟨h1, h2, h3, rfl, rfl⟩, hpend, hdel⟩

/-- Claim C8, the run that contradicts it: when every attempt of the remote
query fails, `syncDexieToFirestore` has not returned after any number of
steps (after each exhausted round of retries the download loop starts the
query again); in particular it never returns `SYNC_ERROR`. -/
theorem download_retries_forever (fuel : Nat) :
    (syncDexieToFirestore sampleCrypto fuel none false offlineDevice).1 = Res.hang :=
  sync_offline_never_returns sampleCrypto fuel offlineDevice
    ⟨rfl, rfl, rfl, rfl, rfl⟩ rfl rfl rfl (by simp [offlineDevice, device]) rfl

/-! ## A page that is neither in the local table nor in the remote collection -/

theorem keeps_pure {α : Type} {I : World → Prop} {a : α} {p : α → Prop} (h : p a) :
    Keeps I (pure a : M α) p :=
  holds_pure (fun b hb => by cases hb; exact h)

theorem keeps_mono {α : Type} {I : World → Prop} {m : M α} {p q : α → Prop}
    (h : Keeps I m p) (hpq : ∀ a, p a → q a) : Keeps I m q :=
  holds_mono h fun _ hr a ha => hpq a (hr a ha)

theorem keeps_bind {α β : Type} {I : World → Prop} {m : M α} {f : α → M β}
    {p : α → Prop} {q : β → Prop}
    (hm : Keeps I m p) (hf : ∀ a, p a → Keeps I (f a) q) : Keeps I (m >>= f) q := by
  refine holds_bind hm ?_ ?_ ?_
  · intro a ha
    exact hf a (ha a rfl)
  · intro e _ b hb
    cases hb
  · intro _ b hb
    cases hb

theorem keeps_tryCatch {α : Type} {I : World → Prop} {body : M α} {handler : String → M α}
    {q : α → Prop} (hb : Keeps I body q) (hc : ∀ e, Keeps I (handler e) q) :
    Keeps I (tryCatch body handler) q := by
  refine holds_tryCatch hb (fun e _ => hc e) (fun a h => ?_) ?_
  · intro b hb
    cases hb
    exact h a rfl
  · intro _ b hb
    cases hb

theorem keeps_throwNew {α : Type} {I : World → Prop} {p : α → Prop} (e : String) :
    Keeps I (throwNew e : M α) p :=
  fun _ hw => ⟨hw, fun _ h => by cases h⟩

theorem keeps_hang {α : Type} {I : World → Prop} {p : α → Prop} :
    Keeps I (hang : M α) p :=
  fun _ hw => ⟨hw, fun _ h => by cases h⟩

theorem keeps_getWorld {I : World → Prop} : Keeps I getWorld I :=
  fun w hw => ⟨hw, fun a h => by cases h; exact hw⟩

theorem keeps_modifyWorld {I : World → Prop} {f : World → World} (hf : ∀ w, I w → I (f w)) :
    Keeps I (modifyWorld f) (fun _ => True) :=
  fun w hw => ⟨hf w hw, fun _ _ => trivial⟩

theorem keeps_of_returns {α : Type} {I : World → Prop} {m : M α} {p : α → Prop}
    (h : Returns I m p) : Keeps I m p :=
  holds_mono h fun _ ⟨a, ha, hp⟩ b hb => by
    rw [ha] at hb
    cases hb
    exact hp

theorem gone_of_frame {α : Type} {P : PageId} {T : Int} {m : M α} (h : Frame m) :
    Keeps (Gone P T) m (fun _ => True) := by
  intro w hw
  refine ⟨?_, fun _ _ => trivial⟩
  unfold Gone NoLocal
  rw [(h w).1, (h w).2.1, (h w).2.2]
  exact hw

theorem noLocal_of_pages {α : Type} {P : PageId} {m : M α}
    (h : ∀ w, (m w).2.pages = w.pages) : Keeps (NoLocal P) m (fun _ => True) := by
  intro w hw
  refine ⟨?_, fun _ _ => trivial⟩
  unfold NoLocal
  rw [h w]
  exact hw

theorem noLocal_of_frame {α : Type} {P : PageId} {m : M α} (h : Frame m) :
    Keeps (NoLocal P) m (fun _ => True) :=
  noLocal_of_pages fun w => (h w).1

theorem frame_pure {α : Type} (a : α) : Frame (pure a : M α) := fun _ => ⟨rfl, rfl, rfl⟩

theorem frame_throwNew {α : Type} (e : String) : Frame (throwNew e : M α) := fun _ => ⟨rfl, rfl, rfl⟩

theorem frame_bind {α β : Type} {m : M α} {f : α → M β} (hm : Frame m) (hf : ∀ a, Frame (f a)) :
    Frame (m >>= f) := by
  intro w
  rw [bind_run]
  have h1 := hm w
  rcases hmw : m w with ⟨r, w1⟩
  rw [hmw] at h1
  cases r with
  | ok a =>
    have h2 := hf a w1
    exact ⟨h2.1.trans h1.1, h2.2.1.trans h1.2.1, h2.2.2.trans h1.2.2⟩
  | throw e => exact h1
  | hang => exact h1

theorem frame_tryCatch {α : Type} {body : M α} {handler : String → M α}
    (hb : Frame body) (hc : ∀ e, Frame (handler e)) : Frame (tryCatch body handler) := by
  intro w
  unfold tryCatch
  have h1 := hb w
  rcases hmw : body w with ⟨r, w1⟩
  rw [hmw] at h1
  cases r with
  | ok a => exact h1
  | throw e =>
    have h2 := hc e w1
    exact ⟨h2.1.trans h1.1, h2.2.1.trans h1.2.1, h2.2.2.trans h1.2.2⟩
  | hang => exact h1

theorem frame_getWorld : Frame getWorld := fun _ => ⟨rfl, rfl, rfl⟩

theorem frame_modifySync (f : SyncState → SyncState) : Frame (modifySync f) := fun _ => ⟨rfl, rfl, rfl⟩

theorem frame_modifyStore (f : Metadata → Metadata)
    (hf : ∀ m, (f m).lastSyncTime = m.lastSyncTime) : Frame (modifyStore f) :=
  fun w => ⟨rfl, rfl, hf w.store⟩

theorem frame_readClock : Frame readClock := fun _ => ⟨rfl, rfl, rfl⟩

theorem frame_sleep (d : Nat) : Frame (sleep d) := fun _ => ⟨rfl, rfl, rfl⟩

theorem frame_enterPhase (n : String) : Frame (enterPhase n) := fun _ => ⟨rfl, rfl, rfl⟩

theorem frame_nextFault : Frame nextFault := by
  intro w
  unfold nextFault
  split <;> exact ⟨rfl, rfl, rfl⟩

theorem frame_mathRandom : Frame mathRandom := by
  intro w
  unfold mathRandom
  split <;> exact ⟨rfl, rfl, rfl⟩

theorem frame_vaultEvent : Frame vaultEvent := by
  intro w
  unfold vaultEvent
  split <;> exact ⟨rfl, rfl, rfl⟩

theorem frame_logSyncError (op : String) (d : Option PageId) (e : String) :
    Frame (logSyncError op d e) := by
  unfold logSyncError
  exact frame_bind frame_readClock fun _ => frame_bind frame_getWorld fun _ =>
    frame_bind (frame_modifySync _) fun _ => frame_modifyStore _ fun _ => rfl

theorem frame_saveCheckpoint : Frame saveCheckpoint := by
  unfold saveCheckpoint
  exact frame_bind frame_getWorld fun _ => frame_bind frame_readClock fun _ =>
    frame_bind (frame_modifyStore _ fun _ => rfl) fun _ => frame_pure _

theorem frame_saveResumeCheckpoint (phase : String) (token : Option PageId) :
    Frame (saveResumeCheckpoint phase token) := by
  unfold saveResumeCheckpoint
  refine frame_bind (frame_modifySync _) fun _ => frame_bind frame_mathRandom fun r => ?_
  split
  · exact frame_bind frame_saveCheckpoint fun _ => frame_pure _
  · exact frame_pure _

theorem frame_handleSyncRetry (phase : String) (token : Option PageId) :
    Frame (handleSyncRetry phase token) := by
  unfold handleSyncRetry
  exact frame_bind (frame_saveResumeCheckpoint _ _) fun _ =>
    frame_bind frame_getWorld fun _ => frame_pure _

theorem frame_checkVaultLock : Frame checkVaultLock := by
  unfold checkVaultLock
  refine frame_bind frame_vaultEvent fun _ => frame_bind frame_getWorld fun w => ?_
  simp only []
  split
  · exact frame_bind (frame_modifySync _) fun _ =>
      frame_bind frame_saveCheckpoint fun _ => frame_pure _
  · exact frame_bind (frame_pure _) fun _ => frame_pure _

theorem frame_updateSyncProgress (phase : String) (c : Nat) (t : Option Nat) :
    Frame (updateSyncProgress phase c t) := frame_modifySync _

theorem frame_pushFailed (id : PageId) : Frame (pushFailed id) := frame_modifySync _

theorem mem_insertBy {α : Type} (le : α → α → Bool) (a x : α) (xs : List α) :
    x ∈ insertBy le a xs → x = a ∨ x ∈ xs := by
  induction xs with
  | nil => intro h; simpa [insertBy] using h
  | cons b rest ih =>
    unfold insertBy
    split
    · intro h
      rcases List.mem_cons.mp h with h | h
      · exact Or.inr (h ▸ List.mem_cons_self _ _)
      · rcases ih h with h | h
        · exact Or.inl h
        · exact Or.inr (List.mem_cons_of_mem _ h)
    · intro h
      rcases List.mem_cons.mp h with h | h
      · exact Or.inl h
      · exact Or.inr h

theorem mem_foldl_insertBy {α : Type} (le : α → α → Bool) (x : α) (xs : List α) :
    ∀ init : List α, x ∈ xs.foldl (fun acc a => insertBy le a acc) init → x ∈ init ∨ x ∈ xs := by
  induction xs with
  | nil => intro init h; exact Or.inl h
  | cons b rest ih =>
    intro init h
    rcases ih _ h with h | h
    · rcases mem_insertBy le b x init h with h | h
      · exact Or.inr (h ▸ List.mem_cons_self _ _)
      · exact Or.inl h
    · exact Or.inr (List.mem_cons_of_mem _ h)

theorem mem_sortBy {α : Type} (le : α → α → Bool) (x : α) (xs : List α)
    (h : x ∈ sortBy le xs) : x ∈ xs := by
  rcases mem_foldl_insertBy le x xs [] h with h | h
  · cases h
  · exact h

theorem mem_chunksAux {α : Type} (size : Nat) (x : α) :
    ∀ steps (xs b : List α), b ∈ chunksAux size steps xs → x ∈ b → x ∈ xs := by
  intro steps
  induction steps with
  | zero => intro xs b h; simp [chunksAux] at h
  | succ k ih =>
    intro xs b h hx
    unfold chunksAux at h
    split at h
    · cases h
    · rcases List.mem_cons.mp h with h | h
      · subst h
        exact List.mem_of_mem_take hx
      · exact List.mem_of_mem_drop (ih _ _ h hx)

theorem mem_chunks {α : Type} (size : Nat) (x : α) (xs b : List α)
    (h : b ∈ chunks size xs) (hx : x ∈ b) : x ∈ xs :=
  mem_chunksAux size x _ xs b h hx

theorem gone_pagesGet (P : PageId) (T : Int) (id : PageId) :
    Keeps (Gone P T) (pagesGet id) (fun _ => True) :=
  fun _ hw => ⟨hw, fun _ _ => trivial⟩

theorem gone_pagesUpdate (P : PageId) (T : Int) (id : PageId) (changes : Page → Page)
    (hid : ∀ p, (changes p).id = p.id) : Keeps (Gone P T) (pagesUpdate id changes) (fun _ => True) := by
  refine keeps_modifyWorld ?_
  intro w hw
  refine ⟨?_, hw.2⟩
  intro p hp
  simp only [List.mem_map] at hp
  obtain ⟨q, hq, rfl⟩ := hp
  split
  · rw [hid]; exact hw.1 q hq
  · exact hw.1 q hq

theorem gone_pagesDelete (P : PageId) (T : Int) (id : PageId) :
    Keeps (Gone P T) (pagesDelete id) (fun _ => True) := by
  refine keeps_modifyWorld ?_
  intro w hw
  refine ⟨?_, hw.2⟩
  intro p hp
  exact hw.1 p (List.mem_of_mem_filter hp)

theorem gone_pagesAdd (P : PageId) (T : Int) (record : Page) (h : record.id ≠ P) :
    Keeps (Gone P T) (pagesAdd record) (fun _ => True) := by
  intro w hw
  unfold pagesAdd
  split
  · exact ⟨hw, fun _ _ => trivial⟩
  · refine ⟨⟨?_, hw.2⟩, fun _ _ => trivial⟩
    intro p hp
    rcases List.mem_append.mp hp with hp | hp
    · exact hw.1 p hp
    · simp only [List.mem_singleton] at hp
      rw [hp]; exact h

theorem mergeDoc_id (old data : Page) : (mergeDoc old data).id = old.id := rfl

theorem applyBatchOp_stale (P : PageId) (T : Int) (docs : List Page) (op : BatchOp)
    (hdocs : StaleRemote P T docs) (hop : ∀ data, op = BatchOp.set data → data.id ≠ P) :
    StaleRemote P T (applyBatchOp docs op) := by
  intro d hd hid
  cases op with
  | set data =>
    have hdata : data.id ≠ P := hop data rfl
    simp only [applyBatchOp] at hd
    split at hd
    · simp only [List.mem_map] at hd
      obtain ⟨q, hq, hqd⟩ := hd
      by_cases hqi : q.id = data.id
      · rw [if_pos hqi] at hqd
        rw [← hqd, mergeDoc_id, hqi] at hid
        exact absurd hid hdata
      · rw [if_neg hqi] at hqd
        rw [← hqd] at hid ⊢
        exact hdocs q hq hid
    · rcases List.mem_append.mp hd with hd | hd
      · exact hdocs d hd hid
      · simp only [List.mem_singleton] at hd
        rw [hd] at hid
        exact absurd hid hdata
  | delete id =>
    simp only [applyBatchOp] at hd
    exact hdocs d (List.mem_of_mem_filter hd) hid

theorem foldl_applyBatchOp_stale (P : PageId) (T : Int) (ops : List BatchOp)
    (hops : ∀ data, BatchOp.set data ∈ ops → data.id ≠ P) :
    ∀ docs : List Page, StaleRemote P T docs → StaleRemote P T (ops.foldl applyBatchOp docs) := by
  induction ops with
  | nil => intro docs h; exact h
  | cons op rest ih =>
    intro docs h
    refine ih (fun data hd => hops data (List.mem_cons_of_mem _ hd)) _ ?_
    exact applyBatchOp_stale P T docs op h
      (fun data hd => hops data (hd ▸ List.mem_cons_self _ _))

theorem gone_batchCommit (P : PageId) (T : Int) (ops : List BatchOp)
    (hops : ∀ data, BatchOp.set data ∈ ops → data.id ≠ P) :
    Keeps (Gone P T) (batchCommit ops) (fun _ => True) := by
  have hmod : Keeps (Gone P T) (modifyWorld fun w =>
      { w with remote := { w.remote with pages := ops.foldl applyBatchOp w.remote.pages } })
      (fun _ => True) :=
    keeps_modifyWorld fun w hw => ⟨hw.1, foldl_applyBatchOp_stale P T ops hops _ hw.2.1, hw.2.2⟩
  unfold batchCommit
  refine keeps_bind (gone_of_frame frame_nextFault) fun rejected _ => ?_
  simp only []
  split
  · exact keeps_bind (keeps_throwNew (p := fun _ => True) _) fun _ _ => hmod
  · exact keeps_bind (keeps_pure (p := fun _ => True) trivial) fun _ _ => hmod

theorem keeps_retryLoop {α : Type} {I : World → Prop} (frameI : ∀ {β : Type} (m : M β), Frame m → Keeps I m (fun _ => True))
    (operation : M α) {q : α → Prop}
    (hop : Keeps I operation q) :
    ∀ remaining attempt, Keeps I (executeWithRetryLoop operation remaining attempt) q := by
  intro remaining
  induction remaining with
  | zero => intro attempt; exact keeps_throwNew _
  | succ n ih =>
    intro attempt
    rw [executeWithRetryLoop]
    refine keeps_tryCatch hop fun e => ?_
    simp only []
    split
    · exact keeps_bind (keeps_throwNew (p := fun _ => True) _) fun _ _ =>
        keeps_bind (frameI _ frame_mathRandom) fun _ _ =>
          keeps_bind (frameI _ (frame_sleep _)) fun _ _ => ih _
    · exact keeps_bind (keeps_pure (p := fun _ => True) trivial) fun _ _ =>
        keeps_bind (frameI _ frame_mathRandom) fun _ _ =>
          keeps_bind (frameI _ (frame_sleep _)) fun _ _ => ih _

theorem gone_commitBatchWithRetry (P : PageId) (T : Int) (ops : List BatchOp)
    (hops : ∀ data, BatchOp.set data ∈ ops → data.id ≠ P) :
    Keeps (Gone P T) (commitBatchWithRetry ops) (fun _ => True) :=
  keeps_retryLoop (fun _ h => gone_of_frame h) _ (gone_batchCommit P T ops hops) _ _

theorem gone_savePage (P : PageId) (T : Int) (id : PageId) (content : Option String) :
    Keeps (Gone P T) (savePage id content) (fun _ => True) := by
  unfold savePage
  exact keeps_bind (gone_of_frame frame_readClock) fun _ _ =>
    keeps_bind (gone_pagesUpdate P T _ _ fun _ => rfl) fun _ _ => keeps_pure trivial

theorem gone_createPageFromFirestore (P : PageId) (T : Int) (record : Page) (h : record.id ≠ P) :
    Keeps (Gone P T) (createPageFromFirestore record) (fun _ => True) := by
  unfold createPageFromFirestore
  refine keeps_bind keeps_getWorld fun w _ => ?_
  refine keeps_bind (gone_of_frame frame_readClock) fun _ _ => ?_
  split
  · exact gone_pagesUpdate P T _ _ fun _ => rfl
  · exact gone_pagesAdd P T record h

theorem gone_mergeAndSavePages (P : PageId) (T : Int) (localPage remotePage : Page)
    (d : Option String) :
    Keeps (Gone P T) (mergeAndSavePages localPage remotePage d) (fun _ => True) := by
  unfold mergeAndSavePages
  refine keeps_tryCatch ?_ fun e => ?_
  · split
    · exact keeps_throwNew _
    · exact keeps_bind (gone_savePage P T _ _) fun _ _ => keeps_pure trivial
  · exact keeps_bind (gone_of_frame (frame_logSyncError _ _ _)) fun _ _ =>
      keeps_bind (gone_of_frame (frame_pushFailed _)) fun _ _ => keeps_throwNew _

theorem frame_decryptData (crypto : Crypto) (s : String) : Frame (decryptData crypto s) :=
  fun _ => ⟨rfl, rfl, rfl⟩

theorem frame_encryptData (crypto : Crypto) (s : Option String) : Frame (encryptData crypto s) :=
  fun _ => ⟨rfl, rfl, rfl⟩

theorem gone_processDownloadBatch (P : PageId) (T : Int) (crypto : Crypto) :
    ∀ docs : List Page, (∀ d ∈ docs, d.id ≠ P) →
      Keeps (Gone P T) (processDownloadBatch crypto docs) (fun _ => True) := by
  intro docs
  induction docs with
  | nil => intro _; exact keeps_pure trivial
  | cons doc rest ih =>
    intro hdocs
    have hdoc : doc.id ≠ P := hdocs doc (List.mem_cons_self _ _)
    have hnew : ∀ c, (newLocalPage doc c).id ≠ P := fun _ => hdoc
    have hrest := ih fun d hd => hdocs d (List.mem_cons_of_mem _ hd)
    rw [processDownloadBatch]
    simp only []
    repeat' with_reducible first
      | exact hrest
      | exact keeps_pure trivial
      | exact keeps_throwNew _
      | exact keeps_mono keeps_getWorld (fun _ _ => trivial)
      | exact gone_of_frame frame_checkVaultLock
      | exact gone_of_frame (frame_logSyncError _ _ _)
      | exact gone_of_frame (frame_pushFailed _)
      | exact gone_of_frame (frame_decryptData _ _)
      | exact gone_of_frame (frame_modifySync _)
      | exact gone_pagesGet P T _
      | exact gone_createPageFromFirestore P T _ (hnew _)
      | exact gone_mergeAndSavePages P T _ _ _
      | refine keeps_bind (p := fun _ => True) ?_ (fun _ _ => ?_)
      | refine keeps_tryCatch ?_ (fun _ => ?_)
      | split

theorem gone_getDocsPages (P : PageId) (T : Int) (cursor : Bool) :
    Keeps (Gone P T) (getDocsPages T cursor) (fun docs => ∀ d ∈ docs, d.id ≠ P) := by
  unfold getDocsPages
  refine keeps_bind (gone_of_frame frame_nextFault) fun rejected _ => ?_
  simp only []
  have htail : Keeps (Gone P T) (do
      let w ← getWorld
      if cursor = true then pure []
      else
        pure (List.take SYNC_PAGE_LIMIT (sortBy docLe (List.filter (fun d =>
          match d.lastModified with
          | some t1 => decide (T < t1)
          | none => false) w.remote.pages))) : M (List Page))
      (fun docs => ∀ d ∈ docs, d.id ≠ P) := by
    refine keeps_bind keeps_getWorld fun w hw => ?_
    split
    · exact keeps_pure (fun d hd => by cases hd)
    · refine keeps_pure ?_
      intro d hd hid
      have hmem := List.mem_filter.mp (mem_sortBy _ _ _ (List.mem_of_mem_take hd))
      rcases hlm : d.lastModified with _ | t1
      · simp [hlm] at hmem
      · have hlt : T < t1 := by simpa [hlm] using hmem.2
        have hle := hw.2.1 d hmem.1 hid t1 hlm
        omega
  split
  · exact keeps_bind (keeps_throwNew (p := fun _ => True) _) fun _ _ => htail
  · exact keeps_bind (keeps_pure (p := fun _ => True) trivial) fun _ _ => htail

theorem frame_getDocExists (id : PageId) : Frame (getDocExists id) := by
  unfold getDocExists
  refine frame_bind frame_nextFault fun rejected => ?_
  simp only []
  split
  · exact frame_bind (frame_throwNew _) fun _ => frame_bind frame_getWorld fun _ => frame_pure _
  · exact frame_bind (frame_pure _) fun _ => frame_bind frame_getWorld fun _ => frame_pure _

theorem gone_downloadSubBatches (P : PageId) (T : Int) (crypto : Crypto) :
    ∀ (batches : List (List Page)) (l : Option PageId),
      (∀ b ∈ batches, ∀ d ∈ b, d.id ≠ P) →
      Keeps (Gone P T) (downloadSubBatches crypto batches l) (fun _ => True) := by
  intro batches
  induction batches with
  | nil => intro l _; exact keeps_pure trivial
  | cons batch rest ih =>
    intro l h
    rw [downloadSubBatches]
    exact keeps_bind (gone_processDownloadBatch P T crypto batch (h batch (List.mem_cons_self _ _)))
      fun _ _ => keeps_bind (gone_of_frame (frame_saveResumeCheckpoint _ _)) fun _ _ =>
        ih _ fun b hb => h b (List.mem_cons_of_mem _ hb)

theorem gone_downloadLoop (P : PageId) (T : Int) (crypto : Crypto) :
    ∀ fuel l n, Keeps (Gone P T) (downloadLoop crypto T fuel l n) (fun _ => True) := by
  intro fuel
  induction fuel with
  | zero => intro l n; exact keeps_hang
  | succ k ih =>
    intro l n
    rw [downloadLoop]
    simp only []
    have hquery : ∀ c, Keeps (Gone P T) (executeWithRetry (getDocsPages T c) MAX_RETRIES)
        (fun docs => ∀ d ∈ docs, d.id ≠ P) :=
      fun c => keeps_retryLoop (fun _ h => gone_of_frame h) _ (gone_getDocsPages P T c) _ _
    repeat' with_reducible first
      | exact ih _ _
      | exact keeps_pure trivial
      | exact keeps_throwNew _
      | exact keeps_mono keeps_getWorld (fun _ _ => trivial)
      | exact gone_of_frame frame_checkVaultLock
      | exact gone_of_frame (frame_logSyncError _ _ _)
      | exact gone_of_frame (frame_handleSyncRetry _ _)
      | exact gone_of_frame (frame_updateSyncProgress _ _ _)
      | exact gone_of_frame (frame_modifySync _)
      | exact gone_of_frame (frame_getDocExists _)
      | exact gone_downloadSubBatches P T crypto _ _
          (fun b hb d hd => (by assumption : ∀ d ∈ _, d.id ≠ P) d (mem_chunks _ _ _ _ hb hd))
      | refine keeps_bind (hquery _) (fun _ _ => ?_)
      | refine keeps_bind (p := fun _ => True) ?_ (fun _ _ => ?_)
      | refine keeps_tryCatch ?_ (fun _ => ?_)
      | split

theorem gone_downloadFromFirestore (P : PageId) (T : Int) (crypto : Crypto) (fuel : Nat)
    (token : Option PageId) :
    Keeps (Gone P T) (downloadFromFirestore crypto fuel token) (fun _ => True) := by
  unfold downloadFromFirestore
  exact keeps_bind (gone_of_frame (frame_enterPhase _)) fun _ _ =>
    keeps_bind (gone_of_frame (frame_updateSyncProgress _ _ _)) fun _ _ =>
      keeps_bind keeps_getWorld fun w hw => by
        simp only []
        rw [hw.2.2]
        exact gone_downloadLoop P T crypto _ _ _

theorem stagedOk_append (P : PageId) {s : Staged} {data : Page} {ids : List PageId}
    {last : Option PageId} (hs : StagedOk P s) (hd : data.id ≠ P) :
    StagedOk P { ops := s.ops ++ [BatchOp.set data], dexieBatchUpdates := ids,
                 lastSuccessfulId := last } := by
  intro d hmem
  rcases List.mem_append.mp hmem with h | h
  · exact hs d h
  · simp only [List.mem_singleton, BatchOp.set.injEq] at h
    rw [h]
    exact hd

theorem gone_stageUploads (P : PageId) (T : Int) (crypto : Crypto) :
    ∀ (pages : List Page) (staged : Staged), (∀ p ∈ pages, p.id ≠ P) → StagedOk P staged →
      Keeps (Gone P T) (stageUploads crypto pages staged)
        (fun r => ∀ s, r = some s → StagedOk P s) := by
  intro pages
  induction pages with
  | nil =>
    intro staged _ hs
    exact keeps_pure (fun s h => by cases h; exact hs)
  | cons page rest ih =>
    intro staged hp hs
    have hpage : page.id ≠ P := hp page (List.mem_cons_self _ _)
    have hrest : ∀ s, StagedOk P s →
        Keeps (Gone P T) (stageUploads crypto rest s) (fun r => ∀ s, r = some s → StagedOk P s) :=
      fun s h => ih s (fun p hp1 => hp p (List.mem_cons_of_mem _ hp1)) h
    rw [stageUploads]
    simp only []
    refine keeps_bind (gone_of_frame frame_checkVaultLock) fun locked _ => ?_
    split
    · exact keeps_pure (fun s h => by cases h)
    refine keeps_bind (keeps_pure (p := fun _ => True) trivial) fun _ _ => ?_
    refine keeps_bind keeps_getWorld fun w _ => ?_
    split
    · exact hrest staged hs
    · refine keeps_bind (p := StagedOk P) ?_ fun s h => hrest s h
      refine keeps_tryCatch ?_ fun e => ?_
      · refine keeps_bind (gone_of_frame (frame_encryptData _ _)) fun content _ => ?_
        split
        · exact keeps_bind (keeps_pure (p := fun _ => True) trivial) fun _ _ =>
            keeps_pure (stagedOk_append P hs hpage)
        · exact keeps_bind (gone_of_frame frame_readClock) fun _ _ =>
            keeps_bind (keeps_pure (p := fun _ => True) trivial) fun _ _ =>
              keeps_pure (stagedOk_append P hs hpage)
      · exact keeps_bind (gone_of_frame (frame_logSyncError _ _ _)) fun _ _ =>
          keeps_bind (gone_of_frame (frame_pushFailed _)) fun _ _ => keeps_pure hs

theorem gone_markSynced (P : PageId) (T : Int) :
    ∀ ids : List PageId, Keeps (Gone P T) (markSynced ids) (fun _ => True) := by
  intro ids
  induction ids with
  | nil => exact keeps_pure trivial
  | cons id rest ih =>
    rw [markSynced]
    exact keeps_bind (gone_of_frame frame_readClock) fun _ _ =>
      keeps_bind (gone_pagesUpdate P T _ _ fun _ => rfl) fun _ _ => ih

theorem gone_processUploadBatch (P : PageId) (T : Int) (crypto : Crypto) (pageBatch : List Page)
    (hp : ∀ p ∈ pageBatch, p.id ≠ P) :
    Keeps (Gone P T) (processUploadBatch crypto pageBatch) (fun _ => True) := by
  unfold processUploadBatch
  refine keeps_tryCatch ?_ fun e => ?_
  · refine keeps_bind (gone_stageUploads P T crypto pageBatch _ hp (fun _ h => by cases h))
      fun r hr => ?_
    split
    · exact keeps_pure trivial
    · rename_i staged
      have hs : ∀ data, BatchOp.set data ∈ staged.ops → data.id ≠ P := hr staged rfl
      simp only []
      repeat' with_reducible first
        | exact keeps_pure trivial
        | exact gone_commitBatchWithRetry P T _ hs
        | exact gone_markSynced P T _
        | exact gone_of_frame (frame_modifySync _)
        | refine keeps_bind (p := fun _ => True) ?_ (fun _ _ => ?_)
        | split
  · simp only []
    repeat' with_reducible first
      | exact keeps_pure trivial
      | exact keeps_throwNew _
      | exact gone_of_frame (frame_modifySync _)
      | exact gone_of_frame (frame_logSyncError _ _ _)
      | exact gone_of_frame (frame_handleSyncRetry _ _)
      | refine keeps_bind (p := fun _ => True) ?_ (fun _ _ => ?_)
      | split

theorem gone_uploadBatches (P : PageId) (T : Int) (crypto : Crypto) (total : Nat) :
    ∀ (batches : List (List Page)) (n : Nat), (∀ b ∈ batches, ∀ p ∈ b, p.id ≠ P) →
      Keeps (Gone P T) (uploadBatches crypto total batches n) (fun _ => True) := by
  intro batches
  induction batches with
  | nil => intro n _; exact keeps_pure trivial
  | cons batch rest ih =>
    intro n h
    have hrest := fun m => ih m fun b hb => h b (List.mem_cons_of_mem _ hb)
    rw [uploadBatches]
    simp only []
    repeat' with_reducible first
      | exact hrest _
      | exact keeps_pure trivial
      | exact keeps_mono keeps_getWorld (fun _ _ => trivial)
      | exact gone_of_frame frame_checkVaultLock
      | exact gone_of_frame (frame_saveResumeCheckpoint _ _)
      | exact gone_of_frame (frame_updateSyncProgress _ _ _)
      | exact gone_processUploadBatch P T crypto batch (h batch (List.mem_cons_self _ _))
      | refine keeps_bind (p := fun _ => True) ?_ (fun _ _ => ?_)
      | split

theorem gone_uploadFromDexieToFirestore (P : PageId) (T : Int) (crypto : Crypto)
    (token : Option PageId) :
    Keeps (Gone P T) (uploadFromDexieToFirestore crypto token) (fun _ => True) := by
  unfold uploadFromDexieToFirestore
  refine keeps_bind (gone_of_frame (frame_enterPhase _)) fun _ _ => ?_
  refine keeps_bind (gone_of_frame (frame_updateSyncProgress _ _ _)) fun _ _ => ?_
  refine keeps_tryCatch ?_ fun e => ?_
  · refine keeps_bind keeps_getWorld fun w hw => ?_
    simp only []
    have hp1 : ∀ p ∈ pendingPages w.pages, p.id ≠ P :=
      fun p hp => hw.1 p (List.mem_of_mem_filter (mem_sortBy _ _ _ hp))
    have hp2 : ∀ tok, ∀ p ∈ pendingPagesAbove tok w.pages, p.id ≠ P :=
      fun _ p hp => hw.1 p (List.mem_of_mem_filter (mem_sortBy _ _ _ hp))
    have hpend : ∀ p ∈ (match token with
        | some token => if token = "" then pendingPages w.pages
                        else pendingPagesAbove token w.pages
        | none => pendingPages w.pages : List Page), p.id ≠ P := by
      intro p hp
      split at hp
      · split at hp
        · exact hp1 p hp
        · exact hp2 _ p hp
      · exact hp1 p hp
    generalize (match token with
        | some token => if token = "" then pendingPages w.pages
                        else pendingPagesAbove token w.pages
        | none => pendingPages w.pages : List Page) = pending at hpend
    repeat' with_reducible first
      | exact keeps_pure trivial
      | exact gone_of_frame (frame_modifySync _)
      | exact gone_of_frame (frame_updateSyncProgress _ _ _)
      | exact gone_uploadBatches P T crypto _ _ _
          (fun b hb p hp => hpend p (mem_chunks _ _ _ _ hb hp))
      | refine keeps_bind (p := fun _ => True) ?_ (fun _ _ => ?_)
      | split
  · exact keeps_bind (gone_of_frame (frame_logSyncError _ _ _)) fun _ _ => keeps_throwNew _

theorem no_set_in_deletes (P : PageId) (ids : List PageId) :
    ∀ data, BatchOp.set data ∈ ids.map BatchOp.delete → data.id ≠ P := by
  intro data h
  simp only [List.mem_map] at h
  obtain ⟨_, _, h⟩ := h
  cases h

theorem gone_deleteBatches (P : PageId) (T : Int) (total : Nat) :
    ∀ (batches : List (List PageId)) (n : Nat) (processed : List PageId),
      Keeps (Gone P T) (deleteBatches total batches n processed) (fun _ => True) := by
  intro batches
  induction batches with
  | nil => intro n processed; exact keeps_pure trivial
  | cons batch rest ih =>
    intro n processed
    rw [deleteBatches]
    simp only []
    repeat' with_reducible first
      | exact ih _ _
      | exact keeps_pure trivial
      | exact keeps_mono keeps_getWorld (fun _ _ => trivial)
      | exact gone_of_frame frame_checkVaultLock
      | exact gone_of_frame (frame_modifySync _)
      | exact gone_of_frame (frame_updateSyncProgress _ _ _)
      | exact gone_commitBatchWithRetry P T _ (no_set_in_deletes P _)
      | refine keeps_bind (p := fun _ => True) ?_ (fun _ _ => ?_)
      | split

theorem frame_getDeletedPageIds : Frame getDeletedPageIds := fun _ => ⟨rfl, rfl, rfl⟩

theorem frame_clearDeletedPageId (id : PageId) : Frame (clearDeletedPageId id) := by
  unfold clearDeletedPageId
  exact frame_bind frame_getDeletedPageIds fun _ => frame_modifyStore _ fun _ => rfl

theorem frame_clearDeletedPageIds : ∀ ids : List PageId, Frame (clearDeletedPageIds ids) := by
  intro ids
  induction ids with
  | nil => exact frame_pure _
  | cons id rest ih =>
    rw [clearDeletedPageIds]
    exact frame_bind (frame_clearDeletedPageId id) fun _ => ih

theorem gone_handleDeletions (P : PageId) (T : Int) (token : Option PageId) :
    Keeps (Gone P T) (handleDeletions token) (fun _ => True) := by
  unfold handleDeletions
  simp only []
  repeat' with_reducible first
    | exact keeps_pure trivial
    | exact keeps_throwNew _
    | exact gone_of_frame (frame_enterPhase _)
    | exact gone_of_frame frame_getDeletedPageIds
    | exact gone_of_frame (frame_modifySync _)
    | exact gone_of_frame (frame_updateSyncProgress _ _ _)
    | exact gone_of_frame (frame_logSyncError _ _ _)
    | exact gone_of_frame (frame_clearDeletedPageIds _)
    | exact gone_deleteBatches P T _ _ _ _
    | refine keeps_bind (p := fun _ => True) ?_ (fun _ _ => ?_)
    | refine keeps_tryCatch ?_ (fun _ => ?_)
    | split

/-- The run of `deleteTombstoned`: it returns, and removes from the local
table the records named by the tombstones. -/
theorem deleteTombstoned_run :
    ∀ (ts : List Tombstone) (w : World),
      deleteTombstoned ts w =
        (Res.ok (), { w with pages := w.pages.filter fun p => ∀ t ∈ ts, p.id ≠ t.pageId }) := by
  intro ts
  induction ts with
  | nil => intro w; simp [deleteTombstoned, pure, M.pure]
  | cons t rest ih =>
    intro w
    rw [deleteTombstoned, bind_run]
    simp only [tryCatch, pagesDelete, modifyWorld, ih, List.filter_filter]
    congr 2
    apply List.filter_congr
    intro p _
    simp only [List.mem_cons, forall_eq_or_imp, Bool.decide_and, decide_not, ne_eq]
    rw [Bool.and_comm]

theorem mem_insertBy_self {α : Type} (le : α → α → Bool) (a : α) (xs : List α) :
    a ∈ insertBy le a xs := by
  induction xs with
  | nil => simp [insertBy]
  | cons b rest ih =>
    unfold insertBy
    split
    · exact List.mem_cons_of_mem _ ih
    · exact List.mem_cons_self _ _

theorem mem_insertBy_of_mem {α : Type} (le : α → α → Bool) (a x : α) (xs : List α)
    (h : x ∈ xs) : x ∈ insertBy le a xs := by
  induction xs with
  | nil => cases h
  | cons b rest ih =>
    unfold insertBy
    split
    · rcases List.mem_cons.mp h with h | h
      · exact h ▸ List.mem_cons_self _ _
      · exact List.mem_cons_of_mem _ (ih h)
    · exact List.mem_cons_of_mem _ h

theorem mem_foldl_insertBy_of_mem {α : Type} (le : α → α → Bool) (x : α) (xs : List α) :
    ∀ init : List α, x ∈ init ∨ x ∈ xs → x ∈ xs.foldl (fun acc a => insertBy le a acc) init := by
  induction xs with
  | nil =>
    intro init h
    rcases h with h | h
    · exact h
    · cases h
  | cons b rest ih =>
    intro init h
    apply ih
    rcases h with h | h
    · exact Or.inl (mem_insertBy_of_mem le b x init h)
    · rcases List.mem_cons.mp h with h | h
      · exact Or.inl (h ▸ mem_insertBy_self le b init)
      · exact Or.inr h

theorem mem_sortBy_of_mem {α : Type} (le : α → α → Bool) (x : α) (xs : List α) (h : x ∈ xs) :
    x ∈ sortBy le xs :=
  mem_foldl_insertBy_of_mem le x xs [] (Or.inr h)

theorem gone_after_processRemoteDeletions (t : Tombstone) (w : World)
    (h : TombstoneDue t w) :
    (processRemoteDeletions w).1 = Res.ok () ∧
      Gone t.pageId (w.store.lastSyncTime.getD 0) (processRemoteDeletions w).2 := by
  obtain ⟨hmem, hnew, hfault, hdocs⟩ := h
  have hin : t ∈ sortBy tombstoneLe
      (w.remote.deletedPages.filter fun t1 => decide (w.store.lastSyncTime.getD 0 < t1.deletedAt)) :=
    mem_sortBy_of_mem _ _ _ (List.mem_filter.mpr ⟨hmem, by simpa using hnew⟩)
  have hne : 0 < (sortBy tombstoneLe
      (w.remote.deletedPages.filter fun t1 =>
        decide (w.store.lastSyncTime.getD 0 < t1.deletedAt))).length :=
    List.length_pos_of_mem hin
  unfold faultAhead at hfault
  rcases hfa : w.oracle.faults with _ | ⟨f, rest⟩ <;> rw [hfa] at hfault <;>
    simp only at hfault <;>
    simp only [processRemoteDeletions, fetchNewTombstones, enterPhase, tryCatch, nextFault, hfa,
      hfault, bind, M.bind, pure, M.pure, getWorld, modifyWorld, throwNew, Bool.false_eq_true,
      if_false, hne, if_true, deleteTombstoned_run, gt_iff_lt] <;>
    refine ⟨trivial, ?_, hdocs, rfl⟩ <;>
    intro p hp <;>
    exact (of_decide_eq_true (List.mem_filter.mp hp).2) t hin

theorem after_bind_keeps {α β : Type} {I : World → Prop} {m : M α} {f : α → M β}
    {q : β → Prop} {w : World} (hm : I (m w).2) (hf : ∀ a, Keeps I (f a) q) :
    I ((m >>= f) w).2 := by
  rw [bind_run]
  rcases hmw : m w with ⟨r, w1⟩
  rw [hmw] at hm
  cases r with
  | ok a => exact (hf a w1 hm).1
  | throw e => exact hm
  | hang => exact hm

theorem after_tryCatch {α : Type} {I : World → Prop} {body : M α} {handler : String → M α}
    {q : α → Prop} {w : World} (hb : I (body w).2) (hc : ∀ e, Keeps I (handler e) q) :
    I (tryCatch body handler w).2 := by
  unfold tryCatch
  rcases hmw : body w with ⟨r, w1⟩
  rw [hmw] at hb
  cases r with
  | ok a => exact hb
  | throw e => exact (hc e w1 hb).1
  | hang => exact hb

theorem after_tryFinally {α : Type} {I : World → Prop} {body : M α} {fin : World → World}
    {w : World} (hb : I (body w).2) (hfin : ∀ w, I w → I (fin w)) :
    I (tryFinally body fin w).2 := by
  unfold tryFinally
  rcases hmw : body w with ⟨r, w1⟩
  rw [hmw] at hb
  cases r with
  | ok a => exact hfin _ hb
  | throw e => exact hfin _ hb
  | hang => exact hb

theorem gone_after_runAllPhases (crypto : Crypto) (fuel : Nat) (t : Tombstone) (w : World)
    (h : TombstoneDue t w) : NoLocal t.pageId (runAllPhases crypto fuel none w).2 := by
  obtain ⟨hok, hgone⟩ := gone_after_processRemoteDeletions t w h
  unfold runAllPhases
  rw [bind_run]
  rcases hm : processRemoteDeletions w with ⟨r, w1⟩
  rw [hm] at hok hgone
  simp only at hok hgone
  subst hok
  exact ((keeps_bind (gone_uploadFromDexieToFirestore _ _ crypto none) fun _ _ =>
    keeps_bind (gone_handleDeletions _ _ none) fun _ _ =>
      gone_downloadFromFirestore _ _ crypto fuel none) w1 hgone).1.1

theorem noLocal_modifyStore {P : PageId} (f : Metadata → Metadata) :
    Keeps (NoLocal P) (modifyStore f) (fun _ => True) :=
  noLocal_of_pages fun _ => rfl

theorem frame_scheduleRecovery : Frame scheduleRecovery := by
  intro w
  unfold scheduleRecovery modifyWorld
  by_cases h : (!w.sync.aborted) = true <;> simp [h]

theorem frame_getCompletionStats : Frame getCompletionStats := by
  unfold getCompletionStats
  exact frame_bind frame_getWorld fun _ => frame_bind frame_readClock fun _ =>
    frame_bind frame_readClock fun _ => frame_pure _

/-- Claim C10, amended. A plain sync of a device that has no checkpoint
removes the page of a tombstone from the local table when the tombstone is
later than the device's `lastSyncTime`, the tombstone query is not rejected
and the remote collection holds no document of the page later than that
`lastSyncTime`: in the world the call leaves (whatever its outcome, given at
least one step) the local table has no record with that id, the tombstone
phase having removed it and no later phase having created it again. -/
theorem tombstone_removes_page (crypto : Crypto) (fuel : Nat) (w : World) (t : Tombstone)
    (hprog : w.sync.inProgress = false) (huser : w.currentUser.isSome = true)
    (hkey : w.userVaultKey = true) (hcp : w.store.pendingSyncJob = none)
    (hdue : TombstoneDue t w) :
    ∀ p ∈ (syncDexieToFirestore crypto (fuel + 1) none false w).2.pages, p.id ≠ t.pageId := by
  have hnone : w.currentUser.isNone = false := by
    cases hu : w.currentUser <;> simp_all
  show NoLocal t.pageId (syncDexieToFirestore crypto (fuel + 1) none false w).2
  unfold syncDexieToFirestore
  simp only [getWorld_bind, hprog, hnone, hkey, Bool.false_eq_true, if_false, m_pure_bind,
    Bool.not_true, modifyWorld_bind, readClock_bind, resetSyncState, modifySync]
  refine after_tryFinally ?_ (fun w hw => hw)
  refine after_tryCatch (q := fun _ => True) ?_ ?_
  · simp only [getWorld_bind, Bool.false_eq_true, if_false, hcp]
    refine after_bind_keeps (q := fun _ => True) ?_ ?_
    · unfold startNewSyncJob
      rw [jobFrom]
      rw [getWorld_bind]
      simp only [Bool.false_eq_true, if_false, hcp]
      refine after_tryCatch (q := fun _ => True) ?_ ?_
      · exact gone_after_runAllPhases crypto fuel t _ hdue
      · intro e
        exact keeps_bind (noLocal_of_frame (frame_logSyncError _ _ _)) fun _ _ =>
          keeps_throwNew _
    · intro _
      repeat' with_reducible first
        | exact keeps_pure trivial
        | exact keeps_mono keeps_getWorld (fun _ _ => trivial)
        | exact noLocal_modifyStore _
        | exact noLocal_of_frame frame_readClock
        | exact noLocal_of_frame frame_getCompletionStats
        | refine keeps_bind (p := fun _ => True) ?_ (fun _ _ => ?_)
        | split
  · intro e
    exact keeps_bind (noLocal_of_frame frame_saveCheckpoint) fun _ _ =>
      keeps_bind (noLocal_of_frame frame_scheduleRecovery) fun _ _ => keeps_pure trivial

/-! ## Properties of the merge policy -/

/-- Claim C3. The content of the page that `mergeAndSavePages` prepares: when
the remote `lastModified` is strictly later and the local page is not pending,
the decrypted remote content; when the remote is strictly later and the local
page is pending, the longer of the two contents (the local one when the lengths
are equal), with `pendingSync` 1; when the local page is newer or of the same
age, the local content. Whenever a page is prepared, its content is one of the
two input contents. -/
theorem mergedPage_content (localPage remotePage : Page) (decrypted : Option String) :
    (dateGt remotePage.lastModified localPage.lastModified = true → localPage.pendingSync ≠ 1 →
      ∃ m, mergedPage localPage remotePage decrypted = Except.ok m ∧ m.content = decrypted) ∧
    (dateGt remotePage.lastModified localPage.lastModified = true → localPage.pendingSync = 1 →
      ∀ r l : String, decrypted = some r → localPage.content = some l →
      ∃ m, mergedPage localPage remotePage decrypted = Except.ok m ∧
        m.content = some (if jsLength r > jsLength l then r else l) ∧ m.pendingSync = 1) ∧
    (dateGt remotePage.lastModified localPage.lastModified = false →
      ∃ m, mergedPage localPage remotePage decrypted = Except.ok m ∧
        m.content = localPage.content) ∧
    (∀ m, mergedPage localPage remotePage decrypted = Except.ok m →
      m.content = decrypted ∨ m.content = localPage.content) := by
  refine ⟨?_, ?_, ?_, ?_⟩
  · intro hg hp
    simp [mergedPage, hg, hp, Except.map]
  · intro hg hp r l hr hl
    by_cases h : r = l
    · subst h
      simp [mergedPage, hg, hp, hr, hl, Except.map]
    · simp [mergedPage, hg, hp, hr, hl, h, Except.map]
      split <;> rfl
  · intro hg
    simp only [mergedPage, hg]
    simp
    split_ifs <;> simp
  · intro m hm
    unfold mergedPage at hm
    by_cases hg : dateGt remotePage.lastModified localPage.lastModified = true
    · simp only [hg, if_true] at hm
      by_cases hp : localPage.pendingSync = 1
      · simp only [hp, if_true] at hm
        by_cases hd : decrypted = localPage.content
        · simp [hd, Except.map] at hm
          subst hm; simp
        · rcases decrypted with _ | r <;> rcases hl : localPage.content with _ | l <;>
            simp [hl, Except.map] at hm hd
          simp only [hd, if_false] at hm
          simp at hm
          subst hm
          simp
          by_cases hlen : jsLength l < jsLength r
          · left; intro h; omega
          · right; intro h; omega
      · simp [hp, Except.map] at hm
        subst hm; simp
    · simp only [hg] at hm
      simp at hm
      subst hm
      split_ifs <;> simp

/-- Instance of C3: a pending local page "abc" (modified at 1000) against a
newer remote page (modified at 2000) whose decrypted content is "abcdef":
the longer remote text is chosen and the page stays pending. -/
theorem mergedPage_content_witness :
    ∃ m, mergedPage (mkPage "p1" (some "abc") 1000 1) (mkPage "p1" (some "enc:abcdef") 2000 0)
          (some "abcdef") = Except.ok m ∧
      m.content = some (if jsLength "abcdef" > jsLength "abc" then "abcdef" else "abc") ∧
      m.pendingSync = 1 :=
  (mergedPage_content (mkPage "p1" (some "abc") 1000 1) (mkPage "p1" (some "enc:abcdef") 2000 0)
      (some "abcdef")).2.1 (by decide) (by decide) "abcdef" "abc" rfl rfl

/-- Claim C4. A pending local page whose content differs from the remote
content is to be merged; two pages with the same content, name and order whose
timestamps are at most 60 seconds apart are not. -/
theorem shouldMergePages_precedence (localPage remotePage : Page) :
    (localPage.pendingSync = 1 → localPage.content ≠ remotePage.content →
      shouldMergePages localPage remotePage = true) ∧
    (localPage.content = remotePage.content → localPage.name = remotePage.name →
      localPage.order = remotePage.order →
      ∀ tl tr : Int, localPage.lastModified = some tl → remotePage.lastModified = some tr →
      (tl - tr).natAbs ≤ 60000 →
      shouldMergePages localPage remotePage = false) := by
  constructor
  · intro hp hc
    simp [shouldMergePages, hp, hc]
  · intro hc hn ho tl tr hl hr hd
    have : ¬ (60000 < (tl - tr).natAbs) := by omega
    simp [shouldMergePages, hc, hn, ho, hl, hr, timeDiff, exceeds, this]

/-- Instance of C4: a pending page with other content is merged, and a page
identical to the remote one and modified 60 seconds earlier is not. -/
theorem shouldMergePages_precedence_witness :
    shouldMergePages (mkPage "p1" (some "mine") 1000 1) (mkPage "p1" (some "theirs") 1000 0) = true ∧
    shouldMergePages (mkPage "p1" (some "same") 1000 0) (mkPage "p1" (some "same") 61000 0) = false :=
  ⟨(shouldMergePages_precedence (mkPage "p1" (some "mine") 1000 1)
      (mkPage "p1" (some "theirs") 1000 0)).1 (by decide) (by decide),
   (shouldMergePages_precedence (mkPage "p1" (some "same") 1000 0)
      (mkPage "p1" (some "same") 61000 0)).2 rfl rfl rfl 1000 61000 rfl rfl (by decide)⟩

/-- Counterexample to C5 as stated: a pending local page whose content, name
and order equal the remote ones, the first merge rule therefore not applying,
with timestamps 120 seconds apart, is not merged. -/
theorem shouldMergePages_pending_equal_not_merged :
    ¬ (∀ localPage remotePage : Page,
        ¬ (localPage.pendingSync = 1 ∧
            (localPage.content ≠ remotePage.content ∨ localPage.name ≠ remotePage.name ∨
              localPage.order ≠ remotePage.order)) →
        exceeds (timeDiff localPage.lastModified remotePage.lastModified) 60000 = true →
        shouldMergePages localPage remotePage = true) := by
  intro h
  have := h (mkPage "p1" (some "same") 1000 1) (mkPage "p1" (some "same") 121000 1)
    (by decide) (by decide)
  revert this
  decide

/-- Claim C5, amended. For a local page that is not pending, timestamps more
than 60 seconds apart make `shouldMergePages` return true; for a pending local
page whose content, name and order equal the remote ones it returns false,
whatever the timestamps. -/
theorem shouldMergePages_time_rule (localPage remotePage : Page) :
    (localPage.pendingSync ≠ 1 →
      exceeds (timeDiff localPage.lastModified remotePage.lastModified) 60000 = true →
      shouldMergePages localPage remotePage = true) ∧
    (localPage.pendingSync = 1 → localPage.content = remotePage.content →
      localPage.name = remotePage.name → localPage.order = remotePage.order →
      shouldMergePages localPage remotePage = false) := by
  constructor
  · intro hp ht
    simp [shouldMergePages, hp, ht]
  · intro hp hc hn ho
    simp [shouldMergePages, hp, hc, hn, ho]

/-- Instance of the amended C5 on timestamps 120 seconds apart. -/
theorem shouldMergePages_time_rule_witness :
    shouldMergePages (mkPage "p1" (some "same") 1000 0) (mkPage "p1" (some "same") 121000 0) = true ∧
    shouldMergePages (mkPage "p1" (some "same") 1000 1) (mkPage "p1" (some "same") 121000 1) = false :=
  ⟨(shouldMergePages_time_rule (mkPage "p1" (some "same") 1000 0)
      (mkPage "p1" (some "same") 121000 0)).1 (by decide) (by decide),
   (shouldMergePages_time_rule (mkPage "p1" (some "same") 1000 1)
      (mkPage "p1" (some "same") 121000 1)).2 rfl rfl rfl rfl⟩

/-! ## Runs of the engine on the worked examples -/

/-- What `mergeAndSavePages` leaves in the local table when a merged page has
been prepared: the record of the local id gets the merged content, the current
time as `lastModified` and `pendingSync` 1; the other fields of the merged
page (name, order, `lastModified`, `syncStatus`) are not written. -/
theorem mergeAndSavePages_writes (localPage remotePage merged : Page)
    (decrypted : Option String) (w : World)
    (h : mergedPage localPage remotePage decrypted = Except.ok merged) :
    mergeAndSavePages localPage remotePage decrypted w =
      (Res.ok (), { w with
        pages := w.pages.map fun p =>
          if p.id = localPage.id then
            { p with content := merged.content, lastModified := some w.now, pendingSync := 1 }
          else p
        now := w.now + w.tick }) := by
  simp [mergeAndSavePages, h, tryCatch, savePage, pagesUpdate, modifyWorld, readClock, bind,
    M.bind, pure, M.pure]

/-- Claim C1, the run that contradicts it. The remote version of "p1" is marked
encrypted and does not decrypt; the local copy is not pending and older.
`decryptData` returns `null` instead of throwing, so the handler that records
the failure is not run: `failedItems` stays empty, the document counts as
processed, and the local content is replaced by `null`. -/
theorem decrypt_failure_overwrites_local_page :
    sampleCrypto.decrypt "garbage" = none ∧
    (processDownloadBatch sampleCrypto [garbledDoc] deviceWithNote).1 = Res.ok () ∧
    (processDownloadBatch sampleCrypto [garbledDoc] deviceWithNote).2.sync.failedItems = [] ∧
    (processDownloadBatch sampleCrypto [garbledDoc] deviceWithNote).2.sync.processedItems = 1 ∧
    (processDownloadBatch sampleCrypto [garbledDoc] deviceWithNote).2.pages.map
      (fun p => (p.id, p.content)) = [("p1", none)] := by
  decide

/-- Claim C2, the run that contradicts it. The remote version is strictly newer
and the merged page carries the remote name, order and `lastModified` with
`pendingSync` 0; the record left in the local table keeps the local name and
order, has the time of the save as `lastModified`, `pendingSync` 1 and no
`syncStatus`. -/
theorem merge_save_drops_metadata :
    mergedPage olderLocal newerRemote (some "new") =
      Except.ok { olderLocal with content := some "new", name := some "Renamed",
                                  order := some 2, lastModified := some 2000 } ∧
    (mergeAndSavePages olderLocal newerRemote (some "new") deviceWithOlder).1 = Res.ok () ∧
    (mergeAndSavePages olderLocal newerRemote (some "new") deviceWithOlder).2.pages =
      [{ olderLocal with content := some "new", lastModified := some 5000, pendingSync := 1 }] :=
  ⟨rfl, by decide, by decide⟩

/-- Claim C6, the run that contradicts it. The encryption of the only page of
the batch fails; `encryptData` returns `null` instead of throwing, so the page
is staged with a `null` content, committed, and marked synced locally, and its
id is not in `failedItems`. -/
theorem encrypt_failure_uploads_null :
    failingCrypto.encrypt pendingNote.content = none ∧
    (processUploadBatch failingCrypto [pendingNote] (deviceWithPending calmOracle)).1 =
      Res.ok (some "p1") ∧
    (processUploadBatch failingCrypto [pendingNote] (deviceWithPending calmOracle)).2.remote.pages =
      [{ pendingNote with content := none, isEncrypted := 1 }] ∧
    (processUploadBatch failingCrypto [pendingNote] (deviceWithPending calmOracle)).2.pages =
      [{ pendingNote with pendingSync := 0, syncStatus := some "synced",
                          lastSynced := some 5000 }] ∧
    (processUploadBatch failingCrypto [pendingNote]
      (deviceWithPending calmOracle)).2.sync.failedItems = [] := by
  decide

/-- The part of C6 on a failed commit, on the same batch: when every attempt
of the commit is rejected, the id is in `failedItems`, nothing is uploaded and
the page stays pending. -/
theorem commit_failure_keeps_pending :
    (processUploadBatch sampleCrypto [pendingNote] (deviceWithPending offlineOracle)).1 =
      Res.ok none ∧
    (processUploadBatch sampleCrypto [pendingNote]
      (deviceWithPending offlineOracle)).2.sync.failedItems = ["p1"] ∧
    (processUploadBatch sampleCrypto [pendingNote]
      (deviceWithPending offlineOracle)).2.remote.pages = [] ∧
    (processUploadBatch sampleCrypto [pendingNote] (deviceWithPending offlineOracle)).2.pages =
      [pendingNote] := by
  decide

/-- Claim C7, the run that contradicts it. The vault is locked before the first
vault check of the upload phase. `checkVaultLock` stores a checkpoint and the
phases return; `syncDexieToFirestore` then removes the checkpoint, advances
`lastSyncTime` and returns `success: true`, the page being still pending. -/
theorem vault_lock_reported_as_success :
    (syncDexieToFirestore sampleCrypto 5 none false
      (deviceWithPending { calmOracle with lockAfter := some 0 })).1 =
      Res.ok { success := true, reason := none, error := none,
               stats := some { jobId := some 1, totalProcessed := 0, failedItems := 0,
                               duration := 5, timestamp := 5006 } } ∧
    (syncDexieToFirestore sampleCrypto 5 none false
      (deviceWithPending { calmOracle with lockAfter := some 0 })).2.store.pendingSyncJob = none ∧
    (syncDexieToFirestore sampleCrypto 5 none false
      (deviceWithPending { calmOracle with lockAfter := some 0 })).2.store.lastSyncTime
        = some 5002 ∧
    (syncDexieToFirestore sampleCrypto 5 none false
      (deviceWithPending { calmOracle with lockAfter := some 0 })).2.sync.aborted = true ∧
    (syncDexieToFirestore sampleCrypto 5 none false
      (deviceWithPending { calmOracle with lockAfter := some 0 })).2.pages = [pendingNote] := by
  decide!

/-- Claim C9, the run that contradicts it. A device with one pending page
syncs twice in a row, nothing else touching either store. The first sync
uploads the page and then downloads its own upload, which `mergeAndSavePages`
saves with `pendingSync` 1; the second sync therefore uploads the page again:
it processes one item. -/
theorem second_sync_processes_an_item :
    (syncDexieToFirestore sampleCrypto 5 none false (deviceWithPending calmOracle)).1 =
      Res.ok { success := true, reason := none, error := none,
               stats := some { jobId := some 1, totalProcessed := 2, failedItems := 0,
                               duration := 7, timestamp := 5008 } } ∧
    (syncDexieToFirestore sampleCrypto 5 none false (deviceWithPending calmOracle)).2.pages.map
      (fun p => p.pendingSync) = [1] ∧
    (syncDexieToFirestore sampleCrypto 5 none false
      (syncDexieToFirestore sampleCrypto 5 none false (deviceWithPending calmOracle)).2).1 =
      Res.ok { success := true, reason := none, error := none,
               stats := some { jobId := some 2, totalProcessed := 1, failedItems := 0,
                               duration := 6, timestamp := 5016 } } := by
  decide!

/-- Instance of the amended C10: the second device, last synced at 4000, runs
a sync against the tombstone dated 5001. -/
theorem tombstone_removes_page_witness :
    TombstoneDue { pageId := "p1", deletedAt := 5001 } (peerDevice 4000) ∧
    "p1" ∉ (syncDexieToFirestore sampleCrypto 5 none false (peerDevice 4000)).2.pages.map
      (fun p => p.id) :=
  have hdue : TombstoneDue { pageId := "p1", deletedAt := 5001 } (peerDevice 4000) :=
    ⟨by decide, by decide, by decide, fun d hd =>
      absurd hd (by
        rw [show (peerDevice 4000).remote.pages = [] from by decide]
        exact List.not_mem_nil d)⟩
  ⟨hdue, fun h =>
    match List.mem_map.mp h with
    | ⟨p, hp, hid⟩ =>
      tombstone_removes_page sampleCrypto 4 (peerDevice 4000) { pageId := "p1", deletedAt := 5001 }
        rfl rfl rfl rfl hdue p hp hid⟩

/-- The other conditions of the amended C10 are needed as well. With the
tombstone later than `lastSyncTime` in all three runs, the second device still
holds "p1" after a successful sync when the job resumes an `uploading`
checkpoint (the tombstone phase is not run), when the tombstone query is
rejected (the error is swallowed and `lastSyncTime` moves past the tombstone),
and when the remote collection holds a newer document of the page (the
download phase creates the page again). -/
theorem tombstone_conditions_needed :
    (syncDexieToFirestore sampleCrypto 5 none false resumingPeer).2.pages.map (fun p => p.id)
      = ["p1"] ∧
    (syncDexieToFirestore sampleCrypto 5 none false resumingPeer).2.phaseLog
      = ["uploading", "deleting"] ∧
    (syncDexieToFirestore sampleCrypto 5 none false flakyPeer).2.pages.map (fun p => p.id)
      = ["p1"] ∧
    (syncDexieToFirestore sampleCrypto 5 none false flakyPeer).2.store.lastSyncTime
      = some 7001 ∧
    (syncDexieToFirestore sampleCrypto 5 none false peerWithNewerDocument).2.pages.map
      (fun p => (p.id, p.lastModified)) = [("p1", some 4500)] := by
  decide!

/-- Counterexample to C10 as stated. The first device has deleted "p1" and
synced: the tombstone (dated 5001) is uploaded and the remote document is
gone. The second device holds "p1" and its last sync is dated 6000; its sync
asks for the tombstones later than that date, gets none, returns successfully
and still holds "p1". -/
theorem tombstone_older_than_last_sync_is_missed :
    remoteAfterDelete = { pages := [], deletedPages := [{ pageId := "p1", deletedAt := 5001 }] } ∧
    (syncDexieToFirestore sampleCrypto 5 none false (peerDevice 6000)).1 =
      Res.ok { success := true, reason := none, error := none,
               stats := some { jobId := some 1, totalProcessed := 0, failedItems := 0,
                               duration := 4, timestamp := 7005 } } ∧
    (syncDexieToFirestore sampleCrypto 5 none false (peerDevice 6000)).2.pages =
      [mkPage "p1" (some "text") 1000 0] := by
  decide!

/-! ## The rule of the pending flag under the store operations -/

theorem clocked_pagesUpdate (id : PageId) (changes : Page → Page) (w : World) (t : Int)
    (hw : ClockedInvariant w) (ht : w.now ≤ t)
    (hc : ∀ p ∈ w.pages, p.id = id → pendingStamped (changes p) = true ∧
      ∀ s, (changes p).lastSynced = some s → s < t) :
    ClockedInvariant
      { w with now := t, pages := w.pages.map fun p => if p.id = id then changes p else p } := by
  obtain ⟨hp, hs, htick⟩ := hw
  refine ⟨?_, ?_, htick⟩
  · intro p hmem
    simp only [List.mem_map] at hmem
    obtain ⟨q, hq, rfl⟩ := hmem
    split
    · next h => exact (hc q hq h).1
    · exact hp q hq
  · intro p hmem s hps
    simp only [List.mem_map] at hmem
    obtain ⟨q, hq, rfl⟩ := hmem
    split at hps
    · next h => exact (hc q hq h).2 s hps
    · exact lt_of_lt_of_le (hs q hq s hps) ht

theorem clocked_savePage (id : PageId) (content : Option String) :
    Keeps ClockedInvariant (savePage id content) (fun _ => True) := by
  intro w hw
  refine ⟨?_, fun _ _ => trivial⟩
  have htick := hw.2.2
  refine clocked_pagesUpdate id _ w (w.now + w.tick) hw (by omega) ?_
  intro p hp _
  constructor
  · have := hw.2.1 p hp
    simp only [pendingStamped]
    cases h : p.lastSynced with
    | none => simp
    | some s => simpa using this s h
  · intro s hs
    have := hw.2.1 p hp s hs
    omega

theorem clocked_updatePage (id : PageId) (updates : Page → Page) (w : World)
    (hw : ClockedInvariant w) (h : StampsAfterSync id updates w) :
    ClockedInvariant (updatePage id updates w).2 := by
  refine clocked_pagesUpdate id _ w w.now hw le_rfl ?_
  intro p hp hid
  refine ⟨(h p hp hid).2, ?_⟩
  intro s hs
  have h1 : p.lastSynced = some s := by rw [← (h p hp hid).1]; exact hs
  exact hw.2.1 p hp s h1

theorem clocked_markSynced :
    ∀ ids : List PageId, Keeps ClockedInvariant (markSynced ids) (fun _ => True) := by
  intro ids
  induction ids with
  | nil => exact keeps_pure trivial
  | cons id rest ih =>
    rw [markSynced]
    intro w hw
    have htick := hw.2.2
    refine ih _ (clocked_pagesUpdate id _ w (w.now + w.tick) hw (by omega) ?_)
    intro p _ _
    refine ⟨rfl, ?_⟩
    intro s hs
    simp only [Option.some.injEq] at hs
    omega

theorem clocked_of_clock {α : Type} {m : M α}
    (h : ∀ w, (m w).2.pages = w.pages ∧ (m w).2.tick = w.tick ∧ w.now ≤ (m w).2.now) :
    Keeps ClockedInvariant m (fun _ => True) := by
  intro w hw
  refine ⟨?_, fun _ _ => trivial⟩
  obtain ⟨h1, h2, h3⟩ := h w
  unfold ClockedInvariant PendingInvariant SyncedBefore
  rw [h1, h2]
  exact ⟨hw.1, fun p hp s hs => lt_of_lt_of_le (hw.2.1 p hp s hs) h3, hw.2.2⟩

theorem clocked_mergeAndSavePages (localPage remotePage : Page) (d : Option String) :
    Keeps ClockedInvariant (mergeAndSavePages localPage remotePage d) (fun _ => True) := by
  unfold mergeAndSavePages
  refine keeps_tryCatch ?_ fun e => ?_
  · split
    · exact keeps_throwNew _
    · exact keeps_bind (clocked_savePage _ _) fun _ _ => keeps_pure trivial
  · refine keeps_bind (clocked_of_clock fun w => ⟨rfl, rfl, ?_⟩) fun _ _ =>
      keeps_bind (clocked_of_clock fun w => ⟨rfl, rfl, le_rfl⟩) fun _ _ => keeps_throwNew _
    show w.now ≤ w.now + (w.tick : Int)
    omega


/-- C11 (amended): on a device whose clock moves forward at each reading and is
ahead of every `lastSynced` of the local table, the rule "a record flagged
`pendingSync = 1` has no `lastSynced`, or a `lastModified` later than it"
holds for every record after `savePage`, after the updates that follow a
committed upload batch and after `mergeAndSavePages`, if it held before; after
`updatePage` it holds if the updates leave `lastSynced` alone and bring a
`lastModified` later than it. -/
theorem pending_invariant_kept (pageId : PageId) (content : Option String)
    (ids : List PageId) (localPage remotePage : Page) (decrypted : Option String)
    (updates : Page → Page) (w : World) (hw : ClockedInvariant w) :
    ClockedInvariant (savePage pageId content w).2 ∧
    ClockedInvariant (markSynced ids w).2 ∧
    ClockedInvariant (mergeAndSavePages localPage remotePage decrypted w).2 ∧
    (StampsAfterSync pageId updates w → ClockedInvariant (updatePage pageId updates w).2) :=
  ⟨(clocked_savePage pageId content w hw).1, (clocked_markSynced ids w hw).1,
    (clocked_mergeAndSavePages localPage remotePage decrypted w hw).1,
    clocked_updatePage pageId updates w hw⟩

/-- The rule is kept on the device that holds the synced page "p1", at 6000,
by a save, by the post-commit update, by a merge with a remote version and by
a renaming that carries the time 6000. -/
theorem pending_invariant_kept_witness :
    ClockedInvariant (syncedDevice 6000) ∧
    StampsAfterSync "p1" stampedRename (syncedDevice 6000) ∧
    ClockedInvariant (savePage "p1" (some "new text") (syncedDevice 6000)).2 ∧
    ClockedInvariant (markSynced ["p1"] (syncedDevice 6000)).2 ∧
    ClockedInvariant (mergeAndSavePages syncedNote newerRemote (some "remote text")
      (syncedDevice 6000)).2 ∧
    ClockedInvariant (updatePage "p1" stampedRename (syncedDevice 6000)).2 :=
  have h := pending_invariant_kept "p1" (some "new text") ["p1"] syncedNote newerRemote
    (some "remote text") stampedRename (syncedDevice 6000) (by decide)
  ⟨by decide, by decide, h.1, h.2.1, h.2.2.1, h.2.2.2 (by decide)⟩

/-- C11 (counterexample): the device holds the page "p1", modified at 1000 and
synced at 5000, not pending. At 6000 `updatePage("p1", { name: "Renamed" })`
flags the record and leaves `lastModified` at 1000, earlier than
`lastSynced`. And `savePage` called while the clock still shows 5000 stamps
`lastModified` with 5000, which is not later than `lastSynced`. -/
theorem updatePage_flags_without_stamp :
    ClockedInvariant (syncedDevice 6000) ∧
    ¬ PendingInvariant (updatePage "p1" renameUpdates (syncedDevice 6000)).2 ∧
    PendingInvariant (syncedDevice 5000) ∧ SyncedNotAfter (syncedDevice 5000) ∧
    ¬ PendingInvariant (savePage "p1" (some "new text") (syncedDevice 5000)).2 := by
  decide

/-! ## The order of the phases -/

/-- Claim C12, the runs that contradict it. A job without a checkpoint enters
the four phases in the order tombstones, uploading, deleting, downloading,
and so does a job resumed from a `downloading` checkpoint. A job resumed from
an `uploading` checkpoint enters the upload and the delete phase and returns;
one resumed from a `deleting` checkpoint enters the delete phase only: the
download phase, which is later in the order, does not follow. The sync that
resumed from `uploading` reports success and moves `lastSyncTime` to 7001,
past the remote document written at 6000, so that neither it nor the next
sync downloads that document, which a sync without a checkpoint does. -/
theorem resumed_job_skips_download :
    (startNewSyncJob sampleCrypto 5 (interruptedDevice none)).2.phaseLog
      = ["tombstones", "uploading", "deleting", "downloading"] ∧
    (resumeSyncJob sampleCrypto 5 (checkpointIn "downloading")
      (interruptedDevice (some (checkpointIn "downloading")))).2.phaseLog
      = ["tombstones", "uploading", "deleting", "downloading"] ∧
    (resumeSyncJob sampleCrypto 5 (checkpointIn "uploading")
      (interruptedDevice (some (checkpointIn "uploading")))).1 = Res.ok () ∧
    (resumeSyncJob sampleCrypto 5 (checkpointIn "uploading")
      (interruptedDevice (some (checkpointIn "uploading")))).2.phaseLog
      = ["uploading", "deleting"] ∧
    (resumeSyncJob sampleCrypto 5 (checkpointIn "deleting")
      (interruptedDevice (some (checkpointIn "deleting")))).1 = Res.ok () ∧
    (resumeSyncJob sampleCrypto 5 (checkpointIn "deleting")
      (interruptedDevice (some (checkpointIn "deleting")))).2.phaseLog = ["deleting"] ∧
    (syncDexieToFirestore sampleCrypto 5 none false
      (interruptedDevice (some (checkpointIn "uploading")))).2.store.lastSyncTime = some 7001 ∧
    (syncDexieToFirestore sampleCrypto 5 none false
      (syncDexieToFirestore sampleCrypto 5 none false
        (interruptedDevice (some (checkpointIn "uploading")))).2).2.pages = [] ∧
    (syncDexieToFirestore sampleCrypto 5 none false (interruptedDevice none)).2.pages.map
      (fun p => p.id) = ["p2"] := by
  decide!

/-! ## The guard against a second job -/

/-- Claim C13: while a job is in progress, `syncDexieToFirestore` returns
`{ success: false, reason: "SYNC_IN_PROGRESS" }` whoever is signed in and
whether or not the vault is unlocked, and leaves the whole state as it was,
the sync state and the persisted checkpoint included. -/
theorem sync_in_progress_rejected (crypto : Crypto) (fuel : Nat) (pageId : Option PageId)
    (isDeleteOperation : Bool) (w : World) (h : w.sync.inProgress = true) :
    syncDexieToFirestore crypto fuel pageId isDeleteOperation w =
      (Res.ok { success := false, reason := some "SYNC_IN_PROGRESS", error := none,
                stats := none }, w) := by
  rw [syncDexieToFirestore, getWorld_bind]
  simp only [h, if_true]
  rfl

/-- The guard on a device with a running job, nobody signed in and a locked
vault: the call is rejected and the sync state and the checkpoint stay. -/
theorem sync_in_progress_rejected_witness :
    busyDevice.sync.inProgress = true ∧ busyDevice.currentUser = none ∧
    busyDevice.userVaultKey = false ∧
    (syncDexieToFirestore sampleCrypto 5 (some "p1") true busyDevice).1 =
      Res.ok { success := false, reason := some "SYNC_IN_PROGRESS", error := none,
               stats := none } ∧
    (syncDexieToFirestore sampleCrypto 5 (some "p1") true busyDevice).2.sync = busyDevice.sync ∧
    (syncDexieToFirestore sampleCrypto 5 (some "p1") true busyDevice).2.store.pendingSyncJob =
      some (checkpointIn "uploading") :=
  have h := sync_in_progress_rejected sampleCrypto 5 (some "p1") true busyDevice rfl
  ⟨rfl, rfl, rfl, by rw [h], by rw [h], by rw [h]; rfl⟩

/-! ## The retry loop -/

theorem retryLoop_ok {α : Type} (operation : M α) (remaining attempt : Nat) (w : World)
    (h : ((operation w).1).isThrow = false) :
    executeWithRetryLoop operation (remaining + 1) attempt w = operation w := by
  rw [executeWithRetryLoop]
  unfold tryCatch
  rcases hm : operation w with ⟨r, w1⟩
  rw [hm] at h
  cases r with
  | ok a => rfl
  | throw e => cases h
  | hang => rfl

theorem retryLoop_last {α : Type} (operation : M α) (attempt : Nat) (w : World)
    (h : ((operation w).1).isThrow = true) :
    executeWithRetryLoop operation 1 attempt w = operation w := by
  rw [executeWithRetryLoop]
  unfold tryCatch
  rcases hm : operation w with ⟨r, w1⟩
  rw [hm] at h
  cases r with
  | ok a => cases h
  | throw e => rfl
  | hang => cases h

theorem retryLoop_again {α : Type} (operation : M α) (remaining attempt : Nat) (w : World)
    (h : ((operation w).1).isThrow = true) :
    executeWithRetryLoop operation (remaining + 2) attempt w =
      executeWithRetryLoop operation (remaining + 1) (attempt + 1)
        (retryWait (attempt + 1) (operation w).2).2 := by
  rw [executeWithRetryLoop]
  unfold tryCatch
  rcases hm : operation w with ⟨r, w1⟩
  rw [hm] at h
  cases r with
  | ok a => cases h
  | hang => cases h
  | throw e =>
    simp only [Nat.add_one_ne_zero, if_false]
    unfold retryWait mathRandom
    cases hr : w1.oracle.rands <;> simp [hr, sleep, modifyWorld, Bind.bind, M.bind, Pure.pure, M.pure]

theorem attemptWorld_succ {α : Type} (operation : M α) :
    ∀ (i attempt : Nat) (w : World),
      attemptWorld operation attempt (i + 1) w =
        (retryWait (attempt + i + 1)
          (operation (attemptWorld operation attempt i w)).2).2 := by
  intro i
  induction i with
  | zero => intro attempt w; rfl
  | succ i ih =>
    intro attempt w
    show attemptWorld operation (attempt + 1) (i + 1) _ = _
    rw [ih]
    have h : attempt + 1 + i + 1 = attempt + (i + 1) + 1 := by omega
    rw [h]
    rfl

theorem retryWait_now (attempt : Nat) (u : World) :
    u.now + 2 ^ attempt * (BASE_RETRY_DELAY : Int) ≤ (retryWait attempt u).2.now ∧
    10 * (retryWait attempt u).2.now <
      10 * (u.now + 2 ^ attempt * (BASE_RETRY_DELAY : Int)) + 3 * (BASE_RETRY_DELAY : Int) := by
  have key : ∀ r : Nat, r < 1000 →
      u.now + 2 ^ attempt * (BASE_RETRY_DELAY : Int) ≤
        u.now + ((2 ^ attempt * BASE_RETRY_DELAY + r * (3 * BASE_RETRY_DELAY / 10) / 1000 : Nat) : Int) ∧
      10 * (u.now + ((2 ^ attempt * BASE_RETRY_DELAY + r * (3 * BASE_RETRY_DELAY / 10) / 1000 : Nat) : Int)) <
        10 * (u.now + 2 ^ attempt * (BASE_RETRY_DELAY : Int)) + 3 * (BASE_RETRY_DELAY : Int) := by
    intro r hr
    have h1 : r * (3 * BASE_RETRY_DELAY / 10) / 1000 < 60 := by
      unfold BASE_RETRY_DELAY
      omega
    push_cast
    unfold BASE_RETRY_DELAY at h1 ⊢
    constructor <;> omega
  unfold retryWait mathRandom
  cases hr : u.oracle.rands with
  | nil =>
    simp only [hr, sleep, modifyWorld, Bind.bind, M.bind]
    exact key _ (Nat.mod_lt _ (by decide))
  | cons r rest =>
    simp only [hr, sleep, modifyWorld, Bind.bind, M.bind]
    exact key _ (Nat.mod_lt _ (by decide))

theorem retryLoop_attempts {α : Type} (operation : M α) :
    ∀ (remaining attempt : Nat) (w : World), ∃ j, j < remaining + 1 ∧
      (∀ i, i < j → ((operation (attemptWorld operation attempt i w)).1).isThrow = true) ∧
      executeWithRetryLoop operation (remaining + 1) attempt w =
        operation (attemptWorld operation attempt j w) ∧
      (((operation (attemptWorld operation attempt j w)).1).isThrow = false ∨
        j = remaining) := by
  intro remaining
  induction remaining with
  | zero =>
    intro attempt w
    refine ⟨0, by omega, fun i hi => absurd hi (by omega), ?_, Or.inr rfl⟩
    cases h : ((operation w).1).isThrow with
    | false => exact retryLoop_ok operation 0 attempt w h
    | true => exact retryLoop_last operation attempt w h
  | succ r ih =>
    intro attempt w
    cases h : ((operation w).1).isThrow with
    | false =>
      exact ⟨0, by omega, fun i hi => absurd hi (by omega),
        retryLoop_ok operation (r + 1) attempt w h, Or.inl h⟩
    | true =>
      obtain ⟨j, hj, hall, heq, hlast⟩ :=
        ih (attempt + 1) (retryWait (attempt + 1) (operation w).2).2
      refine ⟨j + 1, by omega, ?_, ?_, ?_⟩
      · intro i hi
        cases i with
        | zero => exact h
        | succ i => exact hall i (by omega)
      · rw [retryLoop_again operation r attempt w h]
        exact heq
      · rcases hlast with hl | hl
        · exact Or.inl hl
        · exact Or.inr (by omega)

theorem count_attemptWorld {α : Type} (operation : M α) (count : World → Nat)
    (hop : ∀ u, count (operation u).2 = count u + 1)
    (hwait : ∀ k u, count (retryWait k u).2 = count u) :
    ∀ (j attempt : Nat) (w : World), count (attemptWorld operation attempt j w) = count w + j := by
  intro j
  induction j with
  | zero => intro attempt w; rfl
  | succ j ih =>
    intro attempt w
    rw [attemptWorld_succ, hwait, hop, ih]
    omega

/-- Claim C15: for every operation and every `maxRetries ≥ 1`, the run of
`executeWithRetry` consists of `j + 1 ≤ maxRetries` invocations of the
operation: the first `j` throw, and the outcome and the final state of the
run are those of the last invocation, which either does not throw (the first
success is returned, and nothing is invoked after it) or is the invocation
number `maxRetries` (its error is the one thrown). Between the failure number
`k` and the next invocation the clock advances by at least `2^k` times the
base delay and by less than that plus three tenths of the base delay. Any
count that each invocation raises by one, and that the waits leave alone,
has grown by `j + 1` at the end. -/
theorem executeWithRetry_attempts {α : Type} (operation : M α) (maxRetries : Nat)
    (h : 1 ≤ maxRetries) (w : World) :
    ∃ j, j < maxRetries ∧
      (∀ i, i < j → ((operation (attemptWorld operation 0 i w)).1).isThrow = true) ∧
      executeWithRetry operation maxRetries w = operation (attemptWorld operation 0 j w) ∧
      (((operation (attemptWorld operation 0 j w)).1).isThrow = false ∨ j + 1 = maxRetries) ∧
      (∀ i, i < j →
        (operation (attemptWorld operation 0 i w)).2.now + 2 ^ (i + 1) * (BASE_RETRY_DELAY : Int)
          ≤ (attemptWorld operation 0 (i + 1) w).now ∧
        10 * (attemptWorld operation 0 (i + 1) w).now <
          10 * ((operation (attemptWorld operation 0 i w)).2.now
            + 2 ^ (i + 1) * (BASE_RETRY_DELAY : Int)) + 3 * (BASE_RETRY_DELAY : Int)) ∧
      (∀ count : World → Nat, (∀ u, count (operation u).2 = count u + 1) →
        (∀ k u, count (retryWait k u).2 = count u) →
        count (executeWithRetry operation maxRetries w).2 = count w + (j + 1)) := by
  obtain ⟨n, rfl⟩ : ∃ n, maxRetries = n + 1 := ⟨maxRetries - 1, by omega⟩
  obtain ⟨j, hj, hall, heq, hlast⟩ := retryLoop_attempts operation n 0 w
  refine ⟨j, hj, hall, heq, ?_, ?_, ?_⟩
  · rcases hlast with hl | hl
    · exact Or.inl hl
    · exact Or.inr (by omega)
  · intro i _
    rw [attemptWorld_succ]
    have := retryWait_now (0 + i + 1) (operation (attemptWorld operation 0 i w)).2
    simpa using this
  · intro count hop hwait
    show count (executeWithRetryLoop operation (n + 1) 0 w).2 = _
    rw [heq, hop, count_attemptWorld operation count hop hwait]
    omega

/-- Claim C15 on an operation that fails each time, with `maxRetries = 3`: the
run is three invocations and throws the error of the operation, after waits
of at least 400 and 800 milliseconds. -/
theorem executeWithRetry_attempts_witness :
    1 ≤ 3 ∧
    (executeWithRetry notedFailure 3 offlineDevice).1 = Res.throw "FirebaseError: unavailable" ∧
    (executeWithRetry notedFailure 3 offlineDevice).2.sync.failedItems
      = ["attempt", "attempt", "attempt"] ∧
    (executeWithRetry notedFailure 3 offlineDevice).2.now = 5000 + (400 + 59) + (800 + 59) ∧
    ∃ j, j < 3 ∧
      executeWithRetry notedFailure 3 offlineDevice
        = notedFailure (attemptWorld notedFailure 0 j offlineDevice) ∧
      (executeWithRetry notedFailure 3 offlineDevice).2.sync.failedItems.length
        = offlineDevice.sync.failedItems.length + (j + 1) :=
  have ⟨j, hj, _, heq, _, _, hcount⟩ :=
    executeWithRetry_attempts notedFailure 3 (by decide) offlineDevice
  ⟨by decide, by decide, by decide, by decide, j, hj, heq,
    hcount (fun u => u.sync.failedItems.length) (fun u => by simp [notedFailure, pushFailed, modifySync, modifyWorld, throwNew, Bind.bind, M.bind])
      (fun k u => by
        unfold retryWait mathRandom
        cases hr : u.oracle.rands <;> simp [hr, sleep, modifyWorld, Bind.bind, M.bind])⟩

/-! ## The transport encoding of the encryption gateway -/

section Transport

open CryptoUtils

theorem sextet_facts : ∀ s, s < 64 →
    sextetChar s ≠ '=' ∧ isAsciiWhitespace (sextetChar s) = false ∧
    utf16Units (sextetChar s) = 1 ∧
    swapChar '/' '_' (swapChar '+' '-' (sextetChar s)) ≠ '=' ∧
    swapChar '_' '/' (swapChar '-' '+' (swapChar '/' '_' (swapChar '+' '-' (sextetChar s))))
      = sextetChar s ∧
    charSextet (sextetChar s) = some s := by
  decide

theorem toSextets_lt : ∀ vals : List Nat, (∀ v ∈ vals, v < 256) →
    ∀ s ∈ toSextets vals, s < 64 := by
  intro vals
  induction vals using toSextets.induct with
  | case1 a b c rest ih =>
    intro h s hs
    simp only [toSextets, List.mem_cons] at hs
    have ha := h a (by simp)
    have hb := h b (by simp)
    have hc := h c (by simp)
    rcases hs with rfl | rfl | rfl | rfl | hs
    · omega
    · omega
    · omega
    · omega
    · exact ih (fun v hv => h v (by simp [hv])) s hs
  | case2 a b =>
    intro h s hs
    simp only [toSextets, List.mem_cons, List.mem_singleton] at hs
    have ha := h a (by simp)
    have hb := h b (by simp)
    rcases hs with rfl | rfl | rfl | hs
    · omega
    · omega
    · omega
    · cases hs
  | case3 a =>
    intro h s hs
    simp only [toSextets, List.mem_cons, List.mem_singleton] at hs
    have ha := h a (by simp)
    rcases hs with rfl | rfl | hs
    · omega
    · omega
    · cases hs
  | case4 =>
    intro _ s hs
    cases hs

theorem toSextets_length : ∀ vals : List Nat,
    (toSextets vals).length = (4 * vals.length + 2) / 3 := by
  intro vals
  induction vals using toSextets.induct with
  | case1 a b c rest ih =>
    simp only [toSextets, List.length_cons, ih]
    omega
  | case2 a b => simp [toSextets]
  | case3 a => simp [toSextets]
  | case4 => rfl

theorem fromSextets_toSextets : ∀ vals : List Nat, (∀ v ∈ vals, v < 256) →
    fromSextets (toSextets vals) = vals := by
  intro vals
  induction vals using toSextets.induct with
  | case1 a b c rest ih =>
    intro h
    have ha := h a (by simp)
    have hb := h b (by simp)
    have hc := h c (by simp)
    simp only [toSextets, fromSextets]
    rw [ih (fun v hv => h v (by simp [hv]))]
    congr 1
    · omega
    congr 1
    · omega
    congr 1
    omega
  | case2 a b =>
    intro h
    have ha := h a (by simp)
    have hb := h b (by simp)
    simp only [toSextets, fromSextets]
    congr 1
    · omega
    congr 1
    omega
  | case3 a =>
    intro h
    have ha := h a (by simp)
    simp only [toSextets, fromSextets]
    congr 1
    omega
  | case4 => intro _; rfl

theorem dropTrailingEquals_append (xs : List Char) (k : Nat) (h : ∀ c ∈ xs, c ≠ '=') :
    dropTrailingEquals (xs ++ List.replicate k '=') = xs := by
  unfold dropTrailingEquals
  rw [List.reverse_append, List.reverse_replicate]
  have h1 : ∀ ys : List Char,
      (List.replicate k '=' ++ ys).dropWhile (fun c => decide (c = '=')) =
        ys.dropWhile (fun c => decide (c = '=')) := by
    intro ys
    induction k with
    | zero => rfl
    | succ k ih => simp [List.replicate_succ]
  rw [h1]
  have h2 : xs.reverse.dropWhile (fun c => decide (c = '=')) = xs.reverse := by
    cases hx : xs.reverse with
    | nil => rfl
    | cons c cs =>
      have hc : c ≠ '=' := h c (by
        have : c ∈ xs.reverse := by rw [hx]; simp
        simpa using this)
      simp [List.dropWhile, hc]
  rw [h2, List.reverse_reverse]

theorem getLast_ne_equals (xs : List Char) (h : ∀ c ∈ xs, c ≠ '=') :
    xs.getLast? ≠ some '=' := by
  intro hl
  exact h '=' (List.mem_of_getLast?_eq_some hl) rfl

theorem dropPadding_append (xs : List Char) (k : Nat) (h : ∀ c ∈ xs, c ≠ '=')
    (hk : k = 0 ∨ (k = 1 ∧ xs.length % 4 = 3) ∨ (k = 2 ∧ xs.length % 4 = 2)) :
    dropPadding (xs ++ List.replicate k '=') = xs := by
  have hlast := getLast_ne_equals xs h
  rcases hk with rfl | ⟨rfl, hl⟩ | ⟨rfl, hl⟩
  · simp [dropPadding, hlast]
  · have h0 : (xs ++ List.replicate 1 '=').length % 4 = 0 := by
      simp only [List.length_append, List.length_replicate]
      omega
    have e : xs ++ List.replicate 1 '=' = xs ++ ['='] := rfl
    simp only [dropPadding, h0, if_true]
    rw [e]
    simp [hlast]
  · have h0 : (xs ++ List.replicate 2 '=').length % 4 = 0 := by
      simp only [List.length_append, List.length_replicate]
      omega
    have e : xs ++ List.replicate 2 '=' = (xs ++ ['=']) ++ ['='] := by simp [List.replicate]
    simp only [dropPadding, h0, if_true]
    rw [e]
    simp [hlast]

theorem jsLength_sextets (cs : List Char) (h : ∀ c ∈ cs, utf16Units c = 1) :
    jsLength (String.mk cs) = cs.length := by
  unfold jsLength
  induction cs with
  | nil => rfl
  | cons c cs ih =>
    have hc := h c (by simp)
    have := ih (fun d hd => h d (by simp [hd]))
    simp only [List.map_cons, List.sum_cons, List.length_cons] at this ⊢
    omega

theorem charsToSextets_map (S : List Nat) (h : ∀ s ∈ S, s < 64) :
    charsToSextets (S.map sextetChar) = some S := by
  induction S with
  | nil => rfl
  | cons s S ih =>
    have hs := (sextet_facts s (h s (by simp))).2.2.2.2.2
    have := ih (fun t ht => h t (by simp [ht]))
    simp only [List.map_cons, charsToSextets, hs, this]

theorem toUrl_sextets (S : List Nat) (hS : ∀ s ∈ S, s < 64) (k : Nat) :
    ∃ us : List Char, (∀ c ∈ us, c ≠ '=') ∧
      replaceChar '/' '_' (replaceChar '+' '-' (S.map sextetChar ++ List.replicate k '='))
        = us ++ List.replicate k '=' ∧
      replaceChar '_' '/' (replaceChar '-' '+' us) = S.map sextetChar := by
  have hpad : swapChar '/' '_' (swapChar '+' '-' '=') = '=' := by decide
  refine ⟨S.map fun s => swapChar '/' '_' (swapChar '+' '-' (sextetChar s)), ?_, ?_, ?_⟩
  · intro c hc
    simp only [List.mem_map] at hc
    obtain ⟨s, hs, rfl⟩ := hc
    exact (sextet_facts s (hS s hs)).2.2.2.1
  · simp only [replaceChar, List.map_append, List.map_map, List.map_replicate, hpad]
    rfl
  · simp only [replaceChar, List.map_map]
    induction S with
    | nil => rfl
    | cons s S ih =>
      simp only [List.map_cons, Function.comp]
      rw [(sextet_facts s (hS s (by simp))).2.2.2.2.1]
      congr 1
      exact ih (fun t ht => hS t (by simp [ht]))

/-- The transport encoding on the six-bit groups `S` of a byte sequence
`vals`: what `arrayBufferToBase64` makes of the result of `btoa`, and what
`base64ToArrayBuffer` makes of that. -/
theorem transport_of_sextets (vals S : List Nat) (hS : ∀ s ∈ S, s < 64)
    (hlen : S.length % 4 = 0 ∨ S.length % 4 = 2 ∨ S.length % 4 = 3) (k : Nat)
    (hvals : fromSextets S = vals) :
    base64ToArrayBuffer (String.mk (dropTrailingEquals (replaceChar '/' '_'
      (replaceChar '+' '-' (S.map sextetChar ++ List.replicate k '=')))))
      = Except.ok (vals.map fun u => Fin.ofNat u) := by
  obtain ⟨us, hurl, e1, e2⟩ := toUrl_sextets S hS k
  have hplain : ∀ c ∈ S.map sextetChar, c ≠ '=' ∧ isAsciiWhitespace c = false ∧
      utf16Units c = 1 := by
    intro c hc
    simp only [List.mem_map] at hc
    obtain ⟨s, hs, rfl⟩ := hc
    have := sextet_facts s (hS s hs)
    exact ⟨this.1, this.2.1, this.2.2.1⟩
  rw [e1, dropTrailingEquals_append _ _ hurl]
  unfold base64ToArrayBuffer
  simp only [e2]
  rw [jsLength_sextets _ (fun c hc => (hplain c hc).2.2), List.length_map]
  have hfilter : ∀ j, ((S.map sextetChar ++ List.replicate j '=').filter
      fun c => !isAsciiWhitespace c) = S.map sextetChar ++ List.replicate j '=' := by
    intro j
    rw [List.filter_eq_self]
    intro c hc
    rcases List.mem_append.mp hc with hc | hc
    · rw [(hplain c hc).2.1]
      rfl
    · rw [List.eq_of_mem_replicate hc]
      decide
  have hdecode : ∀ j, (j = 0 ∨ (j = 1 ∧ S.length % 4 = 3) ∨ (j = 2 ∧ S.length % 4 = 2)) →
      atob (String.mk (S.map sextetChar ++ List.replicate j '=')) = Except.ok vals := by
    intro j hj
    unfold atob
    simp only [hfilter]
    rw [dropPadding_append _ _ (fun c hc => (hplain c hc).1) (by simpa using hj)]
    have hne : ¬ (S.map sextetChar).length % 4 = 1 := by
      rw [List.length_map]
      omega
    simp only [hne, if_false, charsToSextets_map S hS, hvals]
  by_cases hp : S.length % 4 ≠ 0
  · rw [if_pos hp, hdecode (4 - S.length % 4) (by omega)]
    rfl
  · rw [if_neg hp]
    have := hdecode 0 (Or.inl rfl)
    simp only [List.replicate_zero, List.append_nil] at this
    rw [this]
    rfl

theorem transport_roundtrip (b : List Byte) :
    ∃ token, arrayBufferToBase64 b = Except.ok token ∧
      base64ToArrayBuffer token = Except.ok b := by
  have hv : ∀ v ∈ b.map (fun x => x.val), v < 256 := by
    intro v hv
    simp only [List.mem_map] at hv
    obtain ⟨x, _, rfl⟩ := hv
    exact x.isLt
  have hall : ((b.map fun x => x.val).all fun u => decide (u < 256)) = true := by
    rw [List.all_eq_true]
    intro v hmem
    exact decide_eq_true (hv v hmem)
  have hlen : (toSextets (b.map fun x => x.val)).length % 4 = 0 ∨
      (toSextets (b.map fun x => x.val)).length % 4 = 2 ∨
      (toSextets (b.map fun x => x.val)).length % 4 = 3 := by
    rw [toSextets_length]
    omega
  have hback : ((b.map fun x => x.val).map fun u => (Fin.ofNat u : Byte)) = b := by
    rw [List.map_map]
    conv_rhs => rw [← List.map_id b]
    apply List.map_congr_left
    intro x _
    apply Fin.ext
    show x.val % 256 = x.val
    exact Nat.mod_eq_of_lt x.isLt
  refine ⟨String.mk (dropTrailingEquals (replaceChar '/' '_' (replaceChar '+' '-'
    ((toSextets (b.map fun x => x.val)).map sextetChar ++
      List.replicate ((3 - (b.map fun x => x.val).length % 3) % 3) '=')))), ?_, ?_⟩
  · unfold arrayBufferToBase64 btoa
    simp only [hall, if_true]
    rfl
  · have := transport_of_sextets _ _ (toSextets_lt _ hv) hlen
      ((3 - (b.map fun x => x.val).length % 3) % 3) (fromSextets_toSextets _ hv)
    rw [hback] at this
    exact this

end Transport

/-- Claim C14: if, for the key and the nonce at hand, AES-GCM decrypts what
it has encrypted, the encryption of the encoded text succeeds and the text
decoder undoes the text encoder on the plaintext, then `encryptData` returns a
token from which `decryptData` returns the plaintext. The transport is
lossless: for every byte array `b`, `base64ToArrayBuffer` returns `b` from
the text that `arrayBufferToBase64` makes of `b`; and the first twelve bytes
decoded from the token are the nonce. -/
theorem decrypt_encrypt_roundtrip {Key : Type} (platform : CryptoUtils.WebCrypto Key)
    (key : Key) (iv : List CryptoUtils.Byte) (data : String) (hiv : iv.length = 12)
    (haes : ∀ plain cipher, platform.encrypt key iv plain = some cipher →
      platform.decrypt key iv cipher = some plain)
    (henc : (platform.encrypt key iv (platform.encode data)).isSome = true)
    (htext : platform.decode (platform.encode data) = data) :
    (∀ b : List CryptoUtils.Byte, ∃ token, CryptoUtils.arrayBufferToBase64 b = Except.ok token ∧
      CryptoUtils.base64ToArrayBuffer token = Except.ok b) ∧
    ∃ token, CryptoUtils.encryptData platform key iv data = some token ∧
      (∃ bytes, CryptoUtils.base64ToArrayBuffer token = Except.ok bytes ∧ bytes.take 12 = iv) ∧
      CryptoUtils.decryptData platform key token = some data := by
  refine ⟨transport_roundtrip, ?_⟩
  obtain ⟨encrypted, he⟩ := Option.isSome_iff_exists.mp henc
  obtain ⟨token, h1, h2⟩ := transport_roundtrip (iv ++ encrypted)
  have htake : (iv ++ encrypted).take 12 = iv := by
    rw [← hiv, List.take_left]
  have hdrop : (iv ++ encrypted).drop 12 = encrypted := by
    rw [← hiv, List.drop_left]
  refine ⟨token, ?_, ⟨_, h2, htake⟩, ?_⟩
  · unfold CryptoUtils.encryptData
    simp only [he, h1]
  · unfold CryptoUtils.decryptData
    simp only [h2, htake, hdrop, haes _ _ he, htext]

/-- Claim C14 on a toy platform, with the key 7, a nonce of twelve bytes and
the plaintext "hi there": the token decrypts to the plaintext. -/
theorem decrypt_encrypt_roundtrip_witness :
    CryptoUtils.sampleNonce.length = 12 ∧
    CryptoUtils.encryptData CryptoUtils.toyPlatform 7 CryptoUtils.sampleNonce "hi there"
      = some "-vv8_f7_AAECAwQFaWohdWlmc2Y" ∧
    ∃ token, CryptoUtils.encryptData CryptoUtils.toyPlatform 7 CryptoUtils.sampleNonce "hi there"
        = some token ∧
      CryptoUtils.decryptData CryptoUtils.toyPlatform 7 token = some "hi there" :=
  have h := decrypt_encrypt_roundtrip CryptoUtils.toyPlatform 7 CryptoUtils.sampleNonce
    "hi there" rfl
    (fun plain cipher hc => by
      have hc1 : plain.map (fun b => (Fin.ofNat (b.val + 7 + 250) : CryptoUtils.Byte)) = cipher :=
        Option.some.inj hc
      subst hc1
      show some ((plain.map _).map _) = some plain
      rw [List.map_map]
      have hid : ∀ b : CryptoUtils.Byte,
          (Fin.ofNat ((Fin.ofNat (b.val + 7 + 250) : CryptoUtils.Byte).val + 512 - 7 % 256 - 250)
            : CryptoUtils.Byte) = b := by
        intro b
        apply Fin.ext
        show ((b.val + 7 + 250) % 256 + 512 - 7 % 256 - 250) % 256 = b.val
        have := b.isLt
        omega
      congr 1
      conv_rhs => rw [← List.map_id plain]
      exact List.map_congr_left fun b _ => hid b)
    rfl (by decide)
  ⟨rfl, by decide, h.2.imp fun _ ht => ⟨ht.1, ht.2.2⟩⟩

/-! ## A checkpoint without a known phase -/

theorem jobFrom_unknown_phase (crypto : Crypto) (cp : Checkpoint)
    (h1 : cp.phase ≠ some "downloading") (h2 : cp.phase ≠ some "uploading")
    (h3 : cp.phase ≠ some "deleting") :
    ∀ (fuel : Nat) (w : World), w.sync.aborted = false → w.store.pendingSyncJob = some cp →
      (jobFrom crypto fuel none w).1 = Res.hang ∧
      (jobFrom crypto fuel (some cp) w).1 = Res.hang := by
  intro fuel
  induction fuel with
  | zero =>
    intro w _ _
    exact ⟨rfl, rfl⟩
  | succ fuel ih =>
    intro w ha hcp
    constructor
    · rw [jobFrom, getWorld_bind]
      simp only [ha, hcp, Bool.false_eq_true, if_false]
      exact (ih w ha hcp).2
    · rw [jobFrom]
      simp only [modifySync, modifyWorld_bind, h1, h2, h3, if_false]
      refine tryCatch_of_hang (ih _ ?_ ?_).1
      · exact ha
      · exact hcp

/-- With a persisted checkpoint whose phase is none of the three known ones,
a sync of a signed-in device with an unlocked vault does not return, whatever
the number of steps it is given. -/
theorem sync_unknown_phase_never_returns (crypto : Crypto) (fuel : Nat) (w : World)
    (cp : Checkpoint) (hprog : w.sync.inProgress = false)
    (huser : w.currentUser.isSome = true) (hvault : w.userVaultKey = true)
    (hcp : w.store.pendingSyncJob = some cp)
    (h1 : cp.phase ≠ some "downloading") (h2 : cp.phase ≠ some "uploading")
    (h3 : cp.phase ≠ some "deleting") :
    (syncDexieToFirestore crypto fuel none false w).1 = Res.hang := by
  have hnone : w.currentUser.isNone = false := by
    cases hu : w.currentUser <;> simp_all
  unfold syncDexieToFirestore
  simp only [getWorld_bind, hprog, hnone, hvault, Bool.false_eq_true, if_false, m_pure_bind,
    Bool.not_true, modifyWorld_bind, readClock_bind, resetSyncState, modifySync]
  refine tryFinally_of_hang (tryCatch_of_hang ?_)
  simp only [getWorld_bind, Bool.false_eq_true, if_false, hcp]
  refine bind_of_hang ?_
  unfold resumeSyncJob
  refine (jobFrom_unknown_phase crypto cp h1 h2 h3 fuel _ ?_ ?_).2
  · rfl
  · exact hcp

/-- Claim C29, the run that contradicts it. With a persisted checkpoint whose
phase is `null`, `resumeSyncJob` calls `startNewSyncJob`, which finds the same
checkpoint and calls `resumeSyncJob` again: after any number of steps
`syncDexieToFirestore` has not returned. Such a checkpoint is what `abortSync`
stores on a job that has just started. -/
theorem unknown_phase_resumes_forever (fuel : Nat) :
    (syncDexieToFirestore sampleCrypto fuel none false
      (interruptedDevice (some nullPhaseCheckpoint))).1 = Res.hang ∧
    (abortSync startedDevice).2.store.pendingSyncJob = some nullPhaseCheckpoint :=
  ⟨sync_unknown_phase_never_returns sampleCrypto fuel _ nullPhaseCheckpoint rfl rfl rfl rfl
    (by decide) (by decide) (by decide), by decide⟩

/-! ## The scheduler's decision to sync -/

theorem shouldTrigger_iff (s : SmartSync.Scheduler) (m : SmartSync.ChangeMetrics) :
    SmartSync._shouldTriggerCloudSync s m = true ↔
      m.isSignificant = true ∨
      (m.changeSize ≥ s.config.minChangeThreshold ∧
        ((match SmartSync.timeSinceLastSync s with
          | none => True
          | some t => t > s.config.cloudSyncDelay * 2) ∨
        s.consecutiveChanges > 10 ∨
        (s.config.adaptiveTiming = true ∧ s.userPatterns.sessionCount > 5 ∧
          (s.consecutiveChanges : ℚ) > s.userPatterns.avgEditSessionLength * (4 / 5)))) := by
  unfold SmartSync._shouldTriggerCloudSync
  cases hsig : m.isSignificant
  · by_cases hmin : m.changeSize < s.config.minChangeThreshold
    · simp [hmin]
    · have hmin2 : m.changeSize ≥ s.config.minChangeThreshold := by omega
      simp only [hmin, if_false, Bool.false_eq_true, false_or, hmin2, true_and]
      cases ht : SmartSync.timeSinceLastSync s with
      | none => simp
      | some t =>
        by_cases h1 : t > s.config.cloudSyncDelay * 2
        · simp [h1]
        · by_cases h2 : s.consecutiveChanges > 10
          · simp [h1, h2]
          · by_cases h3 : s.config.adaptiveTiming = true
            · by_cases h4 : s.userPatterns.sessionCount > 5
              · by_cases h5 : (s.consecutiveChanges : ℚ) >
                    s.userPatterns.avgEditSessionLength * (4 / 5)
                · simp [h1, h2, h3, h4, h5]
                · simp [h1, h2, h3, h4, h5]
              · simp [h1, h2, h3, h4]
            · simp [h1, h2, h3]
  · simp

theorem shouldTrigger_congr (s1 s2 : SmartSync.Scheduler) (m : SmartSync.ChangeMetrics)
    (h1 : s1.config = s2.config) (h2 : s1.lastCloudSync = s2.lastCloudSync)
    (h3 : s1.now = s2.now) (h4 : s1.consecutiveChanges = s2.consecutiveChanges)
    (h5 : s1.userPatterns = s2.userPatterns) :
    SmartSync._shouldTriggerCloudSync s1 m = SmartSync._shouldTriggerCloudSync s2 m := by
  unfold SmartSync._shouldTriggerCloudSync SmartSync.timeSinceLastSync
  rw [h1, h2, h3, h4, h5]

theorem scheduledForSync_eq (s : SmartSync.Scheduler) (pageId : PageId) (content : String) :
    (SmartSync.handleContentChange s pageId content).1.scheduledForSync =
      SmartSync._shouldTriggerCloudSync
        { s with lastActivityTime := s.now, pendingChanges := true,
                 consecutiveChanges := s.consecutiveChanges + 1 }
        (SmartSync._calculateChangeMetrics s content) := by
  unfold SmartSync.handleContentChange
  simp only []
  have hm : SmartSync._calculateChangeMetrics { s with lastActivityTime := s.now } content
      = SmartSync._calculateChangeMetrics s content := rfl
  rw [hm]
  apply shouldTrigger_congr <;> (split <;> (try split) <;> rfl)

/-- C26 (amended): for every scheduler state and new content,
`handleContentChange` reports `scheduledForSync = true` exactly when there is
no last snapshot (none yet, or an empty one), or the change size is at least
`significantChangeThreshold`, or it is at least `minChangeThreshold` and one
of the three reasons to escalate holds (the time since the last cloud sync
exceeds twice `cloudSyncDelay` or there has been no cloud sync, more than 10
consecutive changes counting this one, or adaptive timing with more than 5
learned sessions and more consecutive changes than 0.8 times the average
session length). -/
theorem scheduledForSync_rule (s : SmartSync.Scheduler) (pageId : PageId) (content : String) :
    (SmartSync.handleContentChange s pageId content).1.scheduledForSync = true ↔
      truthyStr s.lastContent = false ∨ SmartSync.ClaimedRule s content := by
  rw [scheduledForSync_eq, shouldTrigger_iff]
  cases hl : truthyStr s.lastContent
  · have hm : SmartSync._calculateChangeMetrics s content =
        { hasChanged := true, changeSize := jsLength content, isSignificant := true } := by
      unfold SmartSync._calculateChangeMetrics
      simp [hl]
    rw [hm]
    exact ⟨fun _ => Or.inl rfl, fun _ => Or.inl rfl⟩
  · have hm : SmartSync._calculateChangeMetrics s content =
        { hasChanged := !decide (s.lastContent.getD "" = content),
          changeSize := SmartSync.changeSizeOf s content,
          isSignificant := decide (SmartSync.changeSizeOf s content ≥
            s.config.significantChangeThreshold) } := by
      unfold SmartSync._calculateChangeMetrics
      simp only [hl, Bool.not_true, Bool.false_eq_true, if_false]
      rfl
    rw [hm]
    constructor
    · rintro (h | ⟨h1, h2⟩)
      · exact Or.inr (Or.inl (of_decide_eq_true h))
      · exact Or.inr (Or.inr ⟨h1, h2⟩)
    · rintro (h | h | ⟨h1, h2⟩)
      · cases h
      · exact Or.inl (decide_eq_true h)
      · exact Or.inr ⟨h1, h2⟩

/-- C26 (counterexample): the scheduler has no snapshot yet and synced to the
cloud a second ago; the new content has two characters, fewer than
`minChangeThreshold`. The rule of the claim says no sync, and
`handleContentChange` reports `scheduledForSync = true`. -/
theorem first_change_is_scheduled :
    (SmartSync.handleContentChange (SmartSync.syncedScheduler none) "p1" "hi").1.scheduledForSync
      = true ∧
    SmartSync.changeSizeOf (SmartSync.syncedScheduler none) "hi" = 2 ∧
    (SmartSync.syncedScheduler none).config.minChangeThreshold = 10 ∧
    ¬ SmartSync.ClaimedRule (SmartSync.syncedScheduler none) "hi" := by
  refine ⟨by decide, by decide, rfl, ?_⟩
  have h2 : SmartSync.changeSizeOf (SmartSync.syncedScheduler none) "hi" = 2 := by decide
  unfold SmartSync.ClaimedRule
  rw [h2]
  simp [SmartSync.syncedScheduler, SmartSync.defaultConfig]

/-- Claim C30, the run that contradicts it. A first significant change
schedules the debounced cloud sync and sets `syncScheduled`. A second
significant change, made before that sync has run, cancels the pending call
and, because `syncScheduled` is already set, does not schedule another one:
`handleContentChange` reports `scheduledForSync = true` while no debounced
cloud sync is pending. -/
theorem second_change_cancels_pending_sync :
    (SmartSync.handleContentChange (SmartSync.syncedScheduler (some "x")) "p1"
      (SmartSync.textOf 150)).1.scheduledForSync = true ∧
    (SmartSync.handleContentChange (SmartSync.syncedScheduler (some "x")) "p1"
      (SmartSync.textOf 150)).2.cloudSyncTimer = some ("p1", SmartSync.textOf 150) ∧
    (SmartSync.handleContentChange
      (SmartSync.handleContentChange (SmartSync.syncedScheduler (some "x")) "p1"
        (SmartSync.textOf 150)).2 "p1" (SmartSync.textOf 300)).1.scheduledForSync = true ∧
    (SmartSync.handleContentChange
      (SmartSync.handleContentChange (SmartSync.syncedScheduler (some "x")) "p1"
        (SmartSync.textOf 150)).2 "p1" (SmartSync.textOf 300)).2.cloudSyncTimer = none := by
  decide!

/-! ## Workdays -/

section WorkdayProofs

open Workdays

theorem filter_range_succ (p : Nat → Bool) (n : Nat) :
    ((List.range (n + 1)).filter p).length =
      (if p 0 then 1 else 0) + ((List.range n).filter fun i => p (i + 1)).length := by
  rw [List.range_succ_eq_map, List.filter_cons]
  have h : ((List.map Nat.succ (List.range n)).filter p).length =
      ((List.range n).filter fun i => p (i + 1)).length := by
    rw [List.filter_map, List.length_map]
    rfl
  split
  · simp [h]
    omega
  · simp [h]

theorem workdaysFrom_succ (date : Day) (n : Nat) :
    workdaysFrom date (n + 1) =
      (if isWorkday date then 1 else 0) + workdaysFrom (addDays date 1) n := by
  unfold workdaysFrom
  rw [filter_range_succ]
  have h0 : addDays date ((0 : Nat) : Int) = date := by simp [addDays]
  have h1 : ∀ i : Nat, addDays date ((i + 1 : Nat) : Int) = addDays (addDays date 1) i := by
    intro i
    simp only [addDays, Day.mk.injEq, and_true]
    push_cast
    ring
  simp only [h0, h1]

theorem workdaysLoop_spec (endDate : Day) :
    ∀ (fuel : Nat) (curDate : Day) (count : Nat),
      (endDate.day - curDate.day + 1).toNat ≤ fuel →
      workdaysLoop endDate fuel curDate count =
        some (count + workdaysFrom curDate (endDate.day - curDate.day + 1).toNat) := by
  intro fuel
  induction fuel with
  | zero =>
    intro curDate count h
    have h1 : ¬ curDate.day ≤ endDate.day := by omega
    have h2 : (endDate.day - curDate.day + 1).toNat = 0 := by omega
    simp [workdaysLoop, h1, h2, workdaysFrom]
  | succ fuel ih =>
    intro curDate count h
    rw [workdaysLoop]
    by_cases h1 : curDate.day ≤ endDate.day
    · obtain ⟨n, hn⟩ : ∃ n, (endDate.day - curDate.day + 1).toNat = n + 1 :=
        ⟨(endDate.day - curDate.day).toNat, by omega⟩
      have hnext : (endDate.day - (addDays curDate 1).day + 1).toNat = n := by
        simp only [addDays]
        omega
      simp only [h1, if_true]
      rw [ih _ _ (by rw [hnext]; omega), hnext, hn, workdaysFrom_succ]
      split
      · simp
        omega
      · simp
    · have h2 : (endDate.day - curDate.day + 1).toNat = 0 := by omega
      simp [h1, h2, workdaysFrom]

end WorkdayProofs

/-- Claim C25: for every pair of dates, `workdays(start, end)` returns, once
the loop is given as many iterations as there are days from `start` to `end`,
the number of days from the day of `start` to the day of `end`, both included,
that are neither a Saturday nor a Sunday; it returns 0 when `end` is before
`start`; Monday to Friday of one week gives 5 and Saturday to Sunday 0. -/
theorem workdays_counts (fuel : Nat) (startDate endDate : Workdays.Day)
    (h : (endDate.day - startDate.day + 1).toNat ≤ fuel) :
    Workdays.workdays fuel startDate endDate =
      some (Workdays.workdaysFrom startDate (endDate.day - startDate.day + 1).toNat) ∧
    (endDate.day < startDate.day → Workdays.workdays fuel startDate endDate = some 0) ∧
    Workdays.workdays 5 (Workdays.addDays Workdays.friday 3) (Workdays.addDays Workdays.friday 7)
      = some 5 ∧
    Workdays.workdays 2 (Workdays.addDays Workdays.friday 1) (Workdays.addDays Workdays.friday 2)
      = some 0 := by
  have h1 := workdaysLoop_spec endDate fuel startDate 0 h
  rw [Nat.zero_add] at h1
  refine ⟨h1, ?_, by decide, by decide⟩
  intro hlt
  have h2 : (endDate.day - startDate.day + 1).toNat = 0 := by omega
  unfold Workdays.workdays
  rw [h1, h2]
  rfl

/-- Claim C25 from Monday 1970-01-05 to Friday 1970-01-16, with twelve
iterations: ten days are counted. -/
theorem workdays_counts_witness :
    ((Workdays.addDays Workdays.friday 14).day - (Workdays.addDays Workdays.friday 3).day + 1).toNat
      ≤ 12 ∧
    Workdays.workdays 12 (Workdays.addDays Workdays.friday 3) (Workdays.addDays Workdays.friday 14)
      = some 10 :=
  ⟨by decide, (workdays_counts 12 (Workdays.addDays Workdays.friday 3)
    (Workdays.addDays Workdays.friday 14) (by decide)).1.trans (by decide)⟩

section AddWorkdayProofs

open Workdays

theorem workdaysAmong_succ (date : Day) (step : Int) (k : Nat) :
    workdaysAmong date step (k + 1) =
      (if isWorkday (addDays date step) then 1 else 0) +
        workdaysAmong (addDays date step) step k := by
  unfold workdaysAmong
  rw [filter_range_succ]
  have h0 : addDays date (step * (((0 : Nat) : Int) + 1)) = addDays date step := by
    simp [addDays]
  have h1 : ∀ i : Nat, addDays date (step * (((i + 1 : Nat) : Int) + 1)) =
      addDays (addDays date step) (step * ((i : Int) + 1)) := by
    intro i
    simp only [addDays, Day.mk.injEq, and_true]
    push_cast
    ring
  simp only [h0, h1]

theorem weekendStreak_le (amount : Int) (date : Day) : weekendStreak amount date ≤ 2 := by
  unfold weekendStreak
  split <;> split <;> (try split) <;> omega

theorem isWorkday_iff (date : Day) :
    isWorkday date = true ↔ dayOfWeek date ≠ 0 ∧ dayOfWeek date ≠ 6 := by
  simp [isWorkday]

theorem weekendStreak_next (amount : Int) (date : Day)
    (h : isWorkday (addDays date (if amount > 0 then 1 else -1)) = false) :
    weekendStreak amount (addDays date (if amount > 0 then 1 else -1)) =
      weekendStreak amount date + 1 := by
  have hn : ¬ (dayOfWeek (addDays date (if amount > 0 then 1 else -1)) ≠ 0 ∧
      dayOfWeek (addDays date (if amount > 0 then 1 else -1)) ≠ 6) := by
    rw [← isWorkday_iff, h]
    simp
  unfold weekendStreak
  by_cases ha : amount > 0
  · simp only [ha, if_true] at hn ⊢
    simp only [dayOfWeek, addDays] at hn ⊢
    split <;> split <;> (try split) <;> (try split) <;> omega
  · simp only [ha, if_false] at hn ⊢
    simp only [dayOfWeek, addDays] at hn ⊢
    split <;> split <;> (try split) <;> (try split) <;> omega

theorem addDays_succ (date : Day) (step : Int) (k : Nat) :
    addDays date (step * ((k + 1 : Nat) : Int)) = addDays (addDays date step) (step * k) := by
  simp only [addDays, Day.mk.injEq, and_true]
  push_cast
  ring

theorem addWorkdaysLoop_spec (amount : Int) :
    ∀ (fuel : Nat) (date : Day) (count : Nat), count ≤ amount.natAbs →
      3 * (amount.natAbs - count) ≤ fuel + weekendStreak amount date →
      ∃ k : Nat, addWorkdaysLoop amount fuel date count =
          some (addDays date ((if amount > 0 then 1 else -1) * k)) ∧
        count + workdaysAmong date (if amount > 0 then 1 else -1) k = amount.natAbs ∧
        (count < amount.natAbs →
          0 < k ∧ isWorkday (addDays date ((if amount > 0 then 1 else -1) * k)) = true) := by
  intro fuel
  induction fuel with
  | zero =>
    intro date count hc hf
    have hs := weekendStreak_le amount date
    have h : ¬ count < amount.natAbs := by omega
    refine ⟨0, ?_, ?_, fun hlt => absurd hlt h⟩
    · simp [addWorkdaysLoop, h, addDays]
    · simp [workdaysAmong]
      omega
  | succ fuel ih =>
    intro date count hc hf
    have hs := weekendStreak_le amount date
    by_cases h : count < amount.natAbs
    · rw [addWorkdaysLoop]
      simp only [h, if_true]
      have hdate : (if amount > 0 then addDays date 1 else addDays date (-1)) =
          addDays date (if amount > 0 then 1 else -1) := by
        split <;> rfl
      rw [hdate]
      cases hw : isWorkday (addDays date (if amount > 0 then 1 else -1))
      · obtain ⟨k, hk1, hk2, hk3⟩ := ih (addDays date (if amount > 0 then 1 else -1)) count hc
          (by rw [weekendStreak_next amount date hw]; omega)
        refine ⟨k + 1, ?_, ?_, fun _ => ⟨by omega, ?_⟩⟩
        · simp only [Bool.false_eq_true, if_false]
          rw [hk1, addDays_succ]
        · rw [workdaysAmong_succ]
          simp only [hw, Bool.false_eq_true, if_false]
          omega
        · rw [addDays_succ]
          exact (hk3 h).2
      · obtain ⟨k, hk1, hk2, hk3⟩ := ih (addDays date (if amount > 0 then 1 else -1))
          (count + 1) (by omega) (by omega)
        refine ⟨k + 1, ?_, ?_, fun _ => ⟨by omega, ?_⟩⟩
        · simp only [if_true]
          rw [hk1, addDays_succ]
        · rw [workdaysAmong_succ]
          simp only [hw, if_true]
          omega
        · rw [addDays_succ]
          by_cases hlt : count + 1 < amount.natAbs
          · exact (hk3 hlt).2
          · have hk0 : k = 0 := by
              by_contra hne
              obtain ⟨j, rfl⟩ : ∃ j, k = j + 1 := ⟨k - 1, by omega⟩
              have hlast : addWorkdaysLoop amount fuel
                  (addDays date (if amount > 0 then 1 else -1)) (count + 1) =
                  some (addDays date (if amount > 0 then 1 else -1)) := by
                cases fuel <;> simp [addWorkdaysLoop, hlt]
              rw [hlast] at hk1
              simp only [addDays, Option.some.injEq, Day.mk.injEq, and_true] at hk1
              split at hk1 <;> push_cast at hk1 <;> omega
            subst hk0
            simpa [addDays] using hw
    · refine ⟨0, ?_, ?_, fun hlt => absurd hlt h⟩
      · rw [addWorkdaysLoop]
        simp [h, addDays]
      · simp [workdaysAmong]
        omega

end AddWorkdayProofs

/-- Claim C24: for every start date and every non-zero integer `n`,
`addWorkdays` ends within `3 |n|` iterations and returns the day `k > 0` days
after the start (before it when `n < 0`), at the same time of day, which is
neither a Saturday nor a Sunday and is the `|n|`-th such day in that
direction; for `n = 0` it returns the start date; a Friday plus one workday
is the following Monday. -/
theorem addWorkdays_nth_workday (fuel : Nat) (start : Workdays.Day) (n : Int)
    (hfuel : 3 * n.natAbs ≤ fuel) :
    (n ≠ 0 → ∃ k : Nat, 0 < k ∧
      Workdays.addWorkdays fuel start n =
        some (Workdays.addDays start ((if n > 0 then 1 else -1) * k)) ∧
      Workdays.isWorkday (Workdays.addDays start ((if n > 0 then 1 else -1) * k)) = true ∧
      Workdays.workdaysAmong start (if n > 0 then 1 else -1) k = n.natAbs) ∧
    Workdays.addWorkdays fuel start 0 = some start ∧
    Workdays.addWorkdays 3 Workdays.friday 1 = some (Workdays.addDays Workdays.friday 3) ∧
    Workdays.dayOfWeek (Workdays.addDays Workdays.friday 3) = 1 := by
  refine ⟨fun hn => ?_, ?_, by decide, by decide⟩
  · obtain ⟨k, hk1, hk2, hk3⟩ := addWorkdaysLoop_spec n fuel start 0 (by omega) (by omega)
    have hpos : 0 < n.natAbs := Int.natAbs_pos.mpr hn
    exact ⟨k, (hk3 hpos).1, hk1, (hk3 hpos).2, by omega⟩
  · unfold Workdays.addWorkdays
    cases fuel <;> simp [Workdays.addWorkdaysLoop]

/-- Claim C24 on Friday 1970-01-02 with `n = -3` and nine iterations: the
result is the Tuesday before. -/
theorem addWorkdays_nth_workday_witness :
    3 * (-3 : Int).natAbs ≤ 9 ∧
    Workdays.addWorkdays 9 Workdays.friday (-3) = some (Workdays.addDays Workdays.friday (-3)) ∧
    ∃ k : Nat, 0 < k ∧
      Workdays.addWorkdays 9 Workdays.friday (-3) =
        some (Workdays.addDays Workdays.friday ((if (-3 : Int) > 0 then 1 else -1) * k)) ∧
      Workdays.workdaysAmong Workdays.friday (if (-3 : Int) > 0 then 1 else -1) k = 3 :=
  have h := (addWorkdays_nth_workday 9 Workdays.friday (-3) (by decide)).1 (by decide)
  ⟨by decide, by decide, h.imp fun _ hk => ⟨hk.1, hk.2.1, hk.2.2.2⟩⟩

/-! ## The router of the line parser -/

/-- Claim C16: on a text that is not blank `decideParser` returns, and its
result is the name of the first of the patterns `math`, `unit`, `language`
that matches the text, and `language` when none does; it fails, with a
`ParserError` of type `VALIDATION_ERROR`, exactly on a missing, empty or
blank text. The four examples of the claim follow. -/
theorem decideParser_rule (text : String) (h : Js.trim text ≠ "") :
    Parser.decideParser (some text) = Except.ok
      (if Js.test false Parser.routerMath text then "math"
       else if Js.test true Parser.routerUnit text then "unit"
       else if Js.test true Parser.routerLanguage text then "language"
       else "language") ∧
    (∀ inputText : Option String,
      Parser.decideParser inputText =
          Except.error { message := "Empty input", type := "VALIDATION_ERROR" } ↔
        (inputText = none ∨ ∃ t, inputText = some t ∧ Js.trim t = "")) ∧
    Parser.decideParser (some "12 + 4 * 2") = Except.ok "math" ∧
    Parser.decideParser (some "5km to m") = Except.ok "unit" ∧
    Parser.decideParser (some "tomorrow") = Except.ok "language" ∧
    Parser.decideParser (some "") =
      Except.error { message := "Empty input", type := "VALIDATION_ERROR" } := by
  have hok : ∀ t : String, Js.trim t ≠ "" → Parser.decideParser (some t) = Except.ok
      (if Js.test false Parser.routerMath t then "math"
       else if Js.test true Parser.routerUnit t then "unit"
       else if Js.test true Parser.routerLanguage t then "language"
       else "language") := by
    intro t ht
    simp only [Parser.decideParser, ht, if_false, Parser.routerPatterns, List.find?]
    cases h1 : Js.test false Parser.routerMath t
    · cases h2 : Js.test true Parser.routerUnit t
      · cases h3 : Js.test true Parser.routerLanguage t <;> simp
      · simp
    · simp
  refine ⟨hok text h, ?_, by decide!, by decide!, by decide!, by decide!⟩
  intro inputText
  constructor
  · intro he
    cases inputText with
    | none => exact Or.inl rfl
    | some t =>
      refine Or.inr ⟨t, rfl, ?_⟩
      by_contra hne
      rw [hok t hne] at he
      cases he
  · rintro (rfl | ⟨t, rfl, ht⟩)
    · rfl
    · simp [Parser.decideParser, ht]

/-- Claim C16 on the text "next friday", which only the pattern `language`
matches. -/
theorem decideParser_rule_witness :
    Js.trim "next friday" ≠ "" ∧
    Js.test true Parser.routerLanguage "next friday" = true ∧
    Parser.decideParser (some "next friday") = Except.ok "language" :=
  ⟨by decide, by decide!,
    (decideParser_rule "next friday" (by decide)).1.trans (by decide!)⟩

/-! ## The worker's view of a definition -/

/-- Claim C28, the line that contradicts it. The parser takes "x = 5" as an
assignment to `x` (its pattern accepts `:` and `=`), and the worker, whose
pattern for a definition accepts the colon only, answers with no name in
`defines` and with `x` in `uses`. With the colon, `x` is in `defines`. The
second half of the claim holds: no name of `defines` is in `uses`. -/
theorem worker_misses_equals_definition :
    ((Js.exec false Parser.VARIABLE_ASSIGNMENT "x = 5").bind fun m => m.group 1) = some "x" ∧
    Parser.lineVariables "x = 5" = { defines := [], uses := ["x"] } ∧
    Parser.lineVariables "x: 5" = { defines := ["x"], uses := [] } ∧
    (∀ (lineText v : String), v ∈ (Parser.lineVariables lineText).defines →
      v ∉ (Parser.lineVariables lineText).uses) := by
  refine ⟨by decide!, by decide!, by decide!, ?_⟩
  intro lineText v hd hu
  unfold Parser.lineVariables at hd hu
  simp only [List.mem_filter] at hu
  have := hu.2
  simp only [Bool.not_eq_true', List.contains_eq_any_beq, List.any_eq_false, beq_iff_eq] at this
  exact this v hd rfl

/-! ## Unit conversions -/

theorem siPrefix_scale (value : ℚ) (fromPrefix toPrefix : String) (fromExp toExp : Int)
    (hf : Parser.prefixExponent fromPrefix = some fromExp)
    (ht : Parser.prefixExponent toPrefix = some toExp) :
    Parser.siPrefix value fromPrefix toPrefix = some (value * Parser.pow10 (toExp - fromExp)) := by
  simp [Parser.siPrefix, hf, ht]

/-- Claim C19, the conversions that contradict it. `siPrefix` multiplies the
value by ten to the power `e_to - e_from`, the inverse of the factor of the
claim: `convertSIPrefix` makes 0.005 of 5 kilo-units in unprefixed units, and
5000 of 5 unprefixed units in kilo-units. -/
theorem siPrefix_inverts_the_scale :
    Parser.prefixExponent "k" = some 3 ∧ Parser.prefixExponent "" = some 0 ∧
    Parser.siPrefix 5 "k" "" = some (5 * Parser.pow10 (0 - 3)) ∧
    Parser.convertSIPrefix 5 "kunit" "unit" =
      some { value := Parser.Value.number (5 / 1000), unit := some "unit",
             formatted := some "0.0050 unit", scientific := none } ∧
    Parser.convertSIPrefix 5 "unit" "kunit" =
      some { value := Parser.Value.number 5000, unit := some "kunit",
             formatted := some "5000.0000 kunit", scientific := none } ∧
    Parser.unitParse Parser.sampleUnit "5 kunit to unit" =
      some { value := Parser.Value.number (5 / 1000), unit := some "unit",
             formatted := some "0.0050 unit", scientific := none } := by
  decide!

section DoubleArithmetic

open Js Parser

/-- Claim C22, as amended: for every input in which the temperature pattern
finds a numeral and two different letters among `C`, `F` and `K`,
`UnitConversionParser.parse` returns the closed-form conversion of the double
`v` that `parseFloat` reads from the numeral, evaluated in the arithmetic of
the doubles (each operation rounded to the nearest double, 273.15 being the
double nearest to it), the target letter as the unit, and as `formatted` the
text that `toFixed(2)` makes of that double, followed by the degree sign and
the target letter. -/
theorem parse_temperature (mathUnit : Number → String → String → Option Number)
    (input value fromUnit toUnit : String)
    (h1 : ((exec true TEMPERATURE input).bind fun m => m.group 1) = some value)
    (h2 : ((exec true TEMPERATURE input).bind fun m => m.group 2) = some fromUnit)
    (h3 : ((exec true TEMPERATURE input).bind fun m => m.group 3) = some toUnit)
    (hfrom : fromUnit ∈ ["C", "F", "K"]) (hto : toUnit ∈ ["C", "F", "K"])
    (hne : fromUnit ≠ toUnit) :
    ∃ result : Number,
      unitParse mathUnit input =
        some { value := Value.ofNumber result, unit := some toUnit,
               formatted := some (result.toFixed 2 ++ "°" ++ toUnit), scientific := none } ∧
      (fromUnit = "C" → toUnit = "F" →
        result = Number.add (Number.div (Number.mul (parseFloat value) (Number.finite 9)) (Number.finite 5))
          (Number.finite 32)) ∧
      (fromUnit = "F" → toUnit = "C" →
        result = Number.div (Number.mul (Number.sub (parseFloat value) (Number.finite 32)) (Number.finite 5))
          (Number.finite 9)) ∧
      (fromUnit = "C" → toUnit = "K" →
        result = Number.add (parseFloat value) (roundDouble (27315 / 100))) ∧
      (fromUnit = "K" → toUnit = "C" →
        result = Number.sub (parseFloat value) (roundDouble (27315 / 100))) ∧
      (fromUnit = "F" → toUnit = "K" →
        result = Number.add
          (Number.div (Number.mul (Number.sub (parseFloat value) (Number.finite 32)) (Number.finite 5))
            (Number.finite 9))
          (roundDouble (27315 / 100))) ∧
      (fromUnit = "K" → toUnit = "F" →
        result = Number.add
          (Number.div (Number.mul (Number.sub (parseFloat value) (roundDouble (27315 / 100)))
            (Number.finite 9)) (Number.finite 5))
          (Number.finite 32)) := by
  cases hm : exec true TEMPERATURE input with
  | none =>
    rw [hm] at h1
    cases h1
  | some m =>
    rw [hm] at h1 h2 h3
    simp only [Option.some_bind] at h1 h2 h3
    have hp : unitParse mathUnit input =
        convertTemperature (parseFloat value) fromUnit toUnit := by
      unfold unitParse
      simp only [hm, h1, h2, h3, Option.getD_some]
    rw [hp]
    unfold convertTemperature
    simp only [hne, if_false]
    simp only [List.mem_cons, List.mem_singleton, List.not_mem_nil, or_false] at hfrom hto
    rcases hfrom with rfl | rfl | rfl <;> rcases hto with rfl | rfl | rfl <;>
      first
      | exact absurd rfl hne
      | (refine ⟨_, rfl, ?_, ?_, ?_, ?_, ?_, ?_⟩ <;> intro ha hb <;>
          first
          | rfl
          | exact absurd ha (by decide)
          | exact absurd hb (by decide))

/-- Claim C22 on the input "30C to F": 86, formatted "86.00°F". -/
theorem parse_temperature_witness :
    parseFloat "30" = Number.finite 30 ∧
    unitParse sampleUnit "30C to F" =
      some { value := Value.number 86, unit := some "F",
             formatted := some "86.00°F", scientific := none } ∧
    ∃ result : Number,
      result = Number.add (Number.div (Number.mul (parseFloat "30") (Number.finite 9)) (Number.finite 5))
        (Number.finite 32) ∧
      unitParse sampleUnit "30C to F" =
        some { value := Value.ofNumber result, unit := some "F",
               formatted := some (result.toFixed 2 ++ "°" ++ "F"), scientific := none } :=
  have ⟨result, hr, hcf, _⟩ := parse_temperature sampleUnit "30C to F" "30" "C" "F"
    (by decide!) (by decide!) (by decide!) (by decide) (by decide) (by decide)
  ⟨by decide!, by decide!, result, hcf rfl rfl, hr⟩

/-- Claim C22 as first stated fails on "1.005C to K". The sum of the doubles
nearest to 1.005 and to 273.15 is a double just below 274.155 (it is the one
nearest to 274.155, and is printed as 274.155), and `toFixed(2)` rounds the
exact value of that double: `formatted` is "274.15°K", where the conversion
1.005 + 273.15 = 274.155 to two decimals is 274.16. -/
theorem temperature_formatted_from_the_double :
    unitParse sampleUnit "1.005C to K" =
      some { value := Value.number (1205746441251717 / 4398046511104), unit := some "K",
             formatted := some "274.15°K", scientific := none } ∧
    ((1205746441251717 / 4398046511104 : ℚ) < 1005 / 1000 + 27315 / 100) ∧
    roundDouble (1005 / 1000 + 27315 / 100) = Number.finite (1205746441251717 / 4398046511104) ∧
    numberToString (1205746441251717 / 4398046511104) = "274.155" ∧
    fixedDigits 2 (1005 / 1000 + 27315 / 100) = "274.16" := by
  decide!

/-- Claim C23, as amended: for every line in which the proportion pattern
finds the numerals of `A`, `B` and `C` and the three unit words,
`handleProportions` returns the text made of the double of `C` printed as a
number, the third unit, "requires", the text that `toFixed(2)` makes of `D`,
and the second unit, where `D` is the product of the doubles of `B` and `C`,
rounded to the nearest double, divided by the double of `A` and rounded
again. (For a numeral `A` whose double is zero the same holds, `D` being an
infinity or `NaN`.) -/
theorem handleProportions_solves (input x1 y1 x2 unit2 unit3 : String)
    (h1 : ((exec true PROPORTION input).bind fun m => m.group 1) = some x1)
    (h3 : ((exec true PROPORTION input).bind fun m => m.group 3) = some y1)
    (h4 : ((exec true PROPORTION input).bind fun m => m.group 4) = some unit2)
    (h5 : ((exec true PROPORTION input).bind fun m => m.group 5) = some x2)
    (h6 : ((exec true PROPORTION input).bind fun m => m.group 6) = some unit3) :
    handleProportions input =
      some { value := Value.text
               ((parseFloat x2).toText ++ " " ++ unit3 ++ " requires " ++
                 (Number.div (Number.mul (parseFloat y1) (parseFloat x2)) (parseFloat x1)).toFixed 2 ++
                 " " ++ unit2),
             type := none, original := none } := by
  cases hm : exec true PROPORTION input with
  | none =>
    rw [hm] at h1
    cases h1
  | some m =>
    rw [hm] at h1 h3 h4 h5 h6
    simp only [Option.some_bind] at h1 h3 h4 h5 h6
    unfold handleProportions
    simp only [test, hm, Option.isSome_some, if_true, h1, h3, h4, h5, h6, Option.getD_some]

/-- Claim C23 on the line of the claim: "20 grams requires 10.00 liters". -/
theorem handleProportions_solves_witness :
    parseFloat "10" = Number.finite 10 ∧
    (Number.div (Number.mul (parseFloat "5") (parseFloat "20")) (parseFloat "10")).toFixed 2 =
      "10.00" ∧
    handleProportions "if 10 grams requires 5 liters than 20 grams requires ??" =
      some { value := Value.text "20 grams requires 10.00 liters",
             type := none, original := none } :=
  ⟨by decide!, by decide!,
    (handleProportions_solves "if 10 grams requires 5 liters than 20 grams requires ??"
      "10" "5" "20" "liters" "grams" (by decide!) (by decide!) (by decide!) (by decide!)
      (by decide!)).trans (by decide!)⟩

/-- Claim C23 as first stated fails on the lines with `B` = 1.015 and
`B` = 1.005 (`A` = `C` = 1). The doubles nearest to 1.015 and to 1.005 are
below them, and `toFixed(2)` rounds the exact value of the double: the texts
are "1 c requires 1.01 b" and "1 c requires 1.00 b", where `B·C/A` rounded to
two decimals is 1.02 and 1.01. -/
theorem proportion_rounds_the_double :
    handleProportions "if 1 a requires 1.015 b than 1 c requires ??" =
      some { value := Value.text "1 c requires 1.01 b", type := none, original := none } ∧
    parseFloat "1.015" = Number.finite (4571153621781053 / 4503599627370496) ∧
    ((4571153621781053 / 4503599627370496 : ℚ) < 1015 / 1000) ∧
    fixedDigits 2 (1015 / 1000 * 1 / 1) = "1.02" ∧
    handleProportions "if 1 a requires 1.005 b than 1 c requires ??" =
      some { value := Value.text "1 c requires 1.00 b", type := none, original := none } ∧
    fixedDigits 2 (1005 / 1000 * 1 / 1) = "1.01" := by
  decide!

end DoubleArithmetic

section ParserFindings

open Parser Js

/-- C17 (fails on the code): the right-hand side of the line `x = ` is blank,
`handleInput` answers it with the failure object of the router, which is not
`null`, and `handleVariableAssignment` then stores the property `value` of
that object, `undefined`, under the name: a binding of `x` is replaced, and a
later line `x + 1` is rewritten to `undefined + 1`. An expression that no
stage can read (`price * 2` without a variable `price`) has the same
effect. -/
theorem failed_expression_binds_undefined (lib : MathLib) (nlp : Nlp) (fuel : Nat) (env : Env) :
    LanguageParser.handleVariableAssignment (handleInput lib nlp (fuel + 1)) env "x = " =
        some (Outcome.failure "Empty input" (some "VALIDATION_ERROR"),
          setVariable env "x" Value.undefined) ∧
      setVariable [("x", Value.number 5)] "x" Value.undefined = [("x", Value.undefined)] ∧
      MathParser.replaceVariables [("x", Value.undefined)] "x + 1" = "undefined + 1" ∧
      LanguageParser.handleVariableAssignment (handleInput sampleMath sampleNlp (fuel + 2))
          [("total", Value.number 5)] "total = price * 2" =
        some (Outcome.failure "Could not parse input" none, [("total", Value.undefined)]) := by
  refine ⟨rfl, by decide, by decide!, ?_⟩
  rfl

end ParserFindings

section ParserFindings

open Parser Js

/-- With variables, and unless the text after the replacements is an
expression, both `replaceVariables` return that text. -/
theorem languageReplace_eq (lib : MathLib) (env : Env) (input : String)
    (h1 : env.isEmpty = false) (h2 : test false PURE_MATH (substituteVariables env input) = false) :
    LanguageParser.replaceVariables lib env input = substituteVariables env input := by
  unfold LanguageParser.replaceVariables
  simp [h1, h2]

/-- Without variables, `handleNumbersAndPercentages` on a line that is not an
expression: the stages after the first evaluation. -/
theorem handleNumbers_of_text (lib : MathLib) (nlp : Nlp) (input : String)
    (h : test false PURE_MATH input = false) :
    LanguageParser.handleNumbersAndPercentages lib nlp [] input =
      if nlp.numbers input = 0 && nlp.percentages input = 0 then none
      else if test false PURE_MATH (percentExpression (normalizePercentOperations input)) then
        (lib.evaluate (percentExpression (normalizePercentOperations input))).map Parsed.ofValue
      else applyPhrase lib (cleanText (normalizePercentOperations input)) nlPatterns := by
  unfold LanguageParser.handleNumbersAndPercentages
  simp only [LanguageParser.replaceVariables, List.isEmpty, if_true, h]
  rfl

/-- The function of the first phrase of the table that is in a text with
numbers. -/
theorem applyPhrase_sum (lib : MathLib) (text : String) (numbers : List String)
    (h1 : includes text "sum of" = true) (h2 : matchAll false numeral text = numbers)
    (h3 : numbers.isEmpty = false) :
    applyPhrase lib text nlPatterns =
      (lib.evaluateScoped (phraseCall "sum" numbers)).map Parsed.ofValue := by
  unfold nlPatterns applyPhrase
  simp [h1, h2, h3]

/-- C18 (fails on the code): the names are replaced one after the other, each
in the text that the earlier replacements have produced. With `dose` bound to
the result of a proportion, `20 gram requires 10.00 liters`, and `gram` bound
to 1000, the line `dose` becomes `20 1000 requires 10.00 liters` when `dose`
was defined first and `20 gram requires 10.00 liters` when `gram` was
defined first: the text of a replacement is replaced again, and the result
depends on the order of the definitions. The example of the claim holds:
with `team = 5` and `hours = 7.5` the line `team * hours` is rewritten to
`5 * 7.5`, which the sample of mathjs evaluates to 37.5. -/
theorem replaceVariables_depends_on_order :
    (handleProportions "if 10 gram requires 5 liters than 20 gram requires ??").map
        (fun p => p.value) = some (Value.text "20 gram requires 10.00 liters") ∧
      MathParser.replaceVariables
          (setVariable (setVariable [] "dose" (Value.text "20 gram requires 10.00 liters"))
            "gram" (Value.number 1000)) "dose" = "20 1000 requires 10.00 liters" ∧
      MathParser.replaceVariables
          (setVariable (setVariable [] "gram" (Value.number 1000))
            "dose" (Value.text "20 gram requires 10.00 liters")) "dose" =
        "20 gram requires 10.00 liters" ∧
      (∀ lib : MathLib,
        LanguageParser.replaceVariables lib
            (setVariable (setVariable [] "dose" (Value.text "20 gram requires 10.00 liters"))
              "gram" (Value.number 1000)) "dose" = "20 1000 requires 10.00 liters" ∧
        LanguageParser.replaceVariables lib
            (setVariable (setVariable [] "gram" (Value.number 1000))
              "dose" (Value.text "20 gram requires 10.00 liters")) "dose" =
          "20 gram requires 10.00 liters") ∧
      MathParser.replaceVariables
          (setVariable (setVariable [] "team" (Value.number 5)) "hours" (Value.number (15 / 2)))
          "team * hours" = "5 * 7.5" ∧
      (handleInput sampleMath sampleNlp 1
          (setVariable (setVariable [] "team" (Value.number 5)) "hours" (Value.number (15 / 2)))
          "team * hours").map (fun r => r.1.value) = some (Value.number (75 / 2)) := by
  refine ⟨by decide!, by decide!, by decide!, fun lib => ⟨?_, ?_⟩, by decide!, by decide!⟩
  · rw [languageReplace_eq lib _ _ (by decide!) (by decide!)]
    decide!
  · rw [languageReplace_eq lib _ _ (by decide!) (by decide!)]
    decide!

/-- C20 (fails on the code): the full stops and commas of the line are
removed before its numbers are collected, so that for `sum of 1.5 2.5` the
expression given to mathjs is `sum(15,25)`, whose value is 40 and not 4. For
`sum of 1 2 4 5` the expression is `sum(1,2,4,5)`, whose value is 12. -/
theorem phrase_numbers_lose_decimal_point (lib : MathLib) (nlp : Nlp) :
    LanguageParser.handleNumbersAndPercentages lib nlp [] "sum of 1.5 2.5" =
        (if nlp.numbers "sum of 1.5 2.5" = 0 && nlp.percentages "sum of 1.5 2.5" = 0 then none
         else (lib.evaluateScoped "sum(15,25)").map Parsed.ofValue) ∧
      LanguageParser.handleNumbersAndPercentages sampleMath sampleNlp [] "sum of 1.5 2.5" =
        some (Parsed.ofValue (Value.number 40)) ∧
      LanguageParser.handleNumbersAndPercentages lib nlp [] "sum of 1 2 4 5" =
        (if nlp.numbers "sum of 1 2 4 5" = 0 && nlp.percentages "sum of 1 2 4 5" = 0 then none
         else (lib.evaluateScoped "sum(1,2,4,5)").map Parsed.ofValue) ∧
      LanguageParser.handleNumbersAndPercentages sampleMath sampleNlp [] "sum of 1 2 4 5" =
        some (Parsed.ofValue (Value.number 12)) := by
  refine ⟨?_, by decide!, ?_, by decide!⟩
  · rw [handleNumbers_of_text lib nlp _ (by decide!),
      if_neg (show ¬ test false PURE_MATH
        (percentExpression (normalizePercentOperations "sum of 1.5 2.5")) = true by decide!),
      applyPhrase_sum lib _ ["15", "25"] (by decide!) (by decide!) rfl]
    rfl
  · rw [handleNumbers_of_text lib nlp _ (by decide!),
      if_neg (show ¬ test false PURE_MATH
        (percentExpression (normalizePercentOperations "sum of 1 2 4 5")) = true by decide!),
      applyPhrase_sum lib _ ["1", "2", "4", "5"] (by decide!) (by decide!) rfl]
    rfl

/-- C21 (fails on the code): `PATTERNS.PERCENTAGE` captures the digits next to
the percent sign only, so that `2.5% of 200` becomes the expression
`2.0.05 * 200`, which is not the product of 2.5 / 100 and 200 (the sample of
mathjs rejects it, and the result is `null`). With whole percentages and in
the additive forms the expression is the one of the claim: `10% of 100`
becomes `0.1 * 100`, `99.5 + 2.5%` becomes `99.5 + (99.5 * 2.5 / 100)` and
`200 - 10%` becomes `200 - (200 * 10 / 100)`. -/
theorem percentage_drops_fraction (lib : MathLib) (nlp : Nlp) :
    LanguageParser.handleNumbersAndPercentages lib nlp [] "2.5% of 200" =
        (if nlp.numbers "2.5% of 200" = 0 && nlp.percentages "2.5% of 200" = 0 then none
         else (lib.evaluate "2.0.05 * 200").map Parsed.ofValue) ∧
      LanguageParser.handleNumbersAndPercentages sampleMath sampleNlp [] "2.5% of 200" = none ∧
      LanguageParser.handleNumbersAndPercentages lib nlp [] "10% of 100" =
        (if nlp.numbers "10% of 100" = 0 && nlp.percentages "10% of 100" = 0 then none
         else (lib.evaluate "0.1 * 100").map Parsed.ofValue) ∧
      LanguageParser.handleNumbersAndPercentages sampleMath sampleNlp [] "10% of 100" =
        some (Parsed.ofValue (Value.number 10)) ∧
      LanguageParser.handleNumbersAndPercentages lib nlp [] "99.5 + 2.5%" =
        (if nlp.numbers "99.5 + 2.5%" = 0 && nlp.percentages "99.5 + 2.5%" = 0 then none
         else (lib.evaluate "99.5 + (99.5 * 2.5 / 100)").map Parsed.ofValue) ∧
      LanguageParser.handleNumbersAndPercentages lib nlp [] "200 - 10%" =
        (if nlp.numbers "200 - 10%" = 0 && nlp.percentages "200 - 10%" = 0 then none
         else (lib.evaluate "200 - (200 * 10 / 100)").map Parsed.ofValue) := by
  refine ⟨?_, by decide!, ?_, by decide!, ?_, ?_⟩
  · rw [handleNumbers_of_text lib nlp _ (by decide!),
      show percentExpression (normalizePercentOperations "2.5% of 200") = "2.0.05 * 200"
        by decide!,
      if_pos (show test false PURE_MATH "2.0.05 * 200" = true by decide!)]
  · rw [handleNumbers_of_text lib nlp _ (by decide!),
      show percentExpression (normalizePercentOperations "10% of 100") = "0.1 * 100" by decide!,
      if_pos (show test false PURE_MATH "0.1 * 100" = true by decide!)]
  · rw [handleNumbers_of_text lib nlp _ (by decide!),
      show percentExpression (normalizePercentOperations "99.5 + 2.5%") =
        "99.5 + (99.5 * 2.5 / 100)" by decide!,
      if_pos (show test false PURE_MATH "99.5 + (99.5 * 2.5 / 100)" = true by decide!)]
  · rw [handleNumbers_of_text lib nlp _ (by decide!),
      show percentExpression (normalizePercentOperations "200 - 10%") =
        "200 - (200 * 10 / 100)" by decide!,
      if_pos (show test false PURE_MATH "200 - (200 * 10 / 100)" = true by decide!)]

end ParserFindings

section CalendarFindings

open Calendar

/-- C27 (fails on the code): the id of the event that the parser produces is
the instant of the parse in base 36 followed by a random text, whatever the
line. Two parses of the line `Meeting tomorrow`, a quarter of a second apart,
give events that differ in their id and in nothing else; the key that
`generateEventId` computes for them is the same, but `rebuildEvents` looks the
stored id up among these keys and the key among the stored ids, so that the
event of the first parse is removed from the calendar and the event of the
second parse is added. One event remains, under the new id. -/
theorem event_id_changes_on_reparse :
    (∀ (now : Nat) (random : String) (doc : EventSources) (input : String)
        (lineNumber : Option Nat) (r : EventResult),
        handleExtractEvent now random doc input lineNumber = some r →
          r.original.id = toBase36 now ++ random) ∧
      (parsedMeeting 1749456000000 "k3j9x2m1q").id = "mbosxkw0k3j9x2m1q" ∧
      (parsedMeeting 1749456000250 "8fh2k1p0z").id = "mbosxl2y8fh2k1p0z" ∧
      { parsedMeeting 1749456000250 "8fh2k1p0z" with id := "mbosxkw0k3j9x2m1q" } =
        parsedMeeting 1749456000000 "k3j9x2m1q" ∧
      generateEventId (parsedMeeting 1749456000000 "k3j9x2m1q") =
        generateEventId (parsedMeeting 1749456000250 "8fh2k1p0z") ∧
      (rebuildEvents sampleMonthKey { groupedByMonth := [], eventIds := [] }
          [parsedMeeting 1749456000000 "k3j9x2m1q"]).1 =
        { groupedByMonth := [("2025-06", [parsedMeeting 1749456000000 "k3j9x2m1q"])],
          eventIds := ["mbosxkw0k3j9x2m1q"] } ∧
      (rebuildEvents sampleMonthKey
          { groupedByMonth := [("2025-06", [parsedMeeting 1749456000000 "k3j9x2m1q"])],
            eventIds := ["mbosxkw0k3j9x2m1q"] }
          [parsedMeeting 1749456000250 "8fh2k1p0z"]).1 =
        { groupedByMonth := [("2025-06", [parsedMeeting 1749456000250 "8fh2k1p0z"])],
          eventIds := ["mbosxl2y8fh2k1p0z"] } := by
  refine ⟨?_, by decide!, by decide!, by decide!, by decide!, by decide!, by decide!⟩
  intro now random doc input lineNumber r h
  unfold handleExtractEvent at h
  cases hd : doc.dates with
  | nil => simp [hd] at h
  | cons first rest =>
    simp only [hd, Option.some.injEq] at h
    rw [← h]

end CalendarFindings

end NoteSum
